import Mathlib

/-!
# mlibtool: a shallow embedding of `mlibtool.c`

The C program is a miniature `libtool`.  Its two translators, `ltcompile` and `ltlink`,
rewrite a libtool command line into compiler, archiver and linker commands, run them
through `spawn`, and write small descriptor files; `main` reads the options, decides with
`systemIsSane` or `checkLoSanity` whether the system is one it knows, and calls a translator
or the reference libtool.  This file embeds these functions as Lean functions over an
explicit world (a flat file system plus a trace of the system calls made) and proves
properties of them.

Conventions of the embedding:

* a C string is a `String`; character-level functions work on `String.data`;
* `argv`-style arrays are `List String`; a `NULL`-terminated vector handed to `spawn`
  is a `List (Option String)` in which `none` is `NULL`;
* `int` is `Int`, reduced to the 32-bit two's complement range by `wrapInt` where the
  C code stores or subtracts;
* `exit`, `execvp` of the reference libtool, a normal return and the end of the process
  by a signal are the four constructors of `Outcome`;
* what a child process does is a parameter of the run (`Env.run`); the system calls the
  program makes itself (`mkdir`, `link`, `unlink`, `rename`, `symlink`, `fopen`, `access`)
  act on a flat file system, a partial map from path strings to nodes;
* what the preprocessor child of `systemIsSane` does (the bytes it writes and how the reads
  find them, its wait status, which system calls fail) is a parameter too
  (`ProbeEnv.probe`); this child does not change the file system.  The one signal modelled
  is the `SIGPIPE` that the `write` of the probe text raises when the child has closed its
  end of the pipe: the program sets no signal disposition, so the signal ends the process;
* an uninitialised array is a parameter: the bytes it holds at the start;
* memory is not modelled: `malloc`, `realloc` and `strdup` succeed, and the buffers of
  the C code are lists.

The file has two parts: the definitions (the C library functions used, the world, the two
translators, the probe, the descriptor check and `main`, then the vocabulary of the
statements), and the theorems.
-/

namespace Mlibtool

/-! ## C library: strings -/

/-- The test `arg[0] == '-'`. -/
def isFlag (arg : String) : Bool :=
  match arg.data with
  | '-' :: _ => true
  | _ => false

/-- The test `!strncmp(s, p, strlen(p))`: the characters of `p` begin `s`. -/
def startsWith (p s : String) : Bool :=
  p.data.isPrefixOf s.data

/-- The pointer `s + n` of a C string of length at least `n`. -/
def strFrom (s : String) (n : Nat) : String :=
  String.mk (s.data.drop n)

/-- Split at the last occurrence of `c`: `strrchrSplit c s = some (p, q)` when `s = p ++ q`
and `q` starts at the last `c` of `s`, the pointer `strrchr(s, c)` returns. -/
def strrchrSplit (c : Char) : List Char → Option (List Char × List Char)
  | [] => none
  | x :: xs =>
    match strrchrSplit c xs with
    | some (p, q) => some (x :: p, q)
    | none => if x = c then some ([], x :: xs) else none

/-- The string `strrchr(s, '.')` points to, `none` for `NULL`. -/
def strrchrDot (s : String) : Option String :=
  (strrchrSplit '.' s.data).map fun pq => String.mk pq.2

/-- The effect of `ext = strrchr(s, '.'); if (ext) *ext = '\0';` on `s`. -/
def cutAtLastDot (s : String) : String :=
  match strrchrSplit '.' s.data with
  | some (p, _) => String.mk p
  | none => s

/-- The test `ext && !strcmp(ext, e)` for `ext = strrchr(s, '.')`. -/
def hasExt (s e : String) : Bool :=
  strrchrDot s == some e

/-! ## C library: `dirname` and `basename` of `<libgen.h>` -/

/-- Remove the slashes that end a path. -/
def stripSlashes (s : List Char) : List Char :=
  (s.reverse.dropWhile (fun c => c == '/')).reverse

/-- The characters after the last slash of a path, the whole path when it has none. -/
def lastComponent (s : List Char) : List Char :=
  (s.reverse.takeWhile (fun c => c != '/')).reverse

/-- The characters before the last slash of a path that has one. -/
def beforeLastSlash (s : List Char) : List Char :=
  ((s.reverse.dropWhile (fun c => c != '/')).drop 1).reverse

/-- POSIX `dirname` as the GNU C library implements it: trailing slashes are ignored, a path
without a directory part gives `.`, and a directory part made of slashes only gives `/`
(`//` when it is exactly two slashes). -/
def dirname (path : String) : String :=
  let t := stripSlashes path.data
  let u := if t = [] then path.data else t
  if u.contains '/' then
    let p := beforeLastSlash u
    let q := stripSlashes p
    if q = [] then (if p.length = 1 then "//" else "/") else String.mk q
  else "."

/-- POSIX `basename` (the `<libgen.h>` one): the last component of the path, trailing slashes
ignored; `.` for the empty path and `/` for a path of slashes only.  (For the empty path the
C function returns a static string, which the callers then cut at its `.`; the model gives
the value the cut string has.) -/
def basename (path : String) : String :=
  if path.data = [] then "."
  else
    let t := stripSlashes path.data
    if t = [] then "/" else String.mk (lastComponent t)

/-! ## C library: `sscanf` with `%d` and `printf` with `%d` -/

/-- Reduce an integer to the range of a 32-bit `int`, as two's complement arithmetic does. -/
def wrapInt (x : Int) : Int :=
  (x + 2147483648) % 4294967296 - 2147483648

/-- The white space `%d` skips (`isspace` in the C locale). -/
def isSpaceC (c : Char) : Bool :=
  c == ' ' || c == '\t' || c == '\n' || c == '\x0b' || c == '\x0c' || c == '\r'

/-- Read the decimal digits that start `s`, continuing the number `acc`. -/
def scanDigits : List Char → Nat → Nat × List Char
  | [], acc => (acc, [])
  | c :: cs, acc =>
    if c.isDigit then scanDigits cs (10 * acc + (c.toNat - 48)) else (acc, c :: cs)

/-- The optional sign of a `%d` conversion: whether it is `-`, and the input after it. -/
def scanSign : List Char → Bool × List Char
  | '-' :: t => (true, t)
  | '+' :: t => (false, t)
  | s => (false, s)

/-- One `%d` conversion: skip white space, read an optional sign and at least one digit.
Returns the value stored in the `int` and the unread input, `none` on a matching failure.
A number outside the range of `int` (undefined in ISO C) is stored reduced by `wrapInt`. -/
def scanInt (s : List Char) : Option (Int × List Char) :=
  let signed := scanSign (s.dropWhile isSpaceC)
  match signed.2 with
  | [] => none
  | c :: _ =>
    if c.isDigit then
      let r := scanDigits signed.2 0
      some (wrapInt (if signed.1 then - (r.1 : Int) else (r.1 : Int)), r.2)
    else none

/-- The call `sscanf(s, "%d:%d:%d", &current, &revision, &minor)`: the three variables after
the call, given their values before it.  A variable is assigned only when its conversion
succeeds, and scanning stops at the first failure. -/
def sscanfVersion (s : List Char) (current revision minor : Int) : Int × Int × Int :=
  match scanInt s with
  | none => (current, revision, minor)
  | some (c, rest) =>
    match rest with
    | ':' :: rest1 =>
      match scanInt rest1 with
      | none => (c, revision, minor)
      | some (r, rest2) =>
        match rest2 with
        | ':' :: rest3 =>
          match scanInt rest3 with
          | none => (c, r, minor)
          | some (a, _) => (c, r, a)
        | _ => (c, r, minor)
    | _ => (c, revision, minor)

/-- The conversion `%d` of `printf`. -/
def fmtInt (i : Int) : String :=
  match i with
  | Int.ofNat n => String.mk (Nat.toDigits 10 n)
  | Int.negSucc n => String.mk ('-' :: Nat.toDigits 10 (n + 1))

/-! ## The world: a flat file system and a trace of system calls -/

/-- What a path names. -/
inductive Node where
  | file (content : String)
  | symlink (target : String)
  | dir
  deriving DecidableEq, Repr

/-- A flat file system: a partial map from path strings to nodes.  Two spellings of one path
are two keys, and a symbolic link is not followed. -/
abbrev FS := String → Option Node

/-- Update of one path. -/
def FS.set (fs : FS) (path : String) (n : Option Node) : FS :=
  fun p => if p = path then n else fs p

/-- The header lines of every descriptor this program writes. -/
def SANE_HEADER : String := "# SYSTEM_IS_SANE\n"

/-- The program name and version. -/
def PACKAGE : String := "libtool (mlibtool) 0.1"

/-- The second line of every descriptor. -/
def PACKAGE_HEADER : String := "# Generated by " ++ PACKAGE ++ "\n"

/-- A system call or diagnostic the program makes, in the order made; `diag` is a line on the
diagnostic output and `print` a `printf` to the standard output. -/
inductive Effect where
  | spawnCall (argv : List (Option String)) (retryIfFail : Bool)
  | echo (cmd : List String)
  | exec (cmd : List String)
  | mkdir (path : String)
  | link (old new : String)
  | unlink (path : String)
  | rename (old new : String)
  | symlink (target path : String)
  | write (path content : String)
  | diag (text : String)
  | perror (what : String)
  | print (text : String)
  deriving DecidableEq, Repr

/-- The state of the world: the file system and the calls made so far. -/
structure World where
  fs : FS
  trace : List Effect

/-- Record an effect. -/
def World.log (w : World) (e : Effect) : World :=
  { w with trace := w.trace ++ [e] }

/-- How a forked child ends, as `spawn` sees it: `fork` fails, `waitpid` fails, or the child
is waited for and leaves a wait status; the child may have changed the file system. -/
inductive ChildResult where
  | forkFailed
  | waitFailed (fs : FS)
  | exited (status : Int) (fs : FS)

/-- The environment of a run: what a child process does when it executes a command. -/
structure Env where
  run : List String → FS → ChildResult

/-- How a translator ends: it returns to `main` (which returns 0), calls `exit(code)`, or
calls `execvp(file, argv)` on the reference libtool.  The run of `main` can also end in
`systemIsSane`, where the process is killed by a signal. -/
inductive Outcome where
  | returned
  | exited (code : Nat)
  | execLibtool (file : Option String) (argv : List String)
  | killed (signal : String)
  deriving DecidableEq, Repr

/-- The end of a run: the final world and how control left the translator. -/
structure Result where
  world : World
  outcome : Outcome

/-- The C `struct Options`: `argc` is the length of `argv`, and `cmd` is the tool command,
the arguments that follow `--mode=`. -/
structure Options where
  dryRun : Bool
  quiet : Bool
  argv : List String
  cmd : List String

/-- `mkdir(path, 0777)`, its result ignored by the callers. -/
def sysMkdir (path : String) (w : World) : World :=
  let w1 := w.log (.mkdir path)
  match w1.fs path with
  | none => { w1 with fs := w1.fs.set path (some .dir) }
  | some _ => w1

/-- `link(old, new)`, its result ignored by the callers: it fails when `old` is missing or
a directory, or `new` exists. -/
def sysLink (old new : String) (w : World) : World :=
  let w1 := w.log (.link old new)
  match w1.fs old, w1.fs new with
  | some (.file c), none => { w1 with fs := w1.fs.set new (some (.file c)) }
  | some (.symlink t), none => { w1 with fs := w1.fs.set new (some (.symlink t)) }
  | _, _ => w1

/-- `unlink(path)`, its result ignored by the callers: it removes a file or a symbolic link
and fails on a directory or a missing path. -/
def sysUnlink (path : String) (w : World) : World :=
  let w1 := w.log (.unlink path)
  match w1.fs path with
  | some (.file _) => { w1 with fs := w1.fs.set path none }
  | some (.symlink _) => { w1 with fs := w1.fs.set path none }
  | _ => w1

/-- `rename(old, new)`: the new world and whether the call succeeded.  It fails when `old`
is missing, when `old` is not a directory and `new` is one, and when `old` is a directory
and `new` exists and is not one. -/
def sysRename (old new : String) (w : World) : World × Bool :=
  let w1 := w.log (.rename old new)
  match w1.fs old with
  | none => (w1, false)
  | some n =>
    let ok : Bool :=
      match n, w1.fs new with
      | _, none => true
      | .dir, some .dir => true
      | .dir, some _ => false
      | _, some .dir => false
      | _, some _ => true
    if ok then ({ w1 with fs := (w1.fs.set old none).set new (some n) }, true)
    else (w1, false)

/-- `symlink(target, path)`: the new world and whether the call succeeded.  It fails when
`path` exists. -/
def sysSymlink (target path : String) (w : World) : World × Bool :=
  let w1 := w.log (.symlink target path)
  match w1.fs path with
  | none => ({ w1 with fs := w1.fs.set path (some (.symlink target)) }, true)
  | some _ => (w1, false)

/-- `fopen(path, "w")`, one `fprintf` of `content` and `fclose`: the new world, `none` when
the file cannot be opened (the path is a directory). -/
def writeFile (path content : String) (w : World) : Option World :=
  match w.fs path with
  | some .dir => none
  | _ => some { fs := w.fs.set path (some (.file content)),
                trace := w.trace ++ [.write path content] }

/-- `access(path, F_OK) == 0`. -/
def accessOk (fs : FS) (path : String) : Bool :=
  (fs path).isSome

/-! ## `execLibtool` and `spawn` -/

/-- The strings of a `NULL`-terminated vector: what `for (i = 0; cmd[i]; i++)` visits. -/
def cstrv : List (Option String) → List String
  | some s :: rest => s :: cstrv rest
  | _ => []

/-- `execLibtool`: `execvp(opt->argv[1], opt->argv + 1)`. -/
def execLibtool (opt : Options) (w : World) : Result :=
  { world := w, outcome := .execLibtool (opt.argv.get? 1) (opt.argv.drop 1) }

/-- `spawn`: echo the command unless quiet; unless dry-run, fork a child that executes it
and wait.  A failed `fork` exits with status 1.  When the wait fails or the status is not 0,
`execLibtool` is called if `retryIfFail` is set and `exit(1)` otherwise. -/
def spawn (env : Env) (opt : Options) (cmd : List (Option String)) (retryIfFail : Bool)
    (w : World) : Except Result World :=
  let w0 := w.log (.spawnCall cmd retryIfFail)
  let w1 := if opt.quiet then w0 else w0.log (.echo (cstrv cmd))
  if opt.dryRun then .ok w1
  else
    match env.run (cstrv cmd) w1.fs with
    | .forkFailed => .error { world := w1.log (.perror "fork"), outcome := .exited 1 }
    | .waitFailed fs =>
      let w2 : World := { fs := fs, trace := w1.trace ++ [.exec (cstrv cmd), .perror ((cstrv cmd).headD "")] }
      if retryIfFail then .error (execLibtool opt w2)
      else .error { world := w2, outcome := .exited 1 }
    | .exited status fs =>
      let w2 : World := { fs := fs, trace := w1.trace ++ [.exec (cstrv cmd)] }
      if status ≠ 0 then
        if retryIfFail then .error (execLibtool opt w2)
        else .error { world := w2, outcome := .exited 1 }
      else .ok w2

/-- A buffer as the vector handed to `spawn` after `WRITE_BUFFER(buf, NULL)`. -/
def nullTerminated (buf : List String) : List (Option String) :=
  buf.map some ++ [none]

/-! ## The argument loop shared by the two translators -/

/-- The loop `for (i = 1; cmd[i]; i++) { arg = cmd[i]; narg = cmd[i+1]; ... }` of both
translators, on the arguments that remain: `step` is the loop body, given `arg` and `narg`
(`none` for `NULL`); it returns the new state and whether the body did `i++`, so that the
argument after `arg` is skipped. -/
def argLoop {σ : Type} (step : σ → String → Option String → σ × Bool) : σ → List String → σ
  | st, [] => st
  | st, [arg] => (step st arg none).1
  | st, arg :: narg :: rest =>
    if (step st arg (some narg)).2 then argLoop step (step st arg (some narg)).1 rest
    else argLoop step (step st arg (some narg)).1 (narg :: rest)

/-- The end of a translator: a run that was not cut short returns to `main`. -/
def finish (r : Except Result World) : Result :=
  match r with
  | .ok w => { world := w, outcome := .returned }
  | .error r => r

/-! ## `ltcompile` -/

/-- The local variables of `ltcompile` that its argument loop sets. -/
structure CompileState where
  outCmd : List String
  outName : Option String
  outNamePos : Nat
  preferPic : Bool
  preferNonPic : Bool
  inName : Option String

/-- The branch `arg[0] == '-'` of the loop body of `ltcompile`: the new state, and whether
the turn also consumed `narg` (`i++`). -/
def ltcompileFlag (st : CompileState) (arg : String) (narg : Option String) :
    CompileState × Bool :=
  if arg = "-o" ∧ narg.isSome then
    ({ st with outCmd := st.outCmd ++ [arg, narg.getD ""],
               outName := narg,
               outNamePos := st.outCmd.length + 1 }, true)
  else if arg = "-prefer-pic" ∨ arg = "-shared" then
    ({ st with preferPic := true }, false)
  else if arg = "-prefer-non-pic" ∨ arg = "-static" then
    ({ st with preferNonPic := true }, false)
  else if startsWith "-Wc," arg then
    ({ st with outCmd := st.outCmd ++ [strFrom arg 4] }, false)
  else if arg = "-no-suppress" then
    (st, false)
  else
    ({ st with outCmd := st.outCmd ++ [arg] }, false)

/-- One turn of the argument loop of `ltcompile` on `arg = cmd[i]` with `narg = cmd[i+1]`
(`none` for `NULL`): the new state, and whether the turn also consumed `narg` (`i++`). -/
def ltcompileArg (st : CompileState) (arg : String) (narg : Option String) :
    CompileState × Bool :=
  if isFlag arg then ltcompileFlag st arg narg
  else ({ st with inName := some arg, outCmd := st.outCmd ++ [arg] }, false)

/-- The argument loop `for (i = 1; opt->cmd[i]; i++)` of `ltcompile`, on the arguments that
remain. -/
def ltcompileLoop : CompileState → List String → CompileState :=
  argLoop ltcompileArg

/-- The state of `ltcompile` after its argument loop. -/
def ltcompileParse (cmd : List String) : CompileState :=
  ltcompileLoop
    { outCmd := [cmd.headD ""], outName := none, outNamePos := 0,
      preferPic := false, preferNonPic := false, inName := none }
    cmd.tail

/-- The output name `ltcompile` guesses from the input name: `.lo` replaces what starts at
the last `.` of the name, or is appended when the name has no `.`. -/
def guessOutName (inName : String) : String :=
  match strrchrSplit '.' inName.data with
  | some (p, _) => String.mk p ++ ".lo"
  | none => inName ++ ".lo"

/-- The text `ltcompile` writes to the `.lo` file. -/
def loContent (outBase : String) : String :=
  SANE_HEADER ++ PACKAGE_HEADER ++
    "pic_object='.libs/" ++ outBase ++ ".sh.o'\n" ++
    "non_pic_object='.libs/" ++ outBase ++ ".st.o'\n"

/-- The path of the PIC object for the output name `outName`: `libsDir` is
`sprintf("%s/.libs", outDir)` and `picFile` is `sprintf("%s/%s.sh.o", libsDir, outBase)`. -/
def picFileOf (outName : String) : String :=
  (dirname outName ++ "/.libs") ++ "/" ++ cutAtLastDot (basename outName) ++ ".sh.o"

/-- The path of the non-PIC object for the output name `outName`:
`sprintf("%s/%s.st.o", libsDir, outBase)`. -/
def nonPicFileOf (outName : String) : String :=
  (dirname outName ++ "/.libs") ++ "/" ++ cutAtLastDot (basename outName) ++ ".st.o"

/-- The block `if (buildNonPic) { ... }` of `ltcompile`: compile to the non-PIC object, and
hard-link it to the PIC name when the PIC variant is not built. -/
def compileNonPic (env : Env) (opt : Options) (outCmd : List String) (outNamePos : Nat)
    (outName : String) (buildPic buildNonPic : Bool) (w : World) : Except Result World :=
  if buildNonPic then do
    let w ← spawn env opt (nullTerminated (outCmd.set outNamePos (nonPicFileOf outName))) false w
    pure (if !buildPic && !opt.dryRun then
      sysLink (nonPicFileOf outName) (picFileOf outName) w else w)
  else pure w

/-- The block `if (buildPic) { ... }` of `ltcompile`: append `-fPIC -DPIC`, compile to the
PIC object, and hard-link it to the non-PIC name when the non-PIC variant is not built. -/
def compilePic (env : Env) (opt : Options) (outCmd : List String) (outNamePos : Nat)
    (outName : String) (buildPic buildNonPic : Bool) (w : World) : Except Result World :=
  if buildPic then do
    let w ← spawn env opt
      (nullTerminated ((outCmd ++ ["-fPIC", "-DPIC"]).set outNamePos (picFileOf outName)))
      false w
    pure (if !buildNonPic && !opt.dryRun then
      sysLink (picFileOf outName) (nonPicFileOf outName) w else w)
  else pure w

/-- The last step of `ltcompile`: write the `.lo` file, or exit when it cannot be opened. -/
def writeLo (outName : String) (w : World) : Except Result World :=
  match writeFile outName (loContent (cutAtLastDot (basename outName))) w with
  | none => throw { world := w.log (.perror outName), outcome := .exited 1 }
  | some w => pure w

/-- The build steps of `ltcompile`, from `get the directory names` to the end, for the
output name `outName` and the command `outCmd` whose slot `outNamePos` holds the output. -/
def ltcompileBuild (env : Env) (opt : Options) (outCmd : List String) (outNamePos : Nat)
    (outName : String) (buildPic buildNonPic : Bool) (w : World) : Except Result World := do
  let w := if opt.dryRun then w else sysMkdir (dirname outName ++ "/.libs") w
  let w ← compileNonPic env opt outCmd outNamePos outName buildPic buildNonPic w
  let w ← compilePic env opt outCmd outNamePos outName buildPic buildNonPic w
  writeLo outName w

/-- The function `ltcompile`. -/
def ltcompile (env : Env) (opt : Options) (w : World) : Result :=
  let st := ltcompileParse opt.cmd
  match st.inName with
  | none =>
    { world := w.log (.diag "error: --mode=compile with no input file\n"),
      outcome := .exited 1 }
  | some inName =>
    let bothPreferred := st.preferPic && st.preferNonPic
    let preferPic := st.preferPic && !bothPreferred
    let preferNonPic := st.preferNonPic && !bothPreferred
    let buildPic := preferPic || !preferNonPic
    let buildNonPic := preferNonPic || !preferPic
    match st.outName with
    | none =>
      let outName := guessOutName inName
      finish (ltcompileBuild env opt (st.outCmd ++ ["-o", outName]) (st.outCmd.length + 1)
        outName buildPic buildNonPic w)
    | some outName =>
      let w := w.log (.diag (outName ++ "\n"))
      match strrchrDot outName with
      | some ext =>
        if ext ≠ ".lo" then
          { world := w.log (.diag
              "error: --mode=compile used to compile something other than a .lo file\n"),
            outcome := .exited 1 }
        else
          finish (ltcompileBuild env opt st.outCmd st.outNamePos outName buildPic buildNonPic w)
      | none =>
        { world := w.log (.diag "error: --mode=compile used to compile an executable\n"),
          outcome := .exited 1 }

/-! ## `ltlink` -/

/-- The pre-scan of `ltlink`: the argument after the first `-o` that has one. -/
def findOutName : List String → Option String
  | [] => none
  | [_] => none
  | arg :: narg :: rest => if arg = "-o" then some narg else findOutName (narg :: rest)

/-- The local variables of `ltlink` that its argument loop sets. -/
structure LinkState where
  outCmd : List String
  outAr : List String
  outNamePos : Nat
  rpath : Option String
  major : Int
  minor : Int
  revision : Int
  insane : Bool
  retryIfFail : Bool

/-- The flags `ltlink` does not support. -/
def unsupportedFlags : List String :=
  ["-dlopen", "-dlpreopen", "-module", "-objectlist", "-precious-files-regex", "-release",
   "-shared", "-shrext", "-static", "-static-libtool-libs", "-weak"]

/-- The `-version-info` branch of `ltlink`: `current:revision:age` read by `sscanf` into
`current`, `revision` and `minor`, then `minor` capped by `current` and
`major = current - minor`.  Returns `(major, minor, revision)`. -/
def versionInfo (narg : String) (minor : Int) : Int × Int × Int :=
  let scanned := sscanfVersion narg.data 0 0 minor
  let current := scanned.1
  let revision := scanned.2.1
  let minor1 := if scanned.2.2 > current then current else scanned.2.2
  (wrapInt (current - minor1), minor1, revision)

/-- The path `ltlink` puts in place of a `.lo` argument. -/
def loFull (buildBinary : Bool) (arg : String) : String :=
  dirname arg ++ "/.libs/" ++ cutAtLastDot (basename arg) ++ ".s" ++
    (if buildBinary then "t" else "h") ++ ".o"

/-- The `laBase` of a `.la` argument after `if (!strncmp(laBase, "lib", 3)) laBase += 3`. -/
def laName (laBase : String) : String :=
  if startsWith "lib" laBase then strFrom laBase 3 else laBase

/-- The second half of the chain of tests of `ltlinkFlag`, from `-Wc,` on. -/
def ltlinkFlagRest (st : LinkState) (arg : String) (narg : Option String) :
    LinkState × Bool :=
  if startsWith "-Wc," arg then
    ({ st with outCmd := st.outCmd ++ [strFrom arg 4] }, false)
  else if narg.isSome ∧ (arg = "-Xcompiler" ∨ arg = "-XCClinker") then
    ({ st with outCmd := st.outCmd ++ [narg.getD ""] }, true)
  else if arg ∈ unsupportedFlags then
    ({ st with insane := true }, false)
  else if narg.isSome ∧
      (arg = "-bindir" ∨ arg = "-export-symbols" ∨ arg = "-export-symbols-regex") then
    (st, true)
  else if arg = "-no-fast-install" ∨ arg = "-no-install" ∨ arg = "-no-undefined" then
    (st, false)
  else
    ({ st with outCmd := st.outCmd ++ [arg] }, false)

/-- The branch `arg[0] == '-'` of the loop body of `ltlink`: the new state, and whether the
turn also consumed `narg` (`i++`).  The chain of tests continues in `ltlinkFlagRest`. -/
def ltlinkFlag (st : LinkState) (arg : String) (narg : Option String) : LinkState × Bool :=
  if arg = "-all-static" then
    ({ st with outCmd := st.outCmd ++ ["-static"] }, false)
  else if arg = "-export-dynamic" then
    ({ st with outCmd := st.outCmd ++ ["-rdynamic"] }, false)
  else if startsWith "-L" arg then
    ({ st with outCmd := st.outCmd ++ [arg, arg ++ "/.libs"] }, false)
  else if arg = "-o" ∧ narg.isSome then
    ({ st with outCmd := st.outCmd ++ [arg, narg.getD ""],
               outNamePos := st.outCmd.length + 1 }, true)
  else if arg = "-rpath" ∧ narg.isSome then
    ({ st with rpath := narg }, true)
  else if arg = "-version-info" ∧ narg.isSome then
    ({ st with major := (versionInfo (narg.getD "") st.minor).1,
               minor := (versionInfo (narg.getD "") st.minor).2.1,
               revision := (versionInfo (narg.getD "") st.minor).2.2 }, true)
  else ltlinkFlagRest st arg narg

/-- The branch of the loop body of `ltlink` for an argument that is not a flag: a `.lo`
descriptor, a `.la` library, or anything else.  It reads the file system (`access`) and
knows `buildBinary` from the pre-scan. -/
def ltlinkFile (fs : FS) (buildBinary : Bool) (st : LinkState) (arg : String) : LinkState :=
  if hasExt arg ".lo" then
    { st with outAr := st.outAr ++ [loFull buildBinary arg],
              outCmd := st.outCmd ++ [loFull buildBinary arg] }
  else if hasExt arg ".la" then
    let laDir := dirname arg
    let laBase := cutAtLastDot (basename arg)
    let wholeArchive := !accessOk fs (laDir ++ "/.libs/" ++ laBase ++ ".so")
    { st with
        outCmd := st.outCmd ++ ["-L" ++ laDir ++ "/.libs"] ++
          (if wholeArchive then ["-Wl,--whole-archive"] else []) ++
          ["-l" ++ laName laBase] ++
          (if wholeArchive then ["-Wl,--no-whole-archive"] else []),
        retryIfFail := st.retryIfFail || wholeArchive }
  else
    { st with outAr := st.outAr ++ [arg], outCmd := st.outCmd ++ [arg] }

/-- One turn of the argument loop of `ltlink` on `arg = cmd[i]` with `narg = cmd[i+1]`
(`none` for `NULL`): the new state, and whether the turn also consumed `narg` (`i++`). -/
def ltlinkArg (fs : FS) (buildBinary : Bool) (st : LinkState) (arg : String)
    (narg : Option String) : LinkState × Bool :=
  if isFlag arg then ltlinkFlag st arg narg
  else (ltlinkFile fs buildBinary st arg, false)

/-- The argument loop `for (i = 1; opt->cmd[i]; i++)` of `ltlink`, on the arguments that
remain. -/
def ltlinkLoop (fs : FS) (buildBinary : Bool) : LinkState → List String → LinkState :=
  argLoop (ltlinkArg fs buildBinary)

/-- Whether the pre-scan of `ltlink` sets `buildA`: an output name was found and its
extension is `.la`. -/
def buildAOf (cmd : List String) : Bool :=
  match findOutName cmd.tail with
  | some outName => hasExt outName ".la"
  | none => false

/-- Whether the pre-scan of `ltlink` sets `buildBinary`: an output name was found and its
extension is not `.la`. -/
def buildBinaryOf (cmd : List String) : Bool :=
  match findOutName cmd.tail with
  | some outName => !hasExt outName ".la"
  | none => false

/-- The state of `ltlink` after its argument loop. -/
def ltlinkParse (fs : FS) (cmd : List String) : LinkState :=
  ltlinkLoop fs (buildBinaryOf cmd)
    { outCmd := [cmd.headD "", "-L.libs"], outAr := ["ar", "rc", "a.a"], outNamePos := 0,
      rpath := none, major := 0, minor := 0, revision := 0, insane := false,
      retryIfFail := false }
    cmd.tail

/-- The vector of the `ranlib` call: the `ar` vector after `outAr.buf[1] = "ranlib";
outAr.buf[3] = NULL;`, from its element 1. -/
def ranlibArgv (outAr : List String) : List (Option String) :=
  (((nullTerminated outAr).set 1 (some "ranlib")).set 3 none).drop 1

/-- The text `ltlink` writes to the `.la` file: the two header lines, and when a shared
object was built (`soname` is not `NULL`) the `dlname` and `library_names` lines. -/
def laContent (names : Option (String × String × String)) : String :=
  match names with
  | some (soname, longname, linkname) =>
    SANE_HEADER ++ PACKAGE_HEADER ++
      "dlname='" ++ soname ++ "'\n" ++
      "library_names='" ++ longname ++ " " ++ soname ++ " " ++ linkname ++ "'\n"
  | none => SANE_HEADER ++ PACKAGE_HEADER

/-- The soname `BASE.so.<major>` of the shared object (`sprintf(soname, "%s.so.%d", ...)`). -/
def sonameOf (outBase : String) (st : LinkState) : String :=
  outBase ++ ".so." ++ fmtInt st.major

/-- The long name `BASE.so.<major>.<minor>.<revision>` of the shared object. -/
def longnameOf (outBase : String) (st : LinkState) : String :=
  outBase ++ ".so." ++ fmtInt st.major ++ "." ++ fmtInt st.minor ++ "." ++ fmtInt st.revision

/-- The link name `BASE.so` of the shared object. -/
def linknameOf (outBase : String) : String :=
  outBase ++ ".so"

/-- The macro `FULLPATH`: `sprintf(path, "%s/.libs/%s", outDir, name)`. -/
def fullPath (outDir name : String) : String :=
  outDir ++ "/.libs/" ++ name

/-- The vector of the shared-object link: `-shared` is appended to the link command and the
slot `outNamePos` is set to the soname path. -/
def soArgv (st : LinkState) (sopath : String) : List (Option String) :=
  nullTerminated ((st.outCmd ++ ["-shared"]).set st.outNamePos sopath)

/-- The `buildSo` block of `ltlink`: remove the three names, link with the soname as output,
rename the result to the long name and make the two symbolic links. -/
def ltlinkSo (env : Env) (opt : Options) (st : LinkState) (outDir outBase : String)
    (w : World) : Except Result World := do
  let longname := longnameOf outBase st
  let sopath := fullPath outDir (sonameOf outBase st)
  let longpath := fullPath outDir longname
  let linkpath := fullPath outDir (linknameOf outBase)
  let w := sysUnlink linkpath (sysUnlink longpath (sysUnlink sopath w))
  let w ← spawn env opt (soArgv st sopath) st.retryIfFail w
  let r := sysRename sopath longpath w
  if !r.2 then throw { world := r.1.log (.perror longpath), outcome := .exited 1 }
  let r := sysSymlink longname sopath r.1
  if !r.2 then throw { world := r.1.log (.perror sopath), outcome := .exited 1 }
  let r := sysSymlink longname linkpath r.1
  if !r.2 then throw { world := r.1.log (.perror linkpath), outcome := .exited 1 }
  pure r.1

/-- The block `if (buildSo) { ... }` of `ltlink`. -/
def linkShared (env : Env) (opt : Options) (st : LinkState) (outDir outBase : String)
    (buildSo : Bool) (w : World) : Except Result World :=
  if buildSo then ltlinkSo env opt st outDir outBase w else pure w

/-- The block `if (buildBinary) { ... }` of `ltlink`: run the link command as it is. -/
def linkBinary (env : Env) (opt : Options) (st : LinkState) (buildBinary : Bool) (w : World) :
    Except Result World :=
  if buildBinary then spawn env opt (nullTerminated st.outCmd) st.retryIfFail w else pure w

/-- The block `if (buildA) { ... }` of `ltlink` that builds the archive: `ar rc` on the
members with the archive path in slot 2, then `ranlib` on the archive. -/
def linkArchive (env : Env) (opt : Options) (st : LinkState) (outDir outBase : String)
    (buildA : Bool) (w : World) : Except Result World :=
  if buildA then do
    let outAr := st.outAr.set 2 (outDir ++ "/.libs/" ++ outBase ++ ".a")
    let w ← spawn env opt (nullTerminated outAr) st.retryIfFail w
    spawn env opt (ranlibArgv outAr) st.retryIfFail w
  else pure w

/-- The last block of `ltlink`: for a library target write the `.la` file, with the names of
the shared object when one was built, or exit when the file cannot be opened. -/
def writeLa (outName outBase : String) (st : LinkState) (buildA buildSo : Bool) (w : World) :
    Except Result World :=
  if buildA then
    match writeFile outName
      (laContent (if buildSo then
        some (sonameOf outBase st, longnameOf outBase st, linknameOf outBase) else none)) w with
    | none => throw { world := w.log (.perror outName), outcome := .exited 1 }
    | some w => pure w
  else pure w

/-- The state of `ltlink` after `make sure an output name was specified`: without an output
name, `-o a.out` is appended to the link command. -/
def withDefaultOutput (st : LinkState) (found : Option String) : LinkState :=
  match found with
  | some _ => st
  | none => { st with outCmd := st.outCmd ++ ["-o", "a.out"],
                      outNamePos := st.outCmd.length + 1 }

/-- The build steps of `ltlink`, from `make sure an output name was specified` to the end.
`found` is the output name of the pre-scan. -/
def ltlinkBuild (env : Env) (opt : Options) (st0 : LinkState) (found : Option String)
    (buildA buildBinary : Bool) (w : World) : Except Result World := do
  let outName := found.getD "a.out"
  let st := withDefaultOutput st0 found
  let buildSo := buildA && st.rpath.isSome
  let outDir := dirname outName
  let outBase := cutAtLastDot (basename outName)
  let w := if opt.dryRun then w else sysMkdir (outDir ++ "/.libs") w
  let w ← linkBinary env opt st buildBinary w
  let w ← linkArchive env opt st outDir outBase buildA w
  let w ← linkShared env opt st outDir outBase buildSo w
  writeLa outName outBase st buildA buildSo w

/-- The function `ltlink`. -/
def ltlink (env : Env) (opt : Options) (w : World) : Result :=
  let found := findOutName opt.cmd.tail
  let st := ltlinkParse w.fs opt.cmd
  if st.insane then execLibtool opt w
  else
    finish (ltlinkBuild env opt st found (buildAOf opt.cmd) (buildBinaryOf opt.cmd) w)

/-! ## The sanity probe `systemIsSane` -/

/-- The macro `SANE`: the condition under which the preprocessor keeps the sentinel. -/
def SANE : String :=
  "__linux__ || " ++ "__FreeBSD_kernel__ || __NetBSD__ || " ++
    "__OpenBSD__ || __DragonFly__ || " ++ "__GNU__"

/-- The text `sanityCheck` sent to the preprocessor. -/
def sanityCheck : String :=
  "#if " ++ SANE ++ "\n" ++ "SYSTEM_IS_SANE\n" ++ "#endif"

/-- The size of the array `buf` of `systemIsSane`. -/
def BUFSZ : Nat := 32

/-- What the environment does during one call of `systemIsSane`: whether the two `pipe`
calls and `fork` succeed; whether the `write` of the probe text raises `SIGPIPE` and the
signal ends the process (the parent has closed `pipei[0]`, so this is the case when the child
has closed its end of the pipe or has exited before the `write`, unless the signal was
ignored when the program was started); the value `write` returns when it returns; the chunks
the successive `read` calls find in the pipe (one call returns at most one chunk and at most
the bytes asked for, and 0 when no chunk is left); whether `waitpid` succeeds; the wait
status of the child; and the bytes the uninitialised array `buf` holds at the start. -/
structure ProbeRun where
  pipeIn : Bool
  pipeOut : Bool
  forkOk : Bool
  sigpipe : Bool
  written : Int
  reads : List (List Char)
  waitOk : Bool
  status : Int
  buf : List Char

/-- The environment of the checks `main` makes before it translates: what a run of the
preprocessor `cc -E -` does, given the file system, and the C string the uninitialised
array `buf` of `checkLoSanity` holds. -/
structure ProbeEnv where
  probe : String → FS → ProbeRun
  loBuf : List Char

/-- One call `read(pipeo[0], buf + bufused, count)` on the chunks still to come: the bytes
read and the chunks left.  A call with `count = 0` reads nothing. -/
def readChunk (count : Nat) : List (List Char) → List Char × List (List Char)
  | [] => ([], [])
  | c :: rest =>
    if count = 0 then ([], c :: rest)
    else if c.length ≤ count then (c, rest)
    else (c.take count, c.drop count :: rest)

/-- The local variables of the read loop of `systemIsSane`. -/
structure ScanState where
  buf : List Char
  bufused : Nat
  sane : Bool

/-- The loop `for (i = 0; i < bufused && buf[i] != '\n'; i++);` on the bytes of `buf` from
index `i` on with `bufused - i` of them in use: how far `i` advances. -/
def lineLength : List Char → Nat → Nat
  | _, 0 => 0
  | [], _ + 1 => 0
  | c :: cs, n + 1 => if c = '\n' then 0 else lineLength cs n + 1

/-- The body of the read loop of `systemIsSane` after a `read` that returned the bytes
`got` (none when it returned 0): the bytes are in `buf` from `bufused` on; the first 14 bytes
of `buf` are compared with the sentinel, whatever `bufused` is; the bytes up to and including
the first newline in use, or all bytes in use, are dropped by moving the rest to the front.
(`memcpy` is taken to copy like `memmove` where source and destination overlap.) -/
def scanStep (st : ScanState) (got : List Char) : ScanState :=
  let buf1 := st.buf.take st.bufused ++ got ++ st.buf.drop (st.bufused + got.length)
  let bufused1 := st.bufused + got.length
  let sane1 := st.sane || decide (buf1.take 14 = "SYSTEM_IS_SANE".data)
  let i := lineLength buf1 bufused1
  let i1 := if i < bufused1 then i + 1 else i
  { buf := (buf1.drop i1).take (bufused1 - i1) ++ buf1.drop (bufused1 - i1),
    bufused := bufused1 - i1,
    sane := sane1 }

/-- The read loop `while ((rd = read(...)) > 0 || bufused) { ... }` of `systemIsSane`, run
for at most `fuel` turns: the state when the loop ends, `none` when the fuel runs out. -/
def scanLoop : Nat → ScanState → List (List Char) → Option ScanState
  | 0, _, _ => none
  | fuel + 1, st, reads =>
    if (readChunk (BUFSZ - st.bufused) reads).1 ≠ [] ∨ st.bufused ≠ 0 then
      scanLoop fuel (scanStep st (readChunk (BUFSZ - st.bufused) reads).1)
        (readChunk (BUFSZ - st.bufused) reads).2
    else some st

/-- A number of turns that is enough for the read loop on the chunks `reads`: every turn
uses up a byte or a chunk that is still to come, or a byte of the buffer. -/
def scanFuel (reads : List (List Char)) : Nat :=
  (reads.map List.length).sum + reads.length + 1

/-- The read loop of `systemIsSane` from its start (`sane = 0`, `bufused = 0`) to its end. -/
def scan (buf : List Char) (reads : List (List Char)) : ScanState :=
  (scanLoop (scanFuel reads) { buf := buf, bufused := 0, sane := false } reads).getD
    { buf := buf, bufused := 0, sane := false }

/-- `systemIsSane`: ask the preprocessor `cc -E -` whether the platform is one of `SANE`.
A failed `pipe` or `fork` ends the program through the macro `SF`; a `write` that raises
`SIGPIPE` ends the process, killed by the signal; a `write` that returns another value than
the length of the probe text, a failed `waitpid` and a wait status other than 0 set
`insane`.  Returns the world and the value returned. -/
def systemIsSane (penv : ProbeEnv) (cc : String) (w : World) : Except Result (World × Bool) :=
  let p := penv.probe cc w.fs
  if !p.pipeIn then throw { world := w.log (.perror "pipe"), outcome := .exited 1 }
  else if !p.pipeOut then throw { world := w.log (.perror "pipe"), outcome := .exited 1 }
  else if !p.forkOk then throw { world := w.log (.perror "fork"), outcome := .exited 1 }
  else
    let w1 := w.log (.exec [cc, "-E", "-"])
    if p.sigpipe then throw { world := w1, outcome := .killed "SIGPIPE" }
    else
      let insane :=
        decide (p.written ≠ sanityCheck.length) || !p.waitOk || decide (p.status ≠ 0)
      pure (w1, if insane then false else (scan p.buf p.reads).sane)

/-! ## The descriptor check `checkLoSanity` -/

/-- `fopen(path, "r")` followed by reads: the bytes that can be read, `none` when the file
cannot be opened.  A directory can be opened but not read; a symbolic link is not followed
in this model, and opening one fails. -/
def openRead (fs : FS) (path : String) : Option (List Char) :=
  match fs path with
  | some (.file content) => some content.data
  | some .dir => some []
  | _ => none

/-- The characters `fgets` stores when it can read `k` more: up to `k`, stopping after a
newline. -/
def fgetsLine : Nat → List Char → List Char
  | 0, _ => []
  | _ + 1, [] => []
  | k + 1, c :: cs => if c = '\n' then [c] else c :: fgetsLine k cs

/-- The C string in `buf` after `fgets(buf, n, f)` at the start of a file: at most `n - 1`
characters of the first line; at end of file nothing is stored and `buf` keeps the string
`old` it held. -/
def fgets (n : Nat) (content old : List Char) : List Char :=
  match content with
  | [] => old
  | _ :: _ => fgetsLine (n - 1) content

/-- The test of `checkLoSanity` on an open file: `fgets(buf, sizeof(SANE_HEADER), f)` and
`!strcmp(buf, SANE_HEADER)`. -/
def headerTest (old content : List Char) : Bool :=
  decide (fgets (SANE_HEADER.length + 1) content old = SANE_HEADER.data)

/-- The loop of `checkLoSanity` on the arguments that remain: `foundlo` and `sane` after
it.  The loop ends at the first `.lo` or `.la` argument that can be opened. -/
def checkLoLoop (fs : FS) (old : List Char) : List String → Bool × Bool
  | [] => (false, false)
  | arg :: rest =>
    if !isFlag arg && (hasExt arg ".lo" || hasExt arg ".la") then
      match openRead fs arg with
      | some content => (true, headerTest old content)
      | none => (true, (checkLoLoop fs old rest).2)
    else checkLoLoop fs old rest

/-- `checkLoSanity`: the verdict of the first descriptor that can be opened; the probe of
the compiler `cc` when no argument is a descriptor and `cc` is given. -/
def checkLoSanity (penv : ProbeEnv) (opt : Options) (cc : Option String) (w : World) :
    Except Result (World × Bool) :=
  let r := checkLoLoop w.fs penv.loBuf opt.cmd.tail
  match cc with
  | some cc => if !r.1 then systemIsSane penv cc w else pure (w, r.2)
  | none => pure (w, r.2)

/-! ## `main` -/

/-- The `enum Mode`. -/
inductive Mode where
  | MODE_UNKNOWN
  | MODE_COMPILE
  | MODE_LINK
  deriving DecidableEq, Repr

/-- The variables the option loop of `main` sets. -/
structure MainState where
  dryRun : Bool
  quiet : Bool
  insane : Bool

/-- How the option loop of `main` ends: at `--version`, at `-h` or `--help`, at the end of
the arguments without a mode, or at `--mode=<modeS>` with the tool command after it. -/
inductive Scanned where
  | version
  | help
  | noMode
  | mode (st : MainState) (modeS : String) (cmd : List String)

/-- The loop `for (argi = 2; argi < argc; argi++)` of `main`, on the arguments that remain.
A `--mode=` argument that is the last one does not end the loop: it is an unrecognised
option. -/
def scanArgs (st : MainState) : List String → Scanned
  | [] => .noMode
  | arg :: rest =>
    if arg = "-n" ∨ arg = "--dry-run" then scanArgs { st with dryRun := true } rest
    else if arg = "--quiet" ∨ arg = "--silent" then scanArgs { st with quiet := true } rest
    else if arg = "--no-quiet" ∨ arg = "--no-silent" then
      scanArgs { st with quiet := false } rest
    else if arg = "--version" then .version
    else if arg = "-h" ∨ arg = "--help" then .help
    else if startsWith "--mode=" arg ∧ rest ≠ [] then .mode st (strFrom arg 7) rest
    else if startsWith "--tag=" arg ∨ arg = "-v" ∨ arg = "--verbose" ∨ arg = "--no-verbose" then
      scanArgs st rest
    else scanArgs { st with insane := true } rest

/-- The text of the first `printf` of `usage`. -/
def usageHead : String :=
  "Use: mlibtool <target-libtool> [options] --mode=<mode> <command>\n" ++
  "Options:\n" ++
  "\t-n|--dry-run: display commands without modifying any files\n" ++
  "\t--mode=<mode>: user operation mode <mode>\n" ++
  "\n" ++
  "<mode> must be one of the following:\n" ++
  "\tcompile: compile a source file into a libtool object\n" ++
  "\tlink: create a library or an executable\n" ++
  "\n"

/-- The text of the second `printf` of `usage`. -/
def usageTail : String :=
  "mlibtool is a mini version of libtool for sensible systems. If you're\n" ++
  "compiling for Linux or BSD with supported invocation commands,\n" ++
  "<target-libtool> will never be called.\n" ++
  "\n" ++
  "Unrecognized invocations will be redirected to <target-libtool>.\n"

/-- The function `usage`. -/
def usage (w : World) : World :=
  (w.log (.print usageHead)).log (.print usageTail)

/-- The mode `main` reads from the string after `--mode=`. -/
def modeOf (modeS : String) : Mode :=
  if modeS = "compile" then .MODE_COMPILE
  else if modeS = "link" then .MODE_LINK
  else .MODE_UNKNOWN

/-- The block `if (!insane) { ... }` of `main` that computes `sane`: the probe in compile
mode, the descriptor check in link mode. -/
def checkSane (penv : ProbeEnv) (opt : Options) (insane : Bool) (mode : Mode) (w : World) :
    Except Result (World × Bool) :=
  if insane then pure (w, false)
  else
    match mode with
    | .MODE_COMPILE => systemIsSane penv (opt.cmd.headD "") w
    | .MODE_LINK => checkLoSanity penv opt opt.cmd.head? w
    | .MODE_UNKNOWN => pure (w, false)

/-- The last block of `main`: the reference libtool when the invocation is not sane, else
the translator of the mode. -/
def dispatch (env : Env) (opt : Options) (mode : Mode) (sane : Bool) (w : World) : Result :=
  if !sane then execLibtool opt w
  else
    match mode with
    | .MODE_COMPILE => ltcompile env opt w
    | .MODE_LINK => ltlink env opt w
    | .MODE_UNKNOWN => { world := w, outcome := .exited 1 }

/-- The function `main` on the argument vector `argv` (`argc` is its length). -/
def main (env : Env) (penv : ProbeEnv) (argv : List String) (w : World) : Result :=
  match scanArgs { dryRun := false, quiet := false, insane := false } (argv.drop 2) with
  | .version => { world := w.log (.print (PACKAGE ++ "\n")), outcome := .exited 0 }
  | .help => { world := usage w, outcome := .exited 0 }
  | .noMode => { world := usage w, outcome := .exited 1 }
  | .mode st modeS cmd =>
    let opt : Options := { dryRun := st.dryRun, quiet := st.quiet, argv := argv, cmd := cmd }
    match checkSane penv opt st.insane (modeOf modeS) w with
    | .error r => r
    | .ok (w1, sane) => dispatch env opt (modeOf modeS) sane w1

/-! ## Vocabulary of the statements -/

/-- The link-mode options that take the argument after them along (when there is one). -/
def linkOptionsWithArg : List String :=
  ["-o", "-rpath", "-version-info", "-Xcompiler", "-XCClinker", "-bindir", "-export-symbols",
   "-export-symbols-regex"]

/-- The compile-mode options that take the argument after them along (when there is one). -/
def compileOptionsWithArg : List String := ["-o"]

/-- The arguments an argument loop visits, each with the argument after it (`none` at the
end of the command), when the options in `withArg` take the next argument along.  An
argument not listed here was consumed as the argument of the option before it. -/
def visited (withArg : List String) : List String → List (String × Option String)
  | [] => []
  | [arg] => [(arg, none)]
  | arg :: narg :: rest =>
    if arg ∈ withArg then (arg, some narg) :: visited withArg rest
    else (arg, some narg) :: visited withArg (narg :: rest)

/-- Whether an argument loop that starts at the head of `args` visits the argument that
follows `args` (when `args` is followed by more arguments): the last argument of `args` is
not an option that takes the next argument along. -/
def endsAtOption (withArg : List String) : List String → Bool
  | [] => true
  | [arg] => !decide (arg ∈ withArg)
  | arg :: narg :: rest =>
    if arg ∈ withArg then endsAtOption withArg rest
    else endsAtOption withArg (narg :: rest)

/-- The number a string of decimal digits denotes. -/
def decValue (ds : List Char) : Nat :=
  ds.foldl (fun acc d => 10 * acc + (d.toNat - 48)) 0

/-- A decimal numeral: at least one character, all of them digits. -/
def isNumeral (ds : List Char) : Bool :=
  !ds.isEmpty && ds.all Char.isDigit

/-- The commands children executed, in order. -/
def execsOf (t : List Effect) : List (List String) :=
  t.filterMap fun e => match e with
    | .exec cmd => some cmd
    | _ => none

/-- The command lines reported on the diagnostic output, in order. -/
def echoesOf (t : List Effect) : List (List String) :=
  t.filterMap fun e => match e with
    | .echo cmd => some cmd
    | _ => none

/-- The vectors handed to `spawn` with their retry flag, in order. -/
def spawnCallsOf (t : List Effect) : List (List (Option String) × Bool) :=
  t.filterMap fun e => match e with
    | .spawnCall argv retry => some (argv, retry)
    | _ => none

/-- The `link(old, new)` calls, in order. -/
def linksOf (t : List Effect) : List (String × String) :=
  t.filterMap fun e => match e with
    | .link old new => some (old, new)
    | _ => none

/-- The files written, as pairs of path and content, in order. -/
def writesOf (t : List Effect) : List (String × String) :=
  t.filterMap fun e => match e with
    | .write path content => some (path, content)
    | _ => none

/-- The calls that change the file system: everything but diagnostics, printed text and the
entry into `spawn`. -/
def changesOf (t : List Effect) : List Effect :=
  t.filter fun e => match e with
    | .spawnCall _ _ => false
    | .echo _ => false
    | .diag _ => false
    | .perror _ => false
    | .print _ => false
    | _ => true

/-- Every child can be forked and waited for, and exits with status 0. -/
def ChildrenSucceed (env : Env) : Prop :=
  ∀ cmd fs, ∃ fs1, env.run cmd fs = .exited 0 fs1

/-- The argument after the last `-o` of a command, the output of a compiler driver. -/
def outputOf : List String → Option String
  | [] => none
  | [_] => none
  | arg :: narg :: rest =>
    match outputOf (narg :: rest) with
    | some p => some p
    | none => if arg = "-o" then some narg else none

/-- An environment for examples: every child exits with status 0, and a command with an
`-o` creates a regular file at its output path. -/
def idealTools : Env where
  run := fun cmd fs =>
    match outputOf cmd with
    | some p => .exited 0 (fs.set p (some (.file "output")))
    | none => .exited 0 fs

/-- A world with an empty file system and no calls made. -/
def emptyWorld : World := { fs := fun _ => none, trace := [] }

/-- The options of a run of `mlibtool libtool [-n] --mode=<mode> <cmd>`, not quiet. -/
def mkOptions (dryRun : Bool) (mode : String) (cmd : List String) : Options :=
  { dryRun := dryRun, quiet := false,
    argv := ["mlibtool", "libtool"] ++ (if dryRun then ["-n"] else []) ++
      ["--mode=" ++ mode] ++ cmd,
    cmd := cmd }

/-- The version triple `(major, minor, revision)` of a state of `ltlink`. -/
def LinkState.version (st : LinkState) : Int × Int × Int :=
  (st.major, st.minor, st.revision)

/-- What one visited argument does to the version triple: only `-version-info` with an
argument changes it. -/
def versionStep (v : Int × Int × Int) (p : String × Option String) : Int × Int × Int :=
  if p.1 = "-version-info" then
    match p.2 with
    | some narg => versionInfo narg v.2.1
    | none => v
  else v

/-- The events one call of `spawn` adds to the trace when the child, if any, succeeds. -/
def spawnTrace (opt : Options) (argv : List (Option String)) (retryIfFail : Bool) :
    List Effect :=
  [Effect.spawnCall argv retryIfFail] ++
    (if opt.quiet then [] else [Effect.echo (cstrv argv)]) ++
    (if opt.dryRun then [] else [Effect.exec (cstrv argv)])

/-- The events the build steps of `ltcompile` add to the trace, up to the writing of the
descriptor, when every child succeeds. -/
def compileBuildTrace (opt : Options) (outCmd : List String) (outNamePos : Nat)
    (outName : String) (buildPic buildNonPic : Bool) : List Effect :=
  (if opt.dryRun then [] else [Effect.mkdir (dirname outName ++ "/.libs")]) ++
  (if buildNonPic then
    spawnTrace opt (nullTerminated (outCmd.set outNamePos (nonPicFileOf outName))) false ++
      (if !buildPic && !opt.dryRun then
        [Effect.link (nonPicFileOf outName) (picFileOf outName)] else [])
   else []) ++
  (if buildPic then
    spawnTrace opt
      (nullTerminated ((outCmd ++ ["-fPIC", "-DPIC"]).set outNamePos (picFileOf outName)))
      false ++
      (if !buildNonPic && !opt.dryRun then
        [Effect.link (picFileOf outName) (nonPicFileOf outName)] else [])
   else [])

/-- Whether a compile command gives a PIC preference: its argument loop meets `-prefer-pic`
or `-shared`. -/
def prefersPic (cmd : List String) : Bool :=
  (visited compileOptionsWithArg cmd.tail).any
    fun p => decide (p.1 = "-prefer-pic" ∨ p.1 = "-shared")

/-- Whether a compile command gives a non-PIC preference: its argument loop meets
`-prefer-non-pic` or `-static`. -/
def prefersNonPic (cmd : List String) : Bool :=
  (visited compileOptionsWithArg cmd.tail).any
    fun p => decide (p.1 = "-prefer-non-pic" ∨ p.1 = "-static")

/-- The output name `ltcompile` settles on: the one given with `-o`, or the one guessed
from the input name. -/
def compileOutput (cmd : List String) : String :=
  (ltcompileParse cmd).outName.getD (guessOutName ((ltcompileParse cmd).inName.getD ""))

/-- The command buffer of `ltcompile` when the build starts: `-o` and the guessed output
name are appended when the command has no `-o`. -/
def compileBuffer (cmd : List String) : List String :=
  match (ltcompileParse cmd).outName with
  | none => (ltcompileParse cmd).outCmd ++ ["-o", compileOutput cmd]
  | some _ => (ltcompileParse cmd).outCmd

/-- The index of the output name in `compileBuffer`. -/
def compileSlot (cmd : List String) : Nat :=
  match (ltcompileParse cmd).outName with
  | none => (ltcompileParse cmd).outCmd.length + 1
  | some _ => (ltcompileParse cmd).outNamePos

/-- The command of the non-PIC compilation. -/
def nonPicCommand (cmd : List String) : List String :=
  (compileBuffer cmd).set (compileSlot cmd) (nonPicFileOf (compileOutput cmd))

/-- The command of the PIC compilation. -/
def picCommand (cmd : List String) : List String :=
  (compileBuffer cmd ++ ["-fPIC", "-DPIC"]).set (compileSlot cmd) (picFileOf (compileOutput cmd))

/-- A compile command `ltcompile` accepts: it has an input file, and the output name given
with `-o`, if any, has the extension `.lo`. -/
def compileAccepts (cmd : List String) : Bool :=
  (ltcompileParse cmd).inName.isSome &&
    match (ltcompileParse cmd).outName with
    | none => true
    | some outName => strrchrDot outName == some ".lo"

/-- The diagnostic `ltcompile` prints before the build when the command has an `-o`: the
output name (`fprintf(stderr, "%s\n", outName)`). -/
def compileDiag (cmd : List String) : List Effect :=
  match (ltcompileParse cmd).outName with
  | none => []
  | some outName => [Effect.diag (outName ++ "\n")]

/-- The state with the PIC preference set. -/
def CompileState.withPic (st : CompileState) : CompileState :=
  { st with preferPic := true }

/-- The state with the non-PIC preference set. -/
def CompileState.withNonPic (st : CompileState) : CompileState :=
  { st with preferNonPic := true }

/-- The output slot of a state of `ltcompile`: once an `-o` was read, `outNamePos` is the
index of the output name in `outCmd`, and `-o` stands before it. -/
def SlotOk (st : CompileState) : Prop :=
  ∀ o, st.outName = some o →
    1 ≤ st.outNamePos ∧ st.outCmd[st.outNamePos - 1]? = some "-o" ∧
      st.outCmd[st.outNamePos]? = some o

/-- Whether a link command gives `-rpath`: its argument loop meets `-rpath` with an
argument after it. -/
def rpathGiven (cmd : List String) : Bool :=
  (visited linkOptionsWithArg cmd.tail).any fun p => decide (p.1 = "-rpath") && p.2.isSome

/-- A step that writes no file: when it goes on, and when it cuts the run short (which then
does not end by returning), the files written so far are `base`. -/
def NoWrite (base : List (String × String)) (r : Except Result World) : Prop :=
  match r with
  | .ok w => writesOf w.trace = base
  | .error e => writesOf e.world.trace = base ∧ e.outcome ≠ .returned

/-- A step that goes on having written `extra` after `base`, or cuts the run short (which
then does not end by returning) having written nothing after `base`. -/
def WritesSpec (base extra : List (String × String)) (r : Except Result World) : Prop :=
  match r with
  | .ok w => writesOf w.trace = base ++ extra
  | .error e => writesOf e.world.trace = base ∧ e.outcome ≠ .returned

/-- The output slot of a state of `ltlink`, for the argument `o` of the last `-o` its loop
read: `outNamePos` is the index of that argument in `outCmd`, and `-o` stands before it. -/
def LinkSlotOk (st : LinkState) (o : Option String) : Prop :=
  ∀ n, o = some n →
    1 ≤ st.outNamePos ∧ st.outCmd[st.outNamePos - 1]? = some "-o" ∧
      st.outCmd[st.outNamePos]? = some n

/-- What one visited argument does to the argument of the last `-o` read. -/
def lastOutStep (o : Option String) (p : String × Option String) : Option String :=
  if p.1 = "-o" then
    match p.2 with
    | some n => some n
    | none => o
  else o

/-- The world at the end of a step: the world it goes on with, or the world it cut the run
short in. -/
def endWorld (r : Except Result World) : World :=
  match r with
  | .ok w => w
  | .error e => e.world

/-- A step that only adds events to the trace `base`, each of them satisfying `Q`. -/
def Grows (Q : Effect → Prop) (base : List Effect) (r : Except Result World) : Prop :=
  ∃ extra, (endWorld r).trace = base ++ extra ∧ ∀ e ∈ extra, Q e

/-- Whether a visited argument of a link command is a `.la` dependency whose shared object
`DIR/.libs/BASE.so` does not exist. -/
def laWithoutSo (fs : FS) (p : String × Option String) : Bool :=
  !isFlag p.1 && hasExt p.1 ".la" &&
    !accessOk fs (dirname p.1 ++ "/.libs/" ++ cutAtLastDot (basename p.1) ++ ".so")

/-- The state `ltlink` builds from: the state after the argument loop, with `-o a.out`
appended when the command has no output name. -/
def linkBuildState (fs : FS) (cmd : List String) : LinkState :=
  withDefaultOutput (ltlinkParse fs cmd) (findOutName cmd.tail)

/-- The output name `ltlink` settles on: the one the pre-scan found, or `a.out`. -/
def linkOutput (cmd : List String) : String :=
  (findOutName cmd.tail).getD "a.out"

/-- The archiver vector of `ltlink` with the archive path in slot 2. -/
def arBuffer (fs : FS) (cmd : List String) : List String :=
  (linkBuildState fs cmd).outAr.set 2
    (dirname (linkOutput cmd) ++ "/.libs/" ++ cutAtLastDot (basename (linkOutput cmd)) ++ ".a")

/-- The vectors `ltlink` can hand to `spawn`: the link command, the `ar` vector, the `ranlib`
vector and the shared-object link command. -/
def linkVectors (fs : FS) (cmd : List String) : List (List (Option String)) :=
  [nullTerminated (linkBuildState fs cmd).outCmd,
   nullTerminated (arBuffer fs cmd),
   ranlibArgv (arBuffer fs cmd),
   soArgv (linkBuildState fs cmd)
     (fullPath (dirname (linkOutput cmd))
       (sonameOf (cutAtLastDot (basename (linkOutput cmd))) (linkBuildState fs cmd)))]

/-- The events a run of `ltlink` on the command `cmd`, started in the file system `fs`, can
add to the trace: every vector handed to `spawn` is one of `linkVectors` and goes with the
retry flag the argument loop computed, and the one file written is the output name, with the
content of a library descriptor. -/
def LinkEvent (fs : FS) (cmd : List String) (e : Effect) : Prop :=
  match e with
  | .spawnCall v r => r = (ltlinkParse fs cmd).retryIfFail ∧ v ∈ linkVectors fs cmd
  | .write p c => p = linkOutput cmd ∧ ∃ names, c = laContent names
  | .echo _ => True
  | .exec _ => True
  | .mkdir _ => True
  | .unlink _ => True
  | .rename _ _ => True
  | .symlink _ _ => True
  | .perror _ => True
  | .link _ _ => False
  | .diag _ => False
  | .print _ => False

/-- The events a run of `ltcompile` on the command `cmd` can add to the trace: every vector
handed to `spawn` is the non-PIC or the PIC command and goes with the retry flag unset, and
the one file written is the output name, with the content of an object descriptor. -/
def CompileEvent (cmd : List String) (e : Effect) : Prop :=
  match e with
  | .spawnCall v r =>
    r = false ∧ (v = nullTerminated (nonPicCommand cmd) ∨ v = nullTerminated (picCommand cmd))
  | .write p c =>
    p = compileOutput cmd ∧ c = loContent (cutAtLastDot (basename (compileOutput cmd)))
  | .echo _ => True
  | .exec _ => True
  | .mkdir _ => True
  | .link _ _ => True
  | .diag _ => True
  | .perror _ => True
  | .unlink _ => False
  | .rename _ _ => False
  | .symlink _ _ => False
  | .print _ => False

/-- What a link argument that is not a flag contributes to the link command: the object of a
`.lo` descriptor, the `-L` and `-l` of a `.la` library, or the argument itself. -/
def fileRewrite (fs : FS) (buildBinary : Bool) (arg : String) : List String :=
  if hasExt arg ".lo" then [loFull buildBinary arg]
  else if hasExt arg ".la" then
    ["-L" ++ dirname arg ++ "/.libs"] ++
      (if accessOk fs (dirname arg ++ "/.libs/" ++ cutAtLastDot (basename arg) ++ ".so") then
        ["-l" ++ laName (cutAtLastDot (basename arg))]
       else ["-Wl,--whole-archive", "-l" ++ laName (cutAtLastDot (basename arg)),
         "-Wl,--no-whole-archive"])
  else [arg]

/-- The table of rewriting rules of link mode: what an argument `p.1` the loop reads, with
the argument `p.2` after it, contributes to the link command, for the supported flags. -/
def linkRewrite (fs : FS) (buildBinary : Bool) (p : String × Option String) : List String :=
  if isFlag p.1 = false then fileRewrite fs buildBinary p.1
  else if p.1 = "-all-static" then ["-static"]
  else if p.1 = "-export-dynamic" then ["-rdynamic"]
  else if startsWith "-L" p.1 then [p.1, p.1 ++ "/.libs"]
  else if startsWith "-Wc," p.1 then [strFrom p.1 4]
  else if p.1 = "-no-fast-install" ∨ p.1 = "-no-install" ∨ p.1 = "-no-undefined" then []
  else
    match p.2 with
    | none => [p.1]
    | some narg =>
      if p.1 = "-o" then ["-o", narg]
      else if p.1 = "-Xcompiler" ∨ p.1 = "-XCClinker" then [narg]
      else if p.1 = "-rpath" ∨ p.1 = "-version-info" ∨ p.1 = "-bindir" ∨
          p.1 = "-export-symbols" ∨ p.1 = "-export-symbols-regex" then []
      else [p.1]

/-- An `-o` with an argument after it, as the argument loops read it. -/
def outOption (p : String × Option String) : Bool :=
  decide (p.1 = "-o") && p.2.isSome

/-- The table of rewriting rules of compile mode: what an argument `p.1` the loop reads, with
the argument `p.2` after it, contributes to a compiler command whose output is `out`. -/
def compileRewrite (out : String) (p : String × Option String) : List String :=
  if p.1 = "-o" ∧ p.2.isSome then ["-o", out]
  else if p.1 = "-prefer-pic" ∨ p.1 = "-shared" ∨ p.1 = "-prefer-non-pic" ∨ p.1 = "-static" ∨
      p.1 = "-no-suppress" then []
  else if startsWith "-Wc," p.1 then [strFrom p.1 4]
  else [p.1]

/-- A step that, when it cuts the run short, does so by `exit(1)`: it never hands the run
to the reference libtool. -/
def ExitsOnly (r : Except Result World) : Prop :=
  match r with
  | .ok _ => True
  | .error e => e.outcome = .exited 1

/-- An environment for examples in which no child can be created: `fork` fails. -/
def forkFails : Env where
  run := fun _ _ => .forkFailed

/-- An environment for examples in which every child exits with status 1. -/
def failingTools : Env where
  run := fun _ fs => .exited 1 fs

/-- The value a check of `main` returns, `none` when the check ended the program. -/
def verdict (r : Except Result (World × Bool)) : Option Bool :=
  match r with
  | .ok (_, b) => some b
  | .error _ => none

/-- An option the loop of `main` knows: one of its switches, or a `--mode=` or `--tag=`
argument. -/
def recognizedOption (arg : String) : Bool :=
  decide (arg ∈ ["-n", "--dry-run", "--quiet", "--silent", "--no-quiet", "--no-silent",
    "--version", "-h", "--help", "-v", "--verbose", "--no-verbose"]) ||
  startsWith "--mode=" arg || startsWith "--tag=" arg

/-- A probe for examples: the preprocessor can be run, takes the whole text, answers with
the chunks `reads` and exits with status 0; the arrays hold zero bytes. -/
def probeAnswering (reads : List (List Char)) : ProbeEnv where
  probe := fun _ _ =>
    { pipeIn := true, pipeOut := true, forkOk := true, sigpipe := false,
      written := sanityCheck.length,
      reads := reads, waitOk := true, status := 0, buf := List.replicate BUFSZ '\x00' }
  loBuf := []

/-- A probe for examples in which the first `pipe` call fails. -/
def pipeFails : ProbeEnv where
  probe := fun _ _ =>
    { pipeIn := false, pipeOut := true, forkOk := true, sigpipe := false,
      written := sanityCheck.length,
      reads := [], waitOk := true, status := 0, buf := List.replicate BUFSZ '\x00' }
  loBuf := []

/-- A probe for examples in which `fork` fails. -/
def probeForkFails : ProbeEnv where
  probe := fun _ _ =>
    { pipeIn := true, pipeOut := true, forkOk := false, sigpipe := false,
      written := sanityCheck.length,
      reads := [], waitOk := true, status := 0, buf := List.replicate BUFSZ '\x00' }
  loBuf := []

/-- A probe for examples in which the child has gone before the `write`: a compiler that
cannot be executed, or one that exits at once with status 1 without reading its input.  The
`write` raises `SIGPIPE`. -/
def probeChildGone : ProbeEnv where
  probe := fun _ _ =>
    { pipeIn := true, pipeOut := true, forkOk := true, sigpipe := true,
      written := -1,
      reads := [], waitOk := true, status := 256, buf := List.replicate BUFSZ '\x00' }
  loBuf := []

/-- A probe for examples in which the `write` returns -1 instead: the child has gone, but
`SIGPIPE` was ignored when the program was started. -/
def probeWriteFails : ProbeEnv where
  probe := fun _ _ =>
    { pipeIn := true, pipeOut := true, forkOk := true, sigpipe := false,
      written := -1,
      reads := [], waitOk := true, status := 256, buf := List.replicate BUFSZ '\x00' }
  loBuf := []

/-- The arguments of a link command `checkLoSanity` looks at: those that do not start with
`-` and have the extension `.lo` or `.la`. -/
def descriptorArgs (cmd : List String) : List String :=
  cmd.tail.filter fun arg => !isFlag arg && (hasExt arg ".lo" || hasExt arg ".la")

/-- Whether the sentinel text `SYSTEM_IS_SANE` stands somewhere in the bytes `out`. -/
def containsSentinel (out : List Char) : Bool :=
  out.tails.any fun t => "SYSTEM_IS_SANE".data.isPrefixOf t

/-- The measure of the read loop: the bytes and chunks still to come and the bytes in the
buffer. -/
def scanMeasure (st : ScanState) (reads : List (List Char)) : Nat :=
  (reads.map List.length).sum + reads.length + st.bufused

/-- The world a check of `main` ends in. -/
def checkedWorld (r : Except Result (World × Bool)) : World :=
  match r with
  | .ok (w, _) => w
  | .error e => e.world

/-- What `checkLoSanity` returns when a compiler is given, in terms of the descriptor
arguments of the command: the verdict of the first one that can be opened; without any
descriptor argument the probe; with descriptor arguments none of which can be opened,
false. -/
def checkLoSpec (penv : ProbeEnv) (opt : Options) (cc : String) (w : World) :
    Except Result (World × Bool) :=
  match (descriptorArgs opt.cmd).findSome? (openRead w.fs) with
  | some content => pure (w, headerTest penv.loBuf content)
  | none => if descriptorArgs opt.cmd = [] then systemIsSane penv cc w else pure (w, false)

/-- Whether the sentinel text stands at the start of a line in `out`, when `out` is read
from a position that is the start of a line if `atStart` holds: the start of a line is
`out` itself or what follows a newline. -/
def scanLines (atStart : Bool) : List Char → Bool
  | [] => false
  | c :: cs =>
    (atStart && "SYSTEM_IS_SANE".data.isPrefixOf (c :: cs)) || scanLines (c == '\n') cs

/-- The reference line scanner of the statement on buffering, applied to the whole output:
true exactly when some line of the output begins with `SYSTEM_IS_SANE`. -/
def referenceLineScanner (out : List Char) : Bool :=
  scanLines true out

/-- An array of `BUFSZ` zero bytes, for examples. -/
def zeroBuf : List Char := List.replicate BUFSZ '\x00'

/-! # Theorems -/

/-! ## The argument loop -/

theorem argLoop_eq_foldl {σ : Type} (step : σ → String → Option String → σ × Bool)
    (W : List String) (hsnd : ∀ st a n, (step st a (some n)).2 = decide (a ∈ W)) :
    ∀ (l : List String) (st : σ),
      argLoop step st l = (visited W l).foldl (fun s p => (step s p.1 p.2).1) st := by
  intro l
  induction l using visited.induct W with
  | case1 => intro st; simp [argLoop, visited]
  | case2 a => intro st; simp [argLoop, visited]
  | case3 a n rest h ih =>
    intro st
    have h2 : (step st a (some n)).2 = true := by rw [hsnd]; simpa using h
    simp [argLoop, visited, h, h2, ih]
  | case4 a n rest h ih =>
    intro st
    have h2 : (step st a (some n)).2 = false := by rw [hsnd]; simpa using h
    simp [argLoop, visited, h, h2, ih]

theorem mem_linkOptionsWithArg (a : String) :
    a ∈ linkOptionsWithArg ↔ (a = "-o" ∨ a = "-rpath" ∨ a = "-version-info" ∨
      a = "-Xcompiler" ∨ a = "-XCClinker" ∨ a = "-bindir" ∨ a = "-export-symbols" ∨
      a = "-export-symbols-regex") := by
  simp only [linkOptionsWithArg, List.mem_cons, List.mem_singleton, List.mem_nil_iff,
      or_false]

theorem ltlinkFlag_of_not_mem (st : LinkState) (a : String) (n : Option String)
    (hm : a ∉ linkOptionsWithArg) :
    ltlinkFlag st a n = ltlinkFlag st a none := by
  simp only [mem_linkOptionsWithArg, not_or] at hm
  obtain ⟨h1, h2, h3, h4, h5, h6, h7, h8⟩ := hm
  unfold ltlinkFlag ltlinkFlagRest
  simp only [h1, h2, h3, h4, h5, h6, h7, h8, false_and, and_false, or_self, if_false]

theorem ltlinkArg_fst (fs : FS) (bb : Bool) (st : LinkState) (a : String) (n : Option String)
    (hm : a ∉ linkOptionsWithArg) :
    (ltlinkArg fs bb st a n).1 = (ltlinkArg fs bb st a none).1 := by
  unfold ltlinkArg
  rw [ltlinkFlag_of_not_mem st a n hm]

theorem ltcompileArg_snd (st : CompileState) (a n : String) :
    (ltcompileArg st a (some n)).2 = decide (a ∈ compileOptionsWithArg) := by
  by_cases hm : a = "-o"
  · subst hm; rfl
  · unfold ltcompileArg ltcompileFlag
    simp only [hm, false_and, if_false, compileOptionsWithArg, List.mem_singleton, decide_False]
    split_ifs <;> rfl

theorem ltcompileArg_fst (st : CompileState) (a : String) (n : Option String)
    (hm : a ∉ compileOptionsWithArg) :
    (ltcompileArg st a n).1 = (ltcompileArg st a none).1 := by
  simp only [compileOptionsWithArg, List.mem_singleton] at hm
  unfold ltcompileArg ltcompileFlag
  simp only [hm, false_and, if_false]

theorem isFlag_of_mem_linkOptions {a : String} (h : a ∈ linkOptionsWithArg) :
    isFlag a = true := by
  rw [mem_linkOptionsWithArg] at h
  rcases h with h | h | h | h | h | h | h | h <;> subst h <;> rfl

theorem ltlinkFlag_snd (st : LinkState) (a n : String) :
    (ltlinkFlag st a (some n)).2 = decide (a ∈ linkOptionsWithArg) := by
  by_cases hm : a ∈ linkOptionsWithArg
  · simp only [hm, decide_True]
    rw [mem_linkOptionsWithArg] at hm
    rcases hm with h | h | h | h | h | h | h | h <;> subst h <;> rfl
  · simp only [hm, decide_False]
    simp only [mem_linkOptionsWithArg, not_or] at hm
    unfold ltlinkFlag
    split_ifs
    any_goals rfl
    any_goals tauto
    unfold ltlinkFlagRest
    split_ifs <;> first | rfl | tauto

theorem ltlinkArg_snd (fs : FS) (bb : Bool) (st : LinkState) (a n : String) :
    (ltlinkArg fs bb st a (some n)).2 = decide (a ∈ linkOptionsWithArg) := by
  unfold ltlinkArg
  by_cases hf : isFlag a = true
  · rw [if_pos hf]; exact ltlinkFlag_snd st a n
  · rw [if_neg hf]
    have : a ∉ linkOptionsWithArg := fun h => hf (isFlag_of_mem_linkOptions h)
    simp [this]

/-- The argument loop of `ltlink` is a fold of its body over the visited arguments. -/
theorem ltlinkLoop_eq_foldl (fs : FS) (bb : Bool) (st : LinkState) (l : List String) :
    ltlinkLoop fs bb st l =
      (visited linkOptionsWithArg l).foldl (fun s p => (ltlinkArg fs bb s p.1 p.2).1) st :=
  argLoop_eq_foldl (ltlinkArg fs bb) linkOptionsWithArg (ltlinkArg_snd fs bb) l st

/-- The argument loop of `ltcompile` is a fold of its body over the visited arguments. -/
theorem ltcompileLoop_eq_foldl (st : CompileState) (l : List String) :
    ltcompileLoop st l =
      (visited compileOptionsWithArg l).foldl (fun s p => (ltcompileArg s p.1 p.2).1) st :=
  argLoop_eq_foldl ltcompileArg compileOptionsWithArg ltcompileArg_snd l st

theorem scanDigits_append (ds : List Char) (rest : List Char) (acc : Nat)
    (hds : ds.all Char.isDigit = true) (hrest : ∀ c ∈ rest.head?, Char.isDigit c = false) :
    scanDigits (ds ++ rest) acc =
      (ds.foldl (fun acc d => 10 * acc + (d.toNat - 48)) acc, rest) := by
  induction ds generalizing acc with
  | nil =>
    cases rest with
    | nil => rfl
    | cons c cs =>
      have hc : c.isDigit = false := hrest c (by simp)
      simp [scanDigits, hc]
  | cons d ds ih =>
    simp only [List.all_cons, Bool.and_eq_true] at hds
    simp only [List.cons_append, scanDigits, hds.1, if_true, List.foldl_cons]
    exact ih _ hds.2

theorem not_space_of_isDigit {c : Char} (h : c.isDigit = true) : isSpaceC c = false := by
  unfold isSpaceC
  have h1 : c ≠ ' ' := by rintro rfl; revert h; decide
  have h2 : c ≠ '\t' := by rintro rfl; revert h; decide
  have h3 : c ≠ '\n' := by rintro rfl; revert h; decide
  have h4 : c ≠ '\x0b' := by rintro rfl; revert h; decide
  have h5 : c ≠ '\x0c' := by rintro rfl; revert h; decide
  have h6 : c ≠ '\r' := by rintro rfl; revert h; decide
  simp [h1, h2, h3, h4, h5, h6]

theorem scanSign_digit {d : Char} (l : List Char) (hd : d.isDigit = true) :
    scanSign (d :: l) = (false, d :: l) := by
  have hm : d ≠ '-' := by rintro rfl; revert hd; decide
  have hp : d ≠ '+' := by rintro rfl; revert hd; decide
  unfold scanSign
  split
  · rename_i h; simp at h; exact absurd h.1 hm
  · rename_i h; simp at h; exact absurd h.1 hp
  · rfl

theorem scanInt_numeral (ds rest : List Char) (hds : isNumeral ds = true)
    (hrest : ∀ c ∈ rest.head?, Char.isDigit c = false) :
    scanInt (ds ++ rest) = some (wrapInt (decValue ds), rest) := by
  cases ds with
  | nil => simp [isNumeral] at hds
  | cons d ds =>
    simp only [isNumeral, List.isEmpty_cons, Bool.not_false, Bool.true_and] at hds
    have hd : d.isDigit = true := by
      simp only [List.all_cons, Bool.and_eq_true] at hds; exact hds.1
    have hsp := not_space_of_isDigit hd
    have hscan := scanDigits_append (d :: ds) rest 0 hds hrest
    simp only [List.cons_append] at hscan
    unfold scanInt
    simp only [List.cons_append, List.dropWhile_cons, hsp, scanSign_digit _ hd, hd, if_true,
      Bool.false_eq_true, if_false, hscan]
    rfl

theorem wrapInt_of_range (x : Int) (h0 : 0 ≤ x) (h1 : x < 2147483648) : wrapInt x = x := by
  unfold wrapInt; omega

/-- The `sscanf` of a well-formed `current:revision:age` assigns the three numbers. -/
theorem sscanfVersion_numerals (dc dr da : List Char) (c0 r0 m0 : Int)
    (hc : isNumeral dc = true) (hr : isNumeral dr = true) (ha : isNumeral da = true) :
    sscanfVersion (dc ++ ':' :: (dr ++ ':' :: da)) c0 r0 m0 =
      (wrapInt (decValue dc), wrapInt (decValue dr), wrapInt (decValue da)) := by
  have hcolon : ∀ (l : List Char), ∀ c ∈ (':' :: l).head?, Char.isDigit c = false := by
    intro l c hc; simp at hc; subst hc; decide
  have hnil : ∀ c ∈ ([] : List Char).head?, Char.isDigit c = false := by
    intro c hc; simp at hc
  have h3 := scanInt_numeral da [] ha hnil
  rw [List.append_nil] at h3
  unfold sscanfVersion
  simp only [scanInt_numeral dc _ hc (hcolon _), scanInt_numeral dr _ hr (hcolon _), h3]

theorem foldl_proj {σ τ α : Type} (g : σ → τ) (f : σ → α → σ) (f2 : τ → α → τ)
    (h : ∀ s a, g (f s a) = f2 (g s) a) (l : List α) (s : σ) :
    g (l.foldl f s) = l.foldl f2 (g s) := by
  induction l generalizing s with
  | nil => rfl
  | cons a l ih => simp only [List.foldl_cons, ih, h]

theorem foldl_filter_of_id {α β : Type} (f : β → α → β) (p : α → Bool)
    (h : ∀ b a, p a = false → f b a = b) (l : List α) (b : β) :
    l.foldl f b = (l.filter p).foldl f b := by
  induction l generalizing b with
  | nil => rfl
  | cons a l ih =>
    by_cases hp : p a = true
    · simp only [List.foldl_cons, List.filter_cons, hp, if_true, ih]
    · simp only [Bool.not_eq_true] at hp
      simp only [List.foldl_cons, List.filter_cons, hp, h b a hp, ih]
      simp

theorem ltlinkFlag_version (st : LinkState) (a : String) (n : Option String) :
    (ltlinkFlag st a n).1.version = versionStep st.version (a, n) := by
  by_cases hv : a = "-version-info"
  · subst hv
    cases n <;> rfl
  · unfold ltlinkFlag versionStep
    simp only [hv, false_and, if_false]
    split_ifs
    any_goals rfl
    unfold ltlinkFlagRest
    split_ifs <;> rfl

theorem ltlinkArg_version (fs : FS) (bb : Bool) (st : LinkState) (a : String)
    (n : Option String) :
    (ltlinkArg fs bb st a n).1.version = versionStep st.version (a, n) := by
  unfold ltlinkArg
  split_ifs with hf
  · exact ltlinkFlag_version st a n
  · have hv : a ≠ "-version-info" := by rintro rfl; exact hf rfl
    unfold ltlinkFile versionStep
    simp only [hv, if_false]
    split_ifs <;> rfl

/-- The version triple after the argument loop is the fold of `versionStep` over the visited
`-version-info` options. -/
theorem ltlinkParse_version (fs : FS) (cmd : List String) :
    (ltlinkParse fs cmd).version =
      ((visited linkOptionsWithArg cmd.tail).filter
        (fun p => decide (p.1 = "-version-info"))).foldl versionStep (0, 0, 0) := by
  unfold ltlinkParse
  rw [ltlinkLoop_eq_foldl]
  rw [foldl_proj LinkState.version (fun s p => (ltlinkArg fs (buildBinaryOf cmd) s p.1 p.2).1)
    versionStep (fun s p => ltlinkArg_version fs _ s p.1 p.2)]
  rw [foldl_filter_of_id versionStep (fun p => decide (p.1 = "-version-info"))]
  · rfl
  · intro v p hp
    simp only [decide_eq_false_iff_not] at hp
    simp only [versionStep, hp, if_false]

/-- C1: for a link command in which the argument loop meets exactly one `-version-info`, whose
argument is `c:r:a` with `c`, `r`, `a` decimal numerals that fit a C `int`, `ltlink`
computes `minor = min(a, c)`, `major = c - minor` and `revision = r`, so that
`major + minor = c`. -/
theorem C1_version_info (fs : FS) (cmd : List String) (dc dr da : List Char)
    (hc : isNumeral dc = true) (hr : isNumeral dr = true) (ha : isNumeral da = true)
    (hcr : decValue dc < 2147483648) (hrr : decValue dr < 2147483648)
    (har : decValue da < 2147483648)
    (hsingle : (visited linkOptionsWithArg cmd.tail).filter
        (fun p => decide (p.1 = "-version-info")) =
      [("-version-info", some (String.mk (dc ++ ':' :: (dr ++ ':' :: da))))]) :
    (ltlinkParse fs cmd).minor = min (decValue da : Int) (decValue dc) ∧
    (ltlinkParse fs cmd).major = (decValue dc : Int) - min (decValue da : Int) (decValue dc) ∧
    (ltlinkParse fs cmd).revision = (decValue dr : Int) ∧
    (ltlinkParse fs cmd).major + (ltlinkParse fs cmd).minor = (decValue dc : Int) := by
  have hv := ltlinkParse_version fs cmd
  rw [hsingle] at hv
  simp only [List.foldl_cons, List.foldl_nil, versionStep, if_true, versionInfo,
    sscanfVersion_numerals dc dr da 0 0 0 hc hr ha] at hv
  rw [wrapInt_of_range (decValue dc) (Int.ofNat_nonneg _) (by exact_mod_cast hcr),
    wrapInt_of_range (decValue dr) (Int.ofNat_nonneg _) (by exact_mod_cast hrr),
    wrapInt_of_range (decValue da) (Int.ofNat_nonneg _) (by exact_mod_cast har)] at hv
  simp only [LinkState.version, Prod.mk.injEq] at hv
  obtain ⟨h1, h2, h3⟩ := hv
  have hc0 : (0 : Int) ≤ decValue dc := Int.ofNat_nonneg _
  have ha0 : (0 : Int) ≤ decValue da := Int.ofNat_nonneg _
  have hcr2 : (decValue dc : Int) < 2147483648 := by exact_mod_cast hcr
  have har2 : (decValue da : Int) < 2147483648 := by exact_mod_cast har
  by_cases hlt : (decValue da : Int) > decValue dc
  · simp only [hlt, if_true] at h1 h2
    rw [wrapInt_of_range _ (by omega) (by omega)] at h1
    rw [h1, h2, h3]
    refine ⟨?_, ?_, rfl, ?_⟩ <;> omega
  · simp only [hlt, if_false] at h1 h2
    rw [wrapInt_of_range _ (by omega) (by omega)] at h1
    rw [h1, h2, h3]
    refine ⟨?_, ?_, rfl, ?_⟩ <;> omega

/-- C1, the example of the claim: `-version-info 3:2:1` yields major 2, minor 1, revision 2. -/
theorem C1_version_info_witness :
    (ltlinkParse emptyWorld.fs
      ["cc", "-o", "libfoo.la", "-version-info", "3:2:1", "foo.lo"]).minor = 1 ∧
    (ltlinkParse emptyWorld.fs
      ["cc", "-o", "libfoo.la", "-version-info", "3:2:1", "foo.lo"]).major = 2 ∧
    (ltlinkParse emptyWorld.fs
      ["cc", "-o", "libfoo.la", "-version-info", "3:2:1", "foo.lo"]).revision = 2 ∧
    (ltlinkParse emptyWorld.fs
      ["cc", "-o", "libfoo.la", "-version-info", "3:2:1", "foo.lo"]).major +
    (ltlinkParse emptyWorld.fs
      ["cc", "-o", "libfoo.la", "-version-info", "3:2:1", "foo.lo"]).minor = 3 :=
  C1_version_info emptyWorld.fs ["cc", "-o", "libfoo.la", "-version-info", "3:2:1", "foo.lo"]
    ['3'] ['2'] ['1'] (by decide) (by decide) (by decide) (by decide) (by decide) (by decide)
    (by decide)

theorem foldl_of_mem {σ α : Type} (f : σ → α → σ) (P : σ → Prop) (a0 : α)
    (hpres : ∀ s a, P s → P (f s a)) (hset : ∀ s, P (f s a0)) (l : List α) (s : σ)
    (hmem : a0 ∈ l) : P (l.foldl f s) := by
  have hkeep : ∀ (l : List α) (s : σ), P s → P (l.foldl f s) := by
    intro l
    induction l with
    | nil => intro s hs; exact hs
    | cons a l ih => intro s hs; exact ih _ (hpres s a hs)
  induction l generalizing s with
  | nil => simp at hmem
  | cons a l ih =>
    rcases List.mem_cons.mp hmem with h | h
    · subst h; exact hkeep l _ (hset s)
    · exact ih _ h

theorem ltlinkArg_insane_keep (fs : FS) (bb : Bool) (st : LinkState) (a : String)
    (n : Option String) (h : st.insane = true) : (ltlinkArg fs bb st a n).1.insane = true := by
  unfold ltlinkArg
  split_ifs
  · unfold ltlinkFlag
    split_ifs
    any_goals exact h
    unfold ltlinkFlagRest
    split_ifs <;> first | exact h | rfl
  · unfold ltlinkFile
    split_ifs <;> exact h

theorem ltlinkArg_module (fs : FS) (bb : Bool) (st : LinkState) (n : Option String) :
    (ltlinkArg fs bb st "-module" n).1.insane = true := by
  cases n <;> rfl

/-- C2 (amended): a link command in which the argument loop meets `-module` as an option
makes `ltlink` call `execvp(argv[1], argv + 1)` straight away: the world is unchanged, so
nothing was spawned and no file or directory was made. -/
theorem C2_module_link_fallback (env : Env) (opt : Options) (w : World)
    (hmod : ∃ narg, ("-module", narg) ∈ visited linkOptionsWithArg opt.cmd.tail) :
    ltlink env opt w =
      { world := w, outcome := .execLibtool (opt.argv.get? 1) (opt.argv.drop 1) } := by
  obtain ⟨narg, hmem⟩ := hmod
  have hins : (ltlinkParse w.fs opt.cmd).insane = true := by
    unfold ltlinkParse
    rw [ltlinkLoop_eq_foldl]
    exact foldl_of_mem (fun s p => (ltlinkArg w.fs (buildBinaryOf opt.cmd) s p.1 p.2).1)
      (fun s => s.insane = true) ("-module", narg)
      (fun s p hs => ltlinkArg_insane_keep _ _ s p.1 p.2 hs)
      (fun s => ltlinkArg_module _ _ s narg) _ _ hmem
  unfold ltlink
  simp only [hins, if_true, execLibtool]

/-- C2 (amended), at `cc -o libfoo.la foo.lo -module -rpath /usr/lib`. -/
theorem C2_module_link_fallback_witness :
    (∃ narg, ("-module", narg) ∈ visited linkOptionsWithArg
      (mkOptions false "link"
        ["cc", "-o", "libfoo.la", "foo.lo", "-module", "-rpath", "/usr/lib"]).cmd.tail) ∧
    ltlink idealTools
      (mkOptions false "link"
        ["cc", "-o", "libfoo.la", "foo.lo", "-module", "-rpath", "/usr/lib"]) emptyWorld =
      { world := emptyWorld,
        outcome := .execLibtool (some "libtool")
          ["libtool", "--mode=link", "cc", "-o", "libfoo.la", "foo.lo", "-module", "-rpath",
           "/usr/lib"] } :=
  ⟨⟨some "-rpath", by decide⟩,
   C2_module_link_fallback idealTools _ emptyWorld ⟨some "-rpath", by decide⟩⟩

/-- C2, as stated, fails in compile mode: `cc -module -c foo.c` is not handed to the reference
libtool; `-module` is passed through and the compiler runs twice. -/
theorem C2_module_compile_counterexample :
    (ltcompile idealTools (mkOptions false "compile" ["cc", "-module", "-c", "foo.c"])
      emptyWorld).outcome = .returned ∧
    execsOf (ltcompile idealTools (mkOptions false "compile" ["cc", "-module", "-c", "foo.c"])
      emptyWorld).world.trace =
      [["cc", "-module", "-c", "foo.c", "-o", "./.libs/foo.st.o"],
       ["cc", "-module", "-c", "foo.c", "-o", "./.libs/foo.sh.o", "-fPIC", "-DPIC"]] ∧
    (ltcompile idealTools (mkOptions false "compile" ["cc", "-module", "-c", "foo.c"])
      emptyWorld).world.fs "foo.lo" ≠ none := by
  decide

/-- C3, at `cc foo.o` (no `-o`): `ltlink` appends `-o a.out` to the link command but, with
`buildBinary` unset, spawns nothing; it only makes `./.libs` and returns. -/
theorem C3_no_output_name_spawns_nothing :
    (ltlink idealTools (mkOptions false "link" ["cc", "foo.o"]) emptyWorld).outcome = .returned ∧
    (ltlink idealTools (mkOptions false "link" ["cc", "foo.o"]) emptyWorld).world.trace =
      [.mkdir "./.libs"] ∧
    buildBinaryOf ["cc", "foo.o"] = false ∧
    (ltlinkParse emptyWorld.fs ["cc", "foo.o"]).outCmd = ["cc", "-L.libs", "foo.o"] := by
  decide

/-- C4, at `-n --mode=compile cc -c foo.c` and at a dry-run link of `libfoo.la` with `-rpath`:
the dry-run compile writes `foo.lo`; the dry-run link unlinks three paths, fails to rename
the shared object that was never built and exits with status 1. -/
theorem C4_dry_run_changes_files :
    changesOf (ltcompile idealTools (mkOptions true "compile" ["cc", "-c", "foo.c"])
      emptyWorld).world.trace = [.write "foo.lo" (loContent "foo")] ∧
    (ltcompile idealTools (mkOptions true "compile" ["cc", "-c", "foo.c"])
      emptyWorld).world.fs "foo.lo" = some (.file (loContent "foo")) ∧
    changesOf (ltlink idealTools
      (mkOptions true "link" ["cc", "-o", "libfoo.la", "foo.lo", "-rpath", "/usr/lib"])
      emptyWorld).world.trace =
      [.unlink "./.libs/libfoo.so.0", .unlink "./.libs/libfoo.so.0.0.0",
       .unlink "./.libs/libfoo.so", .rename "./.libs/libfoo.so.0" "./.libs/libfoo.so.0.0.0"] ∧
    (ltlink idealTools
      (mkOptions true "link" ["cc", "-o", "libfoo.la", "foo.lo", "-rpath", "/usr/lib"])
      emptyWorld).outcome = .exited 1 ∧
    (ltlink idealTools
      (mkOptions false "link" ["cc", "-o", "libfoo.la", "foo.lo", "-rpath", "/usr/lib"])
      emptyWorld).outcome = .returned := by
  decide

/-- C6, at `cc -c ./foo` and `cc -c ../src/foo`: the last `.` of the whole path is taken for
the extension, so the descriptors are written at `.lo` and `..lo`. -/
theorem C6_guessed_name_cuts_directory :
    writesOf (ltcompile idealTools (mkOptions false "compile" ["cc", "-c", "./foo"])
      emptyWorld).world.trace = [(".lo", loContent "")] ∧
    writesOf (ltcompile idealTools (mkOptions false "compile" ["cc", "-c", "../src/foo"])
      emptyWorld).world.trace = [("..lo", loContent ".")] ∧
    writesOf (ltcompile idealTools (mkOptions false "compile" ["cc", "-c", "src/foo.c"])
      emptyWorld).world.trace = [("src/foo.lo", loContent "foo")] := by
  decide

/-- C7, at `-version-info 3:2`, `-version-info 7` and `-version-info 5:4:3 -version-info 3:2`:
the fields `sscanf` converted before it failed are kept, and `minor` keeps the value of an
earlier `-version-info`. -/
theorem C7_partial_version_info_not_zero :
    (ltlinkParse emptyWorld.fs ["cc", "-version-info", "3:2"]).version = (3, 0, 2) ∧
    (ltlinkParse emptyWorld.fs ["cc", "-version-info", "7"]).version = (7, 0, 0) ∧
    (ltlinkParse emptyWorld.fs
      ["cc", "-version-info", "5:4:3", "-version-info", "3:2"]).version = (0, 3, 2) ∧
    (ltlinkParse emptyWorld.fs ["cc", "-version-info", "abc"]).version = (0, 0, 0) := by
  decide

theorem cstrv_nullTerminated (l : List String) : cstrv (nullTerminated l) = l := by
  unfold nullTerminated
  induction l with
  | nil => rfl
  | cons a l ih => simpa [cstrv] using ih

/-- A call of `spawn` whose child succeeds, or that runs dry, returns and adds `spawnTrace`. -/
theorem spawn_ok (env : Env) (opt : Options) (argv : List (Option String)) (retry : Bool)
    (w : World) (h : opt.dryRun = true ∨ ChildrenSucceed env) :
    ∃ fs1, spawn env opt argv retry w =
      .ok { fs := fs1, trace := w.trace ++ spawnTrace opt argv retry } := by
  by_cases hdry : opt.dryRun = true
  · refine ⟨w.fs, ?_⟩
    unfold spawn spawnTrace
    by_cases hq : opt.quiet = true <;> simp [hdry, hq, World.log]
  · have hrun : ChildrenSucceed env := h.resolve_left hdry
    simp only [Bool.not_eq_true] at hdry
    by_cases hq : opt.quiet = true
    · obtain ⟨fs1, h1⟩ := hrun (cstrv argv) w.fs
      refine ⟨fs1, ?_⟩
      unfold spawn spawnTrace
      simp [hdry, hq, World.log, h1]
    · obtain ⟨fs1, h1⟩ := hrun (cstrv argv) w.fs
      refine ⟨fs1, ?_⟩
      unfold spawn spawnTrace
      simp [hdry, hq, World.log, h1]

@[simp] theorem sysMkdir_trace (p : String) (w : World) :
    (sysMkdir p w).trace = w.trace ++ [.mkdir p] := by
  simp only [sysMkdir, World.log]
  split <;> rfl

@[simp] theorem sysLink_trace (a b : String) (w : World) :
    (sysLink a b w).trace = w.trace ++ [.link a b] := by
  simp only [sysLink, World.log]
  split <;> rfl

@[simp] theorem sysUnlink_trace (p : String) (w : World) :
    (sysUnlink p w).trace = w.trace ++ [.unlink p] := by
  simp only [sysUnlink, World.log]
  split <;> rfl

theorem writeFile_cases (path content : String) (w : World) :
    writeFile path content w = none ∨
    ∃ fs1, writeFile path content w =
      some { fs := fs1, trace := w.trace ++ [.write path content] } := by
  unfold writeFile
  split
  · exact Or.inl rfl
  · exact Or.inr ⟨_, rfl⟩

theorem compileNonPic_ok (env : Env) (opt : Options) (outCmd : List String) (pos : Nat)
    (outName : String) (bp bnp : Bool) (w : World)
    (h : opt.dryRun = true ∨ ChildrenSucceed env) :
    ∃ w1 : World, compileNonPic env opt outCmd pos outName bp bnp w = .ok w1 ∧
      w1.trace = w.trace ++
        (if bnp then
          spawnTrace opt (nullTerminated (outCmd.set pos (nonPicFileOf outName))) false ++
            (if !bp && !opt.dryRun then
              [Effect.link (nonPicFileOf outName) (picFileOf outName)] else [])
         else []) := by
  unfold compileNonPic
  cases bnp
  · exact ⟨w, rfl, by simp⟩
  · obtain ⟨fsA, hA⟩ := spawn_ok env opt
      (nullTerminated (outCmd.set pos (nonPicFileOf outName))) false w h
    simp only [if_true, hA, bind, Except.bind, pure, Except.pure]
    refine ⟨_, rfl, ?_⟩
    by_cases hl : (!bp && !opt.dryRun) = true <;> simp [hl]

theorem compilePic_ok (env : Env) (opt : Options) (outCmd : List String) (pos : Nat)
    (outName : String) (bp bnp : Bool) (w : World)
    (h : opt.dryRun = true ∨ ChildrenSucceed env) :
    ∃ w1 : World, compilePic env opt outCmd pos outName bp bnp w = .ok w1 ∧
      w1.trace = w.trace ++
        (if bp then
          spawnTrace opt
            (nullTerminated ((outCmd ++ ["-fPIC", "-DPIC"]).set pos (picFileOf outName))) false ++
            (if !bnp && !opt.dryRun then
              [Effect.link (picFileOf outName) (nonPicFileOf outName)] else [])
         else []) := by
  unfold compilePic
  cases bp
  · exact ⟨w, rfl, by simp⟩
  · obtain ⟨fsA, hA⟩ := spawn_ok env opt
      (nullTerminated ((outCmd ++ ["-fPIC", "-DPIC"]).set pos (picFileOf outName))) false w h
    simp only [if_true, hA, bind, Except.bind, pure, Except.pure]
    refine ⟨_, rfl, ?_⟩
    by_cases hl : (!bnp && !opt.dryRun) = true <;> simp [hl]

/-- Writing the `.lo` file ends the run: the file is written and the run returns, or it
cannot be opened and the run exits with status 1. -/
theorem writeLo_finish (outName : String) (w1 : World) :
    ∃ fs1 last,
      (finish (writeLo outName w1)).world = { fs := fs1, trace := w1.trace ++ [last] } ∧
      ((last = .write outName (loContent (cutAtLastDot (basename outName))) ∧
        (finish (writeLo outName w1)).outcome = .returned) ∨
       (last = .perror outName ∧ (finish (writeLo outName w1)).outcome = .exited 1)) := by
  unfold writeLo
  rcases writeFile_cases outName (loContent (cutAtLastDot (basename outName))) w1
    with hw | ⟨fs1, hw⟩
  · refine ⟨w1.fs, .perror outName, ?_, Or.inr ⟨rfl, ?_⟩⟩ <;>
      simp [hw, finish, World.log, throw, throwThe, MonadExceptOf.throw]
  · refine ⟨fs1, _, ?_, Or.inl ⟨rfl, ?_⟩⟩ <;> simp [hw, finish, pure, Except.pure]

/-- The trace of the build steps of `ltcompile` when every child succeeds (or the run is
dry): `compileBuildTrace`, then the descriptor is written and the run returns, or the file
cannot be opened and the run exits with status 1. -/
theorem ltcompileBuild_trace (env : Env) (opt : Options) (outCmd : List String) (pos : Nat)
    (outName : String) (bp bnp : Bool) (w : World)
    (h : opt.dryRun = true ∨ ChildrenSucceed env) :
    ∃ fs1 last,
      (finish (ltcompileBuild env opt outCmd pos outName bp bnp w)).world =
        { fs := fs1,
          trace := w.trace ++ compileBuildTrace opt outCmd pos outName bp bnp ++ [last] } ∧
      ((last = .write outName (loContent (cutAtLastDot (basename outName))) ∧
          (finish (ltcompileBuild env opt outCmd pos outName bp bnp w)).outcome = .returned) ∨
       (last = .perror outName ∧
          (finish (ltcompileBuild env opt outCmd pos outName bp bnp w)).outcome = .exited 1)) := by
  obtain ⟨w0, hw0, hw0t⟩ : ∃ w0 : World,
      w0 = (if opt.dryRun = true then w else sysMkdir (dirname outName ++ "/.libs") w) ∧
      w0.trace = w.trace ++
        (if opt.dryRun then [] else [Effect.mkdir (dirname outName ++ "/.libs")]) := by
    refine ⟨_, rfl, ?_⟩
    by_cases hd : opt.dryRun = true <;> simp [hd]
  obtain ⟨w1, hw1, hw1t⟩ := compileNonPic_ok env opt outCmd pos outName bp bnp w0 h
  obtain ⟨w2, hw2, hw2t⟩ := compilePic_ok env opt outCmd pos outName bp bnp w1 h
  obtain ⟨fs1, last, hf1, hf2⟩ := writeLo_finish outName w2
  have hrun : ltcompileBuild env opt outCmd pos outName bp bnp w = writeLo outName w2 := by
    unfold ltcompileBuild
    simp only [← hw0, hw1, hw2, bind, Except.bind]
  rw [hrun]
  refine ⟨fs1, last, ?_, hf2⟩
  rw [hf1, hw2t, hw1t, hw0t]
  simp [compileBuildTrace, List.append_assoc]

theorem argLoop_cons_of_not_mem {σ : Type} (step : σ → String → Option String → σ × Bool)
    (W : List String) (hsnd : ∀ st a n, (step st a (some n)).2 = decide (a ∈ W))
    (hfst : ∀ st a n, a ∉ W → (step st a n).1 = (step st a none).1)
    (a : String) (ha : a ∉ W) (l : List String) (st : σ) :
    argLoop step st (a :: l) = argLoop step (step st a none).1 l := by
  cases l with
  | nil => simp [argLoop]
  | cons n r =>
    have h2 : (step st a (some n)).2 = false := by rw [hsnd]; simpa using ha
    simp only [argLoop, h2, Bool.false_eq_true, if_false, hfst st a (some n) ha]

theorem argLoop_append {σ : Type} (step : σ → String → Option String → σ × Bool)
    (W : List String) (hsnd : ∀ st a n, (step st a (some n)).2 = decide (a ∈ W))
    (hfst : ∀ st a n, a ∉ W → (step st a n).1 = (step st a none).1) :
    ∀ (pre : List String) (st : σ) (rest : List String), endsAtOption W pre = true →
      argLoop step st (pre ++ rest) = argLoop step (argLoop step st pre) rest := by
  intro pre
  induction pre using endsAtOption.induct W with
  | case1 => intro st rest _; simp [argLoop]
  | case2 a =>
    intro st rest h
    have ha : a ∉ W := by simpa [endsAtOption] using h
    rw [List.singleton_append, argLoop_cons_of_not_mem step W hsnd hfst a ha]
    simp [argLoop]
  | case3 a n t hmem ih =>
    intro st rest h
    have h2 : (step st a (some n)).2 = true := by rw [hsnd]; simpa using hmem
    have ht : endsAtOption W t = true := by simpa [endsAtOption, hmem] using h
    simp only [List.cons_append, argLoop, h2, if_true]
    exact ih _ _ ht
  | case4 a n t hmem ih =>
    intro st rest h
    have h2 : (step st a (some n)).2 = false := by rw [hsnd]; simpa using hmem
    have ht : endsAtOption W (n :: t) = true := by simpa [endsAtOption, hmem] using h
    simp only [List.cons_append, argLoop, h2, Bool.false_eq_true, if_false]
    exact ih _ _ ht

theorem foldl_comm {σ α : Type} (f : σ → α → σ) (g : σ → σ)
    (h : ∀ s a, f (g s) a = g (f s a)) (l : List α) (s : σ) :
    l.foldl f (g s) = g (l.foldl f s) := by
  induction l generalizing s with
  | nil => rfl
  | cons a l ih => simp only [List.foldl_cons, h, ih]

theorem foldl_or_eq_any {α : Type} (t : α → Bool) (l : List α) (b : Bool) :
    l.foldl (fun b p => b || t p) b = (b || l.any t) := by
  induction l generalizing b with
  | nil => simp
  | cons a l ih => simp only [List.foldl_cons, ih, List.any_cons, Bool.or_assoc]

theorem ltcompileArg_preferPic (st : CompileState) (a : String) (n : Option String) :
    (ltcompileArg st a n).1.preferPic =
      (st.preferPic || decide (a = "-prefer-pic" ∨ a = "-shared")) := by
  by_cases hp : a = "-prefer-pic" ∨ a = "-shared"
  · rcases hp with h | h <;> subst h <;> cases n <;> simp [ltcompileArg, isFlag, ltcompileFlag]
  · simp only [hp, decide_False, Bool.or_false]
    unfold ltcompileArg ltcompileFlag
    simp only [hp, if_false]
    split_ifs <;> rfl

theorem ltcompileArg_preferNonPic (st : CompileState) (a : String) (n : Option String) :
    (ltcompileArg st a n).1.preferNonPic =
      (st.preferNonPic || decide (a = "-prefer-non-pic" ∨ a = "-static")) := by
  by_cases hp : a = "-prefer-non-pic" ∨ a = "-static"
  · rcases hp with h | h <;> subst h <;> cases n <;> simp [ltcompileArg, isFlag, ltcompileFlag]
  · simp only [hp, decide_False, Bool.or_false]
    unfold ltcompileArg ltcompileFlag
    simp only [hp, if_false]
    split_ifs <;> rfl

theorem ltcompileParse_preferPic (cmd : List String) :
    (ltcompileParse cmd).preferPic = prefersPic cmd := by
  unfold ltcompileParse prefersPic
  rw [ltcompileLoop_eq_foldl,
    foldl_proj CompileState.preferPic
      (fun (s : CompileState) (p : String × Option String) => (ltcompileArg s p.1 p.2).1)
      (fun (b : Bool) (p : String × Option String) => b || decide (p.1 = "-prefer-pic" ∨ p.1 = "-shared"))
      (fun s p => ltcompileArg_preferPic s p.1 p.2),
    foldl_or_eq_any]
  rfl

theorem ltcompileParse_preferNonPic (cmd : List String) :
    (ltcompileParse cmd).preferNonPic = prefersNonPic cmd := by
  unfold ltcompileParse prefersNonPic
  rw [ltcompileLoop_eq_foldl,
    foldl_proj CompileState.preferNonPic
      (fun (s : CompileState) (p : String × Option String) => (ltcompileArg s p.1 p.2).1)
      (fun (b : Bool) (p : String × Option String) => b || decide (p.1 = "-prefer-non-pic" ∨ p.1 = "-static"))
      (fun s p => ltcompileArg_preferNonPic s p.1 p.2),
    foldl_or_eq_any]
  rfl

/-- An accepted compile command reaches the build steps, with both variants built unless
exactly one preference was given. -/
theorem ltcompile_eq_build (env : Env) (opt : Options) (w : World)
    (hacc : compileAccepts opt.cmd = true) :
    ltcompile env opt w =
      finish (ltcompileBuild env opt (compileBuffer opt.cmd) (compileSlot opt.cmd)
        (compileOutput opt.cmd)
        (!(prefersNonPic opt.cmd && !prefersPic opt.cmd))
        (!(prefersPic opt.cmd && !prefersNonPic opt.cmd))
        { fs := w.fs, trace := w.trace ++ compileDiag opt.cmd }) := by
  unfold compileAccepts at hacc
  rw [Bool.and_eq_true] at hacc
  obtain ⟨hin, hout⟩ := hacc
  obtain ⟨inName, hin⟩ := Option.isSome_iff_exists.mp hin
  have hbp : ∀ p n : Bool, ((p && !(p && n)) || !(n && !(p && n))) = !(n && !p) := by decide
  have hbn : ∀ p n : Bool, ((n && !(p && n)) || !(p && !(p && n))) = !(p && !n) := by decide
  unfold ltcompile compileBuffer compileSlot compileOutput compileDiag
  simp only [hin, ltcompileParse_preferPic, ltcompileParse_preferNonPic, hbp, hbn]
  cases hon : (ltcompileParse opt.cmd).outName with
  | none => simp
  | some outName =>
    simp only [hon] at hout
    have hext : strrchrDot outName = some ".lo" := by simpa using hout
    simp [hext, World.log]

theorem execsOf_append (s t : List Effect) : execsOf (s ++ t) = execsOf s ++ execsOf t := by
  simp [execsOf, List.filterMap_append]

theorem linksOf_append (s t : List Effect) : linksOf (s ++ t) = linksOf s ++ linksOf t := by
  simp [linksOf, List.filterMap_append]

theorem writesOf_append (s t : List Effect) : writesOf (s ++ t) = writesOf s ++ writesOf t := by
  simp [writesOf, List.filterMap_append]

theorem execsOf_spawnTrace (opt : Options) (v : List (Option String)) (r : Bool) :
    execsOf (spawnTrace opt v r) = if opt.dryRun then [] else [cstrv v] := by
  unfold spawnTrace
  by_cases hq : opt.quiet = true <;> by_cases hd : opt.dryRun = true <;>
    simp [hq, hd, execsOf]

theorem linksOf_spawnTrace (opt : Options) (v : List (Option String)) (r : Bool) :
    linksOf (spawnTrace opt v r) = [] := by
  unfold spawnTrace
  by_cases hq : opt.quiet = true <;> by_cases hd : opt.dryRun = true <;>
    simp [hq, hd, linksOf]

theorem writesOf_spawnTrace (opt : Options) (v : List (Option String)) (r : Bool) :
    writesOf (spawnTrace opt v r) = [] := by
  unfold spawnTrace
  by_cases hq : opt.quiet = true <;> by_cases hd : opt.dryRun = true <;>
    simp [hq, hd, writesOf]

theorem execsOf_compileBuildTrace (opt : Options) (oc : List String) (pos : Nat)
    (out : String) (bp bnp : Bool) (hd : opt.dryRun = false) :
    execsOf (compileBuildTrace opt oc pos out bp bnp) =
      (if bnp then [oc.set pos (nonPicFileOf out)] else []) ++
      (if bp then [(oc ++ ["-fPIC", "-DPIC"]).set pos (picFileOf out)] else []) := by
  unfold compileBuildTrace
  have e1 : ∀ (p : String) (t : List Effect), execsOf (Effect.mkdir p :: t) = execsOf t :=
    fun _ _ => rfl
  have e2 : ∀ p q : String, execsOf [Effect.link p q] = [] := fun _ _ => rfl
  have e3 : execsOf [] = [] := rfl
  cases bp <;> cases bnp <;>
    simp [execsOf_append, execsOf_spawnTrace, cstrv_nullTerminated, hd, e1, e2, e3]

theorem linksOf_compileBuildTrace (opt : Options) (oc : List String) (pos : Nat)
    (out : String) (bp bnp : Bool) (hd : opt.dryRun = false) :
    linksOf (compileBuildTrace opt oc pos out bp bnp) =
      (if bnp && !bp then [(nonPicFileOf out, picFileOf out)] else []) ++
      (if bp && !bnp then [(picFileOf out, nonPicFileOf out)] else []) := by
  unfold compileBuildTrace
  have e1 : ∀ (p : String) (t : List Effect), linksOf (Effect.mkdir p :: t) = linksOf t :=
    fun _ _ => rfl
  have e2 : ∀ p q : String, linksOf [Effect.link p q] = [(p, q)] := fun _ _ => rfl
  have e3 : linksOf [] = [] := rfl
  cases bp <;> cases bnp <;>
    simp [linksOf_append, linksOf_spawnTrace, hd, e1, e2, e3]

theorem childrenSucceed_idealTools : ChildrenSucceed idealTools := by
  intro cmd fs
  simp only [idealTools]
  split <;> exact ⟨_, rfl⟩

/-- The trace of an accepted compile run whose children succeed (or that runs dry). -/
theorem ltcompile_trace (env : Env) (opt : Options) (w : World)
    (hacc : compileAccepts opt.cmd = true) (h : opt.dryRun = true ∨ ChildrenSucceed env) :
    ∃ fs1 last,
      (ltcompile env opt w).world =
        { fs := fs1,
          trace := w.trace ++ compileDiag opt.cmd ++
            compileBuildTrace opt (compileBuffer opt.cmd) (compileSlot opt.cmd)
              (compileOutput opt.cmd)
              (!(prefersNonPic opt.cmd && !prefersPic opt.cmd))
              (!(prefersPic opt.cmd && !prefersNonPic opt.cmd)) ++ [last] } ∧
      ((last = .write (compileOutput opt.cmd)
            (loContent (cutAtLastDot (basename (compileOutput opt.cmd)))) ∧
          (ltcompile env opt w).outcome = .returned) ∨
       (last = .perror (compileOutput opt.cmd) ∧ (ltcompile env opt w).outcome = .exited 1)) := by
  rw [ltcompile_eq_build env opt w hacc]
  exact ltcompileBuild_trace env opt (compileBuffer opt.cmd)
    (compileSlot opt.cmd) (compileOutput opt.cmd)
    (!(prefersNonPic opt.cmd && !prefersPic opt.cmd))
    (!(prefersPic opt.cmd && !prefersNonPic opt.cmd))
    { fs := w.fs, trace := w.trace ++ compileDiag opt.cmd } h

theorem ltcompileLoop_append (pre rest : List String) (st : CompileState)
    (h : endsAtOption compileOptionsWithArg pre = true) :
    ltcompileLoop st (pre ++ rest) = ltcompileLoop (ltcompileLoop st pre) rest :=
  argLoop_append ltcompileArg compileOptionsWithArg ltcompileArg_snd
    (fun st a n ha => ltcompileArg_fst st a n ha) pre st rest h

theorem ltcompileLoop_cons (a : String) (l : List String) (st : CompileState)
    (ha : a ∉ compileOptionsWithArg) :
    ltcompileLoop st (a :: l) = ltcompileLoop (ltcompileArg st a none).1 l :=
  argLoop_cons_of_not_mem ltcompileArg compileOptionsWithArg ltcompileArg_snd
    (fun st a n ha => ltcompileArg_fst st a n ha) a ha l st

theorem ltcompileArg_withPic (st : CompileState) (a : String) (n : Option String) :
    (ltcompileArg st.withPic a n).1 = (ltcompileArg st a n).1.withPic := by
  unfold ltcompileArg ltcompileFlag CompileState.withPic
  split_ifs <;> rfl

theorem ltcompileArg_withNonPic (st : CompileState) (a : String) (n : Option String) :
    (ltcompileArg st.withNonPic a n).1 = (ltcompileArg st a n).1.withNonPic := by
  unfold ltcompileArg ltcompileFlag CompileState.withNonPic
  split_ifs <;> rfl

theorem ltcompileLoop_withPic (l : List String) (st : CompileState) :
    ltcompileLoop st.withPic l = (ltcompileLoop st l).withPic := by
  rw [ltcompileLoop_eq_foldl, ltcompileLoop_eq_foldl]
  exact foldl_comm (fun (s : CompileState) (p : String × Option String) =>
    (ltcompileArg s p.1 p.2).1) CompileState.withPic
    (fun s p => ltcompileArg_withPic s p.1 p.2) _ st

theorem ltcompileLoop_withNonPic (l : List String) (st : CompileState) :
    ltcompileLoop st.withNonPic l = (ltcompileLoop st l).withNonPic := by
  rw [ltcompileLoop_eq_foldl, ltcompileLoop_eq_foldl]
  exact foldl_comm (fun (s : CompileState) (p : String × Option String) =>
    (ltcompileArg s p.1 p.2).1) CompileState.withNonPic
    (fun s p => ltcompileArg_withNonPic s p.1 p.2) _ st

/-- Adding `-prefer-pic` and `-prefer-non-pic` (in either order) at option positions of a
compile command only sets the two preference flags of the parsed state. -/
theorem ltcompileParse_add_both (cc f1 f2 : String) (a b c : List String)
    (hf : (f1 = "-prefer-pic" ∧ f2 = "-prefer-non-pic") ∨
      (f1 = "-prefer-non-pic" ∧ f2 = "-prefer-pic"))
    (ha : endsAtOption compileOptionsWithArg a = true)
    (hb : endsAtOption compileOptionsWithArg b = true) :
    ltcompileParse (cc :: (a ++ f1 :: (b ++ f2 :: c))) =
      (ltcompileParse (cc :: (a ++ (b ++ c)))).withPic.withNonPic := by
  have hp : "-prefer-pic" ∉ compileOptionsWithArg := by decide
  have hn : "-prefer-non-pic" ∉ compileOptionsWithArg := by decide
  have sp : ∀ st : CompileState,
      (ltcompileArg st "-prefer-pic" none).1 = st.withPic := fun _ => rfl
  have sn : ∀ st : CompileState,
      (ltcompileArg st "-prefer-non-pic" none).1 = st.withNonPic := fun _ => rfl
  unfold ltcompileParse
  simp only [List.headD_cons, List.tail_cons]
  rw [ltcompileLoop_append a _ _ ha, ltcompileLoop_append a _ _ ha,
    ltcompileLoop_append b _ _ hb]
  rcases hf with ⟨h1, h2⟩ | ⟨h1, h2⟩
  · subst h1; subst h2
    rw [ltcompileLoop_cons _ _ _ hp, sp, ltcompileLoop_withPic, ltcompileLoop_append b _ _ hb,
      ltcompileLoop_cons _ _ _ hn, sn, ltcompileLoop_withNonPic]
    rfl
  · subst h1; subst h2
    rw [ltcompileLoop_cons _ _ _ hn, sn, ltcompileLoop_withNonPic,
      ltcompileLoop_append b _ _ hb, ltcompileLoop_cons _ _ _ hp, sp, ltcompileLoop_withPic]

theorem spawn_congr (env : Env) (opt1 opt2 : Options) (v : List (Option String)) (w : World)
    (hd : opt1.dryRun = opt2.dryRun) (hq : opt1.quiet = opt2.quiet) :
    spawn env opt1 v false w = spawn env opt2 v false w := by
  unfold spawn
  simp only [hd, hq, Bool.false_eq_true, if_false]

theorem ltcompileBuild_congr (env : Env) (opt1 opt2 : Options) (oc : List String) (pos : Nat)
    (out : String) (bp bnp : Bool) (w : World)
    (hd : opt1.dryRun = opt2.dryRun) (hq : opt1.quiet = opt2.quiet) :
    ltcompileBuild env opt1 oc pos out bp bnp w = ltcompileBuild env opt2 oc pos out bp bnp w := by
  unfold ltcompileBuild compileNonPic compilePic
  simp only [hd, spawn_congr env opt1 opt2 _ _ hd hq]

/-- A compile run depends on the options only through the dry-run and quiet flags and the
parsed state of the command. -/
theorem ltcompile_congr (env : Env) (opt1 opt2 : Options) (w : World)
    (hd : opt1.dryRun = opt2.dryRun) (hq : opt1.quiet = opt2.quiet)
    (hst : ltcompileParse opt1.cmd = (ltcompileParse opt2.cmd).withPic.withNonPic)
    (hP : prefersPic opt2.cmd = false) (hN : prefersNonPic opt2.cmd = false) :
    ltcompile env opt1 w = ltcompile env opt2 w := by
  have h2p := ltcompileParse_preferPic opt2.cmd
  have h2n := ltcompileParse_preferNonPic opt2.cmd
  rw [hP] at h2p
  rw [hN] at h2n
  unfold ltcompile
  simp only [hst, CompileState.withPic, CompileState.withNonPic, h2p, h2n,
    ltcompileBuild_congr env opt1 opt2 _ _ _ _ _ _ hd hq]
  rfl

theorem foldl_inv {σ α : Type} (f : σ → α → σ) (P : σ → Prop)
    (hstep : ∀ s a, P s → P (f s a)) (l : List α) (s : σ) (hs : P s) : P (l.foldl f s) := by
  induction l generalizing s with
  | nil => exact hs
  | cons a l ih => exact ih _ (hstep s a hs)

theorem slotOk_append (st : CompileState) (extra : List String) (h : SlotOk st) :
    SlotOk { st with outCmd := st.outCmd ++ extra } := by
  intro o ho
  obtain ⟨h1, h2, h3⟩ := h o ho
  have hlt : st.outNamePos < st.outCmd.length := by
    by_contra hge
    rw [List.getElem?_eq_none (by omega)] at h3
    exact absurd h3 (by simp)
  refine ⟨h1, ?_, ?_⟩
  · show (st.outCmd ++ extra)[st.outNamePos - 1]? = some "-o"
    rw [List.getElem?_append_left (by omega)]; exact h2
  · show (st.outCmd ++ extra)[st.outNamePos]? = some o
    rw [List.getElem?_append_left hlt]; exact h3

theorem ltcompileArg_slotOk (st : CompileState) (a : String) (n : Option String)
    (h : SlotOk st) : SlotOk (ltcompileArg st a n).1 := by
  unfold ltcompileArg
  split_ifs with hf
  · unfold ltcompileFlag
    split_ifs with h1 h2 h3 h4 h5
    · obtain ⟨n, rfl⟩ := Option.isSome_iff_exists.mp h1.2
      intro o ho
      simp only [Option.some.injEq] at ho
      subst ho
      refine ⟨by simp, ?_, ?_⟩
      · show (st.outCmd ++ [a, n])[st.outCmd.length + 1 - 1]? = some "-o"
        rw [Nat.add_sub_cancel, List.getElem?_append_right (le_refl _)]
        simp [h1.1]
      · show (st.outCmd ++ [a, n])[st.outCmd.length + 1]? = some n
        rw [List.getElem?_append_right (by omega)]
        simp
    · exact h
    · exact h
    · exact slotOk_append st _ h
    · exact h
    · exact slotOk_append st _ h
  · intro o ho
    exact slotOk_append st [a] h o ho

theorem ltcompileParse_slotOk (cmd : List String) : SlotOk (ltcompileParse cmd) := by
  unfold ltcompileParse
  rw [ltcompileLoop_eq_foldl]
  apply foldl_inv (fun (s : CompileState) (p : String × Option String) =>
    (ltcompileArg s p.1 p.2).1) SlotOk (fun s p hs => ltcompileArg_slotOk s p.1 p.2 hs)
  intro o ho
  simp at ho

theorem nonPicFileOf_eq (P : String) :
    nonPicFileOf P = dirname P ++ "/.libs/" ++ cutAtLastDot (basename P) ++ ".st.o" := by
  unfold nonPicFileOf
  have h : ("/.libs/" : String) = "/.libs" ++ "/" := by decide
  rw [h]
  simp only [String.append_assoc]

theorem picFileOf_eq (P : String) :
    picFileOf P = dirname P ++ "/.libs/" ++ cutAtLastDot (basename P) ++ ".sh.o" := by
  unfold picFileOf
  have h : ("/.libs/" : String) = "/.libs" ++ "/" := by decide
  rw [h]
  simp only [String.append_assoc]

theorem loFull_eq (bb : Bool) (P : String) :
    loFull bb P = dirname P ++ "/.libs/" ++ cutAtLastDot (basename P) ++
      (if bb then ".st.o" else ".sh.o") := by
  unfold loFull
  have h1 : (".st.o" : String) = ".s" ++ ("t" ++ ".o") := by decide
  have h2 : (".sh.o" : String) = ".s" ++ ("h" ++ ".o") := by decide
  cases bb <;> simp only [String.append_assoc, h1, h2, if_true, if_false, Bool.false_eq_true]

theorem ltlinkArg_lo (fs : FS) (bb : Bool) (st : LinkState) (P : String) (narg : Option String)
    (hP : isFlag P = false) (hext : hasExt P ".lo" = true) :
    ltlinkArg fs bb st P narg =
      ({ st with outAr := st.outAr ++ [loFull bb P], outCmd := st.outCmd ++ [loFull bb P] },
        false) := by
  unfold ltlinkArg ltlinkFile
  simp only [hP, hext, Bool.false_eq_true, if_false, if_true]

theorem writesOf_compileBuildTrace (opt : Options) (oc : List String) (pos : Nat)
    (out : String) (bp bnp : Bool) :
    writesOf (compileBuildTrace opt oc pos out bp bnp) = [] := by
  unfold compileBuildTrace
  have e1 : ∀ (p : String) (t : List Effect), writesOf (Effect.mkdir p :: t) = writesOf t :=
    fun _ _ => rfl
  have e2 : ∀ p q : String, writesOf [Effect.link p q] = [] := fun _ _ => rfl
  have e3 : writesOf [] = [] := rfl
  cases bp <;> cases bnp <;> cases opt.dryRun <;>
    simp [writesOf_append, writesOf_spawnTrace, e1, e2, e3]

/-- C8 (amended): compile and link mode agree on the artifact layout for every descriptor
path that does not start with `-`.  For such a path `P` with extension `.lo`, `ltlink` puts
`DIR/.libs/BASE.st.o` (binary target) or `DIR/.libs/BASE.sh.o` (otherwise) in place of `P`,
in the link command and in the archive members; a compile command with `-o P` runs the
compiler with exactly these two paths in the output slot, after `-o`; and the descriptor
written at `P` records `.libs/BASE.sh.o` and `.libs/BASE.st.o`. -/
theorem C8_layout_agreement (env : Env) (opt : Options) (w : World) (P : String)
    (fs : FS) (bb : Bool) (st : LinkState) (narg : Option String)
    (hrun : ChildrenSucceed env) (hdry : opt.dryRun = false)
    (hP : isFlag P = false) (hext : hasExt P ".lo" = true)
    (hin : (ltcompileParse opt.cmd).inName.isSome = true)
    (hout : (ltcompileParse opt.cmd).outName = some P) :
    (ltlinkArg fs bb st P narg).1.outCmd =
      st.outCmd ++ [dirname P ++ "/.libs/" ++ cutAtLastDot (basename P) ++
        (if bb then ".st.o" else ".sh.o")] ∧
    (ltlinkArg fs bb st P narg).1.outAr =
      st.outAr ++ [dirname P ++ "/.libs/" ++ cutAtLastDot (basename P) ++
        (if bb then ".st.o" else ".sh.o")] ∧
    execsOf (ltcompile env opt w).world.trace =
      execsOf w.trace ++
        (if prefersPic opt.cmd && !prefersNonPic opt.cmd then [] else [nonPicCommand opt.cmd]) ++
        (if prefersNonPic opt.cmd && !prefersPic opt.cmd then [] else [picCommand opt.cmd]) ∧
    (nonPicCommand opt.cmd)[compileSlot opt.cmd]? =
      some (dirname P ++ "/.libs/" ++ cutAtLastDot (basename P) ++ ".st.o") ∧
    (nonPicCommand opt.cmd)[compileSlot opt.cmd - 1]? = some "-o" ∧
    (picCommand opt.cmd)[compileSlot opt.cmd]? =
      some (dirname P ++ "/.libs/" ++ cutAtLastDot (basename P) ++ ".sh.o") ∧
    (picCommand opt.cmd)[compileSlot opt.cmd - 1]? = some "-o" ∧
    ((ltcompile env opt w).outcome = .returned →
      writesOf (ltcompile env opt w).world.trace =
        writesOf w.trace ++
          [(P, SANE_HEADER ++ PACKAGE_HEADER ++
            "pic_object='.libs/" ++ cutAtLastDot (basename P) ++ ".sh.o'\n" ++
            "non_pic_object='.libs/" ++ cutAtLastDot (basename P) ++ ".st.o'\n")]) := by
  have hacc : compileAccepts opt.cmd = true := by
    unfold compileAccepts
    simp only [hin, hout, Bool.true_and]
    exact hext
  have hco : compileOutput opt.cmd = P := by simp [compileOutput, hout]
  have hbuf : compileBuffer opt.cmd = (ltcompileParse opt.cmd).outCmd := by
    simp [compileBuffer, hout]
  have hslot : compileSlot opt.cmd = (ltcompileParse opt.cmd).outNamePos := by
    simp [compileSlot, hout]
  obtain ⟨hs1, hs2, hs3⟩ := ltcompileParse_slotOk opt.cmd P hout
  have hlt : (ltcompileParse opt.cmd).outNamePos < (ltcompileParse opt.cmd).outCmd.length := by
    by_contra hge
    rw [List.getElem?_eq_none (by omega)] at hs3
    exact absurd hs3 (by simp)
  obtain ⟨fs1, last, hw, hlast⟩ := ltcompile_trace env opt w hacc (Or.inr hrun)
  have hde : execsOf (compileDiag opt.cmd) = [] := by
    unfold compileDiag; split <;> rfl
  have hdw : writesOf (compileDiag opt.cmd) = [] := by
    unfold compileDiag; split <;> rfl
  have hlo := ltlinkArg_lo fs bb st P narg hP hext
  refine ⟨?_, ?_, ?_, ?_, ?_, ?_, ?_, ?_⟩
  · rw [hlo, loFull_eq]
  · rw [hlo, loFull_eq]
  · have hle : execsOf [last] = [] := by
      rcases hlast with ⟨h, _⟩ | ⟨h, _⟩ <;> subst h <;> rfl
    rw [hw]
    simp only [execsOf_append, execsOf_compileBuildTrace _ _ _ _ _ _ hdry, hle, hde,
      List.append_nil, nonPicCommand, picCommand]
    cases prefersPic opt.cmd <;> cases prefersNonPic opt.cmd <;> simp
  · rw [nonPicCommand, hbuf, hslot, hco, List.getElem?_set_self hlt, nonPicFileOf_eq]
  · rw [nonPicCommand, hbuf, hslot, List.getElem?_set_ne (by omega)]
    exact hs2
  · rw [picCommand, hbuf, hslot, hco,
      List.getElem?_set_self (by rw [List.length_append]; omega), picFileOf_eq]
  · rw [picCommand, hbuf, hslot, List.getElem?_set_ne (by omega),
      List.getElem?_append_left (by omega)]
    exact hs2
  · intro hret
    rcases hlast with ⟨h, _⟩ | ⟨_, h⟩
    · subst h
      rw [hw]
      simp only [writesOf_append, writesOf_compileBuildTrace, hdw, List.append_nil, hco]
      simp [writesOf, loContent, String.append_assoc]
    · rw [h] at hret
      exact absurd hret (by decide)

/-- C8 (amended) at `src/foo.lo`: a binary link puts `src/.libs/foo.st.o` in its place, the
path `cc -c src/foo.c -o src/foo.lo` compiles the non-PIC object to. -/
theorem C8_layout_agreement_witness :
    (ChildrenSucceed idealTools ∧ isFlag "src/foo.lo" = false ∧
      hasExt "src/foo.lo" ".lo" = true ∧
      (ltcompileParse ["cc", "-c", "src/foo.c", "-o", "src/foo.lo"]).inName.isSome = true ∧
      (ltcompileParse ["cc", "-c", "src/foo.c", "-o", "src/foo.lo"]).outName =
        some "src/foo.lo") ∧
    (ltlinkArg emptyWorld.fs true (ltlinkParse emptyWorld.fs ["cc"]) "src/foo.lo" none).1.outCmd =
      ["cc", "-L.libs", "src/.libs/foo.st.o"] ∧
    (nonPicCommand ["cc", "-c", "src/foo.c", "-o", "src/foo.lo"])[
        compileSlot ["cc", "-c", "src/foo.c", "-o", "src/foo.lo"]]? =
      some "src/.libs/foo.st.o" :=
  ⟨⟨childrenSucceed_idealTools, by decide, by decide, by decide, by decide⟩,
   (C8_layout_agreement idealTools
      (mkOptions false "compile" ["cc", "-c", "src/foo.c", "-o", "src/foo.lo"]) emptyWorld
      "src/foo.lo" emptyWorld.fs true (ltlinkParse emptyWorld.fs ["cc"]) none
      childrenSucceed_idealTools rfl (by decide) (by decide) (by decide) (by decide)).1,
   (C8_layout_agreement idealTools
      (mkOptions false "compile" ["cc", "-c", "src/foo.c", "-o", "src/foo.lo"]) emptyWorld
      "src/foo.lo" emptyWorld.fs true (ltlinkParse emptyWorld.fs ["cc"]) none
      childrenSucceed_idealTools rfl (by decide) (by decide) (by decide) (by decide)).2.2.2.1⟩

/-- C8, as stated, fails at the descriptor path `-x.lo`: `cc -c x.c -o -x.lo` compiles to
the two objects of base name `-x` under `./.libs` and writes the descriptor `-x.lo`, but
`ltlink` reads the argument `-x.lo` as a flag and passes it through unchanged. -/
theorem C8_dash_path_counterexample :
    execsOf (ltcompile idealTools
        (mkOptions false "compile" ["cc", "-c", "x.c", "-o", "-x.lo"]) emptyWorld).world.trace =
      [["cc", "-c", "x.c", "-o", "./.libs/-x.st.o"],
       ["cc", "-c", "x.c", "-o", "./.libs/-x.sh.o", "-fPIC", "-DPIC"]] ∧
    writesOf (ltcompile idealTools
        (mkOptions false "compile" ["cc", "-c", "x.c", "-o", "-x.lo"]) emptyWorld).world.trace =
      [("-x.lo", loContent "-x")] ∧
    (ltlinkParse emptyWorld.fs ["cc", "-o", "prog", "-x.lo"]).outCmd =
      ["cc", "-L.libs", "-o", "prog", "-x.lo"] ∧
    (ltlinkParse emptyWorld.fs ["cc", "-o", "prog", "-x.lo"]).outAr = ["ar", "rc", "a.a"] := by
  decide

theorem noWrite_bind (base : List (String × String)) (a : Except Result World)
    (f : World → Except Result World) (ha : NoWrite base a)
    (hf : ∀ w1, writesOf w1.trace = base → NoWrite base (f w1)) :
    NoWrite base (a >>= f) := by
  cases a with
  | error e => exact ha
  | ok w1 => exact hf w1 ha

theorem noWrite_pure (w : World) : NoWrite (writesOf w.trace) (pure w) := rfl

theorem noWrite_spawn (env : Env) (opt : Options) (v : List (Option String)) (r : Bool)
    (w : World) : NoWrite (writesOf w.trace) (spawn env opt v r w) := by
  unfold spawn
  by_cases hq : opt.quiet = true <;> by_cases hd : opt.dryRun = true <;>
    simp only [hq, hd, if_true, if_false, World.log, Bool.false_eq_true]
  · simp [NoWrite, writesOf, List.filterMap_append]
  · cases env.run (cstrv v) w.fs with
    | forkFailed => simp [NoWrite, writesOf, List.filterMap_append]
    | waitFailed fs =>
      cases r <;> simp [NoWrite, writesOf, List.filterMap_append, execLibtool]
    | exited status fs =>
      by_cases hs : status = 0 <;> cases r <;>
        simp [NoWrite, writesOf, List.filterMap_append, hs, execLibtool]
  · simp [NoWrite, writesOf, List.filterMap_append]
  · cases env.run (cstrv v) w.fs with
    | forkFailed => simp [NoWrite, writesOf, List.filterMap_append]
    | waitFailed fs =>
      cases r <;> simp [NoWrite, writesOf, List.filterMap_append, execLibtool]
    | exited status fs =>
      by_cases hs : status = 0 <;> cases r <;>
        simp [NoWrite, writesOf, List.filterMap_append, hs, execLibtool]

theorem noWrite_of_eq (base base2 : List (String × String)) (r : Except Result World)
    (h : base = base2) (hr : NoWrite base r) : NoWrite base2 r := h ▸ hr

theorem noWrite_linkBinary (env : Env) (opt : Options) (st : LinkState) (bb : Bool)
    (w : World) : NoWrite (writesOf w.trace) (linkBinary env opt st bb w) := by
  unfold linkBinary
  cases bb
  · exact noWrite_pure w
  · exact noWrite_spawn env opt _ _ w

theorem noWrite_linkArchive (env : Env) (opt : Options) (st : LinkState)
    (outDir outBase : String) (ba : Bool) (w : World) :
    NoWrite (writesOf w.trace) (linkArchive env opt st outDir outBase ba w) := by
  unfold linkArchive
  cases ba
  · exact noWrite_pure w
  · simp only [if_true]
    apply noWrite_bind _ _ _ (noWrite_spawn env opt _ _ w)
    intro w1 h1
    exact noWrite_of_eq _ _ _ h1 (noWrite_spawn env opt _ _ w1)

theorem writesOf_log_perror (w : World) (s : String) :
    writesOf (w.log (.perror s)).trace = writesOf w.trace := by
  simp [World.log, writesOf, List.filterMap_append]

theorem sysRename_trace (a b : String) (w : World) :
    (sysRename a b w).1.trace = w.trace ++ [.rename a b] := by
  simp only [sysRename, World.log]
  split
  · rfl
  · split <;> rfl

theorem sysSymlink_trace (a b : String) (w : World) :
    (sysSymlink a b w).1.trace = w.trace ++ [.symlink a b] := by
  simp only [sysSymlink, World.log]
  split <;> rfl

theorem noWrite_ltlinkSo (env : Env) (opt : Options) (st : LinkState)
    (outDir outBase : String) (w : World) :
    NoWrite (writesOf w.trace) (ltlinkSo env opt st outDir outBase w) := by
  unfold ltlinkSo
  have hu : writesOf (sysUnlink (fullPath outDir (linknameOf outBase))
      (sysUnlink (fullPath outDir (longnameOf outBase st))
        (sysUnlink (fullPath outDir (sonameOf outBase st)) w))).trace = writesOf w.trace := by
    simp [writesOf, List.filterMap_append]
  apply noWrite_bind _ _ _ (noWrite_of_eq _ _ _ hu (noWrite_spawn env opt _ _ _))
  intro w1 h1
  have hr : writesOf (sysRename (fullPath outDir (sonameOf outBase st))
      (fullPath outDir (longnameOf outBase st)) w1).1.trace = writesOf w.trace := by
    rw [sysRename_trace, writesOf_append, h1]; simp [writesOf]
  have hs1 : writesOf (sysSymlink (longnameOf outBase st) (fullPath outDir (sonameOf outBase st))
      (sysRename (fullPath outDir (sonameOf outBase st))
        (fullPath outDir (longnameOf outBase st)) w1).1).1.trace = writesOf w.trace := by
    rw [sysSymlink_trace, writesOf_append, hr]; simp [writesOf]
  have hs2 : writesOf (sysSymlink (longnameOf outBase st) (fullPath outDir (linknameOf outBase))
      (sysSymlink (longnameOf outBase st) (fullPath outDir (sonameOf outBase st))
        (sysRename (fullPath outDir (sonameOf outBase st))
          (fullPath outDir (longnameOf outBase st)) w1).1).1).1.trace = writesOf w.trace := by
    rw [sysSymlink_trace, writesOf_append, hs1]; simp [writesOf]
  simp only [bind, Except.bind, pure, Except.pure, throw, throwThe, MonadExceptOf.throw]
  split_ifs
  · exact ⟨by rw [writesOf_log_perror, hr], by simp⟩
  · exact ⟨by rw [writesOf_log_perror, hs1], by simp⟩
  · exact ⟨by rw [writesOf_log_perror, hs2], by simp⟩
  · exact hs2

theorem writesSpec_bind (base extra : List (String × String)) (a : Except Result World)
    (f : World → Except Result World) (ha : NoWrite base a)
    (hf : ∀ w1, writesOf w1.trace = base → WritesSpec base extra (f w1)) :
    WritesSpec base extra (a >>= f) := by
  cases a with
  | error e => exact ha
  | ok w1 => exact hf w1 ha

theorem writesSpec_finish (base extra : List (String × String)) (r : Except Result World)
    (h : WritesSpec base extra r) :
    ((finish r).outcome = .returned → writesOf (finish r).world.trace = base ++ extra) ∧
    ((finish r).outcome ≠ .returned → writesOf (finish r).world.trace = base) := by
  cases r with
  | error e =>
    obtain ⟨h1, h2⟩ := h
    exact ⟨fun hr => absurd hr h2, fun _ => h1⟩
  | ok w1 =>
    exact ⟨fun _ => h, fun hr => absurd rfl hr⟩

theorem writesSpec_writeLa (outName outBase : String) (st : LinkState) (ba bso : Bool)
    (w : World) :
    WritesSpec (writesOf w.trace)
      (if ba then [(outName, laContent (if bso then
        some (sonameOf outBase st, longnameOf outBase st, linknameOf outBase) else none))]
       else [])
      (writeLa outName outBase st ba bso w) := by
  unfold writeLa
  cases ba
  · simp [WritesSpec, pure, Except.pure]
  · simp only [if_true]
    rcases writeFile_cases outName (laContent (if bso = true then
        some (sonameOf outBase st, longnameOf outBase st, linknameOf outBase) else none)) w
      with hw | ⟨fs1, hw⟩
    · rw [hw]
      exact ⟨writesOf_log_perror w outName, by simp⟩
    · rw [hw]
      simp [WritesSpec, pure, Except.pure, writesOf, List.filterMap_append]

theorem ltlinkArg_rpath (fs : FS) (bb : Bool) (st : LinkState) (a : String)
    (n : Option String) :
    (ltlinkArg fs bb st a n).1.rpath.isSome =
      (st.rpath.isSome || (decide (a = "-rpath") && n.isSome)) := by
  by_cases hr : a = "-rpath"
  · subst hr
    cases n <;> simp [ltlinkArg, isFlag, ltlinkFlag, startsWith, ltlinkFlagRest, unsupportedFlags]
  · simp only [hr, decide_False, Bool.false_and, Bool.or_false]
    unfold ltlinkArg
    split_ifs
    · unfold ltlinkFlag
      simp only [hr, false_and, if_false]
      split_ifs
      any_goals rfl
      unfold ltlinkFlagRest
      split_ifs <;> rfl
    · unfold ltlinkFile
      split_ifs <;> rfl

theorem ltlinkParse_rpath (fs : FS) (cmd : List String) :
    (ltlinkParse fs cmd).rpath.isSome = rpathGiven cmd := by
  unfold ltlinkParse rpathGiven
  rw [ltlinkLoop_eq_foldl,
    foldl_proj (fun (s : LinkState) => s.rpath.isSome)
      (fun (s : LinkState) (p : String × Option String) =>
        (ltlinkArg fs (buildBinaryOf cmd) s p.1 p.2).1)
      (fun (b : Bool) (p : String × Option String) =>
        b || (decide (p.1 = "-rpath") && p.2.isSome))
      (fun s p => ltlinkArg_rpath fs _ s p.1 p.2),
    foldl_or_eq_any]
  rfl

theorem withDefaultOutput_fields (st : LinkState) (found : Option String) :
    (withDefaultOutput st found).rpath = st.rpath ∧
    (withDefaultOutput st found).major = st.major ∧
    (withDefaultOutput st found).minor = st.minor ∧
    (withDefaultOutput st found).revision = st.revision ∧
    (withDefaultOutput st found).outAr = st.outAr ∧
    (withDefaultOutput st found).retryIfFail = st.retryIfFail := by
  cases found <;> exact ⟨rfl, rfl, rfl, rfl, rfl, rfl⟩

theorem noWrite_linkShared (env : Env) (opt : Options) (st : LinkState)
    (outDir outBase : String) (bso : Bool) (w : World) :
    NoWrite (writesOf w.trace) (linkShared env opt st outDir outBase bso w) := by
  unfold linkShared
  cases bso
  · exact noWrite_pure w
  · exact noWrite_ltlinkSo env opt _ _ _ w

/-- The files the build steps of `ltlink` write: the `.la` file of a library target, as the
last step of a run that returns. -/
theorem writesSpec_ltlinkBuild (env : Env) (opt : Options) (st : LinkState)
    (found : Option String) (ba bb : Bool) (w : World) :
    WritesSpec (writesOf w.trace)
      (if ba then
        [(found.getD "a.out",
          laContent (if ba && st.rpath.isSome then
            some (sonameOf (cutAtLastDot (basename (found.getD "a.out"))) st,
              longnameOf (cutAtLastDot (basename (found.getD "a.out"))) st,
              linknameOf (cutAtLastDot (basename (found.getD "a.out")))) else none))]
       else [])
      (ltlinkBuild env opt st found ba bb w) := by
  obtain ⟨h1, h2, h3, h4, _, _⟩ := withDefaultOutput_fields st found
  have hso : sonameOf (cutAtLastDot (basename (found.getD "a.out")))
      (withDefaultOutput st found) =
      sonameOf (cutAtLastDot (basename (found.getD "a.out"))) st := by
    simp only [sonameOf, h2]
  have hlong : longnameOf (cutAtLastDot (basename (found.getD "a.out")))
      (withDefaultOutput st found) =
      longnameOf (cutAtLastDot (basename (found.getD "a.out"))) st := by
    simp only [longnameOf, h2, h3, h4]
  obtain ⟨w0, hw0, hw0t⟩ : ∃ w0 : World,
      w0 = (if opt.dryRun = true then w
        else sysMkdir (dirname (found.getD "a.out") ++ "/.libs") w) ∧
      writesOf w0.trace = writesOf w.trace := by
    refine ⟨_, rfl, ?_⟩
    by_cases hd : opt.dryRun = true <;> simp [hd, writesOf, List.filterMap_append]
  unfold ltlinkBuild
  simp only [← hw0]
  rw [← hw0t]
  apply writesSpec_bind _ _ _ _ (noWrite_linkBinary env opt _ bb w0)
  intro w1 hw1
  apply writesSpec_bind _ _ _ _ (noWrite_of_eq _ _ _ hw1 (noWrite_linkArchive env opt _ _ _ ba w1))
  intro w2 hw2
  apply writesSpec_bind _ _ _ _
    (noWrite_of_eq _ _ _ hw2 (noWrite_linkShared env opt _ _ _ _ w2))
  intro w3 hw3
  have hfin := writesSpec_writeLa (found.getD "a.out")
    (cutAtLastDot (basename (found.getD "a.out"))) (withDefaultOutput st found) ba
    (ba && (withDefaultOutput st found).rpath.isSome) w3
  rw [hw3, hso, hlong] at hfin
  rw [h1] at hfin ⊢
  exact hfin

theorem foldl_rel {σ τ α : Type} (R : σ → τ → Prop) (f : σ → α → σ) (g : τ → α → τ)
    (hstep : ∀ s t a, R s t → R (f s a) (g t a)) (l : List α) (s : σ) (t : τ) (h : R s t) :
    R (l.foldl f s) (l.foldl g t) := by
  induction l generalizing s t with
  | nil => exact h
  | cons a l ih => exact ih _ _ (hstep s t a h)

theorem linkSlotOk_of_append (st st2 : LinkState) (o : Option String) (extra : List String)
    (hcmd : st2.outCmd = st.outCmd ++ extra) (hpos : st2.outNamePos = st.outNamePos)
    (h : LinkSlotOk st o) : LinkSlotOk st2 o := by
  intro n hn
  obtain ⟨h1, h2, h3⟩ := h n hn
  have hlt : st.outNamePos < st.outCmd.length := by
    by_contra hge
    rw [List.getElem?_eq_none (by omega)] at h3
    exact absurd h3 (by simp)
  rw [hcmd, hpos]
  refine ⟨h1, ?_, ?_⟩
  · rw [List.getElem?_append_left (by omega)]; exact h2
  · rw [List.getElem?_append_left hlt]; exact h3

theorem ltlinkFlagRest_appends (st : LinkState) (a : String) (n : Option String) :
    ∃ extra, (ltlinkFlagRest st a n).1.outCmd = st.outCmd ++ extra ∧
      (ltlinkFlagRest st a n).1.outNamePos = st.outNamePos := by
  unfold ltlinkFlagRest
  split_ifs <;>
    first
    | exact ⟨_, rfl, rfl⟩
    | exact ⟨[], (List.append_nil _).symm, rfl⟩

/-- Every turn of the loop of `ltlink` but `-o` with an argument leaves the output slot where
it is and only appends to the link command. -/
theorem ltlinkArg_appends (fs : FS) (bb : Bool) (st : LinkState) (a : String)
    (n : Option String) (hno : ¬ (a = "-o" ∧ n.isSome = true)) :
    ∃ extra, (ltlinkArg fs bb st a n).1.outCmd = st.outCmd ++ extra ∧
      (ltlinkArg fs bb st a n).1.outNamePos = st.outNamePos := by
  unfold ltlinkArg
  split_ifs
  · unfold ltlinkFlag
    simp only [hno, if_false]
    split_ifs <;>
      first
      | exact ltlinkFlagRest_appends st a n
      | exact ⟨_, rfl, rfl⟩
      | exact ⟨[], (List.append_nil _).symm, rfl⟩
  · unfold ltlinkFile
    split_ifs
    · exact ⟨_, rfl, rfl⟩
    · exact ⟨["-L" ++ dirname a ++ "/.libs"] ++
        (if (!accessOk fs (dirname a ++ "/.libs/" ++ cutAtLastDot (basename a) ++ ".so")) = true
          then ["-Wl,--whole-archive"] else []) ++
        ["-l" ++ laName (cutAtLastDot (basename a))] ++
        (if (!accessOk fs (dirname a ++ "/.libs/" ++ cutAtLastDot (basename a) ++ ".so")) = true
          then ["-Wl,--no-whole-archive"] else []),
        by simp only [List.append_assoc], rfl⟩
    · exact ⟨_, rfl, rfl⟩

theorem ltlinkArg_linkSlotOk (fs : FS) (bb : Bool) (st : LinkState) (o : Option String)
    (p : String × Option String) (h : LinkSlotOk st o) :
    LinkSlotOk (ltlinkArg fs bb st p.1 p.2).1 (lastOutStep o p) := by
  obtain ⟨a, n⟩ := p
  by_cases ho : a = "-o" ∧ n.isSome = true
  · obtain ⟨rfl, hn⟩ := ho
    obtain ⟨x, rfl⟩ := Option.isSome_iff_exists.mp hn
    have hst : (ltlinkArg fs bb st "-o" (some x)).1 =
        { st with outCmd := st.outCmd ++ ["-o", x], outNamePos := st.outCmd.length + 1 } := rfl
    rw [hst]
    intro m hm
    simp only [lastOutStep, if_true, Option.some.injEq] at hm
    subst hm
    refine ⟨by simp, ?_, ?_⟩
    · show (st.outCmd ++ ["-o", x])[st.outCmd.length + 1 - 1]? = some "-o"
      rw [Nat.add_sub_cancel, List.getElem?_append_right (le_refl _)]
      simp
    · show (st.outCmd ++ ["-o", x])[st.outCmd.length + 1]? = some x
      rw [List.getElem?_append_right (by omega)]
      simp
  · obtain ⟨extra, h1, h2⟩ := ltlinkArg_appends fs bb st a n ho
    have hsame : lastOutStep o (a, n) = o := by
      unfold lastOutStep
      by_cases ha : a = "-o"
      · subst ha
        cases n with
        | none => rfl
        | some x => exact absurd ⟨rfl, rfl⟩ ho
      · simp only [ha, if_false]
    rw [hsame]
    exact linkSlotOk_of_append st _ o extra h1 h2 h

/-- After the argument loop of `ltlink`, the output slot holds the argument of the last `-o`
the loop read. -/
theorem ltlinkParse_slot (fs : FS) (cmd : List String) :
    LinkSlotOk (ltlinkParse fs cmd)
      ((visited linkOptionsWithArg cmd.tail).foldl lastOutStep none) := by
  unfold ltlinkParse
  rw [ltlinkLoop_eq_foldl]
  apply foldl_rel LinkSlotOk
    (fun (s : LinkState) (p : String × Option String) =>
      (ltlinkArg fs (buildBinaryOf cmd) s p.1 p.2).1) lastOutStep
    (fun s t p h => ltlinkArg_linkSlotOk fs _ s t p h)
  intro n hn
  simp at hn

theorem bind_ok_inv (a : Except Result World) (f : World → Except Result World) (wf : World)
    (h : (a >>= f) = .ok wf) : ∃ w1, a = .ok w1 ∧ f w1 = .ok wf := by
  cases a with
  | error e => simp [bind, Except.bind] at h
  | ok w1 => exact ⟨w1, rfl, h⟩

theorem spawn_ok_inv (env : Env) (opt : Options) (v : List (Option String)) (r : Bool)
    (w w2 : World) (hdry : opt.dryRun = false) (h : spawn env opt v r w = .ok w2) :
    ∃ fs1, env.run (cstrv v) w.fs = .exited 0 fs1 ∧
      w2 = { fs := fs1, trace := w.trace ++ spawnTrace opt v r } := by
  unfold spawn at h
  simp only [hdry, Bool.false_eq_true, if_false] at h
  have hfs : (if opt.quiet = true then w.log (.spawnCall v r)
      else (w.log (.spawnCall v r)).log (.echo (cstrv v))).fs = w.fs := by
    by_cases hq : opt.quiet = true <;> simp [hq, World.log]
  have htr : (if opt.quiet = true then w.log (.spawnCall v r)
      else (w.log (.spawnCall v r)).log (.echo (cstrv v))).trace ++ [Effect.exec (cstrv v)] =
      w.trace ++ spawnTrace opt v r := by
    by_cases hq : opt.quiet = true <;> simp [hq, World.log, spawnTrace, hdry]
  rw [hfs] at h
  cases hrun : env.run (cstrv v) w.fs with
  | forkFailed => rw [hrun] at h; simp at h
  | waitFailed fs => rw [hrun] at h; cases r <;> simp at h
  | exited status fs =>
    rw [hrun] at h
    by_cases hs : status = 0
    · subst hs
      simp only [ne_eq, not_true_eq_false, if_false, Except.ok.injEq] at h
      refine ⟨fs, rfl, ?_⟩
      rw [← h, htr]
    · simp only [ne_eq, hs, not_false_eq_true, if_true] at h
      cases r <;> simp at h

theorem sysRename_ok_inv (a b : String) (w : World) (h : (sysRename a b w).2 = true) :
    ∃ n, w.fs a = some n ∧
      (sysRename a b w).1 =
        { fs := (w.fs.set a none).set b (some n), trace := w.trace ++ [.rename a b] } := by
  simp only [sysRename, World.log] at h ⊢
  cases hn : w.fs a with
  | none => simp [hn] at h
  | some n =>
    simp only [hn] at h ⊢
    refine ⟨n, rfl, ?_⟩
    split_ifs with hok
    · rfl
    · simp [hok] at h

theorem sysSymlink_ok_inv (t p : String) (w : World) (h : (sysSymlink t p w).2 = true) :
    w.fs p = none ∧
      (sysSymlink t p w).1 =
        { fs := w.fs.set p (some (.symlink t)), trace := w.trace ++ [.symlink t p] } := by
  simp only [sysSymlink, World.log] at h ⊢
  cases hn : w.fs p with
  | none => simp
  | some n => simp [hn] at h

/-- A `buildSo` block that goes on: the linker exited with status 0 leaving something at the
soname path, which was renamed to the long name, and both links were made. -/
theorem ltlinkSo_ok_inv (env : Env) (opt : Options) (st : LinkState) (outDir outBase : String)
    (w w2 : World) (hdry : opt.dryRun = false)
    (h : ltlinkSo env opt st outDir outBase w = .ok w2) :
    ∃ fs0 fs1 n,
      env.run (cstrv (soArgv st (fullPath outDir (sonameOf outBase st)))) fs0 = .exited 0 fs1 ∧
      fs1 (fullPath outDir (sonameOf outBase st)) = some n ∧
      w2.fs = (((fs1.set (fullPath outDir (sonameOf outBase st)) none).set
          (fullPath outDir (longnameOf outBase st)) (some n)).set
          (fullPath outDir (sonameOf outBase st)) (some (.symlink (longnameOf outBase st)))).set
          (fullPath outDir (linknameOf outBase)) (some (.symlink (longnameOf outBase st))) ∧
      w2.trace = w.trace ++
        [.unlink (fullPath outDir (sonameOf outBase st)),
         .unlink (fullPath outDir (longnameOf outBase st)),
         .unlink (fullPath outDir (linknameOf outBase))] ++
        spawnTrace opt (soArgv st (fullPath outDir (sonameOf outBase st))) st.retryIfFail ++
        [.rename (fullPath outDir (sonameOf outBase st)) (fullPath outDir (longnameOf outBase st)),
         .symlink (longnameOf outBase st) (fullPath outDir (sonameOf outBase st)),
         .symlink (longnameOf outBase st) (fullPath outDir (linknameOf outBase))] := by
  unfold ltlinkSo at h
  obtain ⟨w1, hsp, h⟩ := bind_ok_inv _ _ _ h
  obtain ⟨fs1, hrun, hw1⟩ := spawn_ok_inv env opt _ _ _ _ hdry hsp
  simp only [bind, Except.bind, pure, Except.pure, throw, throwThe, MonadExceptOf.throw] at h
  split_ifs at h with hr hs1 hs2
  have hr2 : (sysRename (fullPath outDir (sonameOf outBase st))
      (fullPath outDir (longnameOf outBase st)) w1).2 = true := by simpa using hr
  obtain ⟨n, hn, hren⟩ := sysRename_ok_inv _ _ _ hr2
  rw [hren] at hs1 hs2 h
  have hs12 : (sysSymlink (longnameOf outBase st) (fullPath outDir (sonameOf outBase st))
      { fs := (w1.fs.set (fullPath outDir (sonameOf outBase st)) none).set
          (fullPath outDir (longnameOf outBase st)) (some n),
        trace := w1.trace ++ [.rename (fullPath outDir (sonameOf outBase st))
          (fullPath outDir (longnameOf outBase st))] }).2 = true := by simpa using hs1
  obtain ⟨_, hsym1⟩ := sysSymlink_ok_inv _ _ _ hs12
  rw [hsym1] at hs2 h
  have hs22 : (sysSymlink (longnameOf outBase st) (fullPath outDir (linknameOf outBase))
      { fs := ((w1.fs.set (fullPath outDir (sonameOf outBase st)) none).set
          (fullPath outDir (longnameOf outBase st)) (some n)).set
          (fullPath outDir (sonameOf outBase st)) (some (.symlink (longnameOf outBase st))),
        trace := w1.trace ++ [.rename (fullPath outDir (sonameOf outBase st))
          (fullPath outDir (longnameOf outBase st))] ++
          [.symlink (longnameOf outBase st) (fullPath outDir (sonameOf outBase st))] }).2 =
      true := by simpa using hs2
  obtain ⟨_, hsym2⟩ := sysSymlink_ok_inv _ _ _ hs22
  rw [hsym2] at h
  simp only [Except.ok.injEq] at h
  subst h
  subst hw1
  exact ⟨_, fs1, n, hrun, hn, rfl, by simp [List.append_assoc]⟩

theorem strrchrSplit_eq (c : Char) (s p q : List Char) (h : strrchrSplit c s = some (p, q)) :
    s = p ++ q := by
  induction s generalizing p q with
  | nil => simp [strrchrSplit] at h
  | cons x xs ih =>
    unfold strrchrSplit at h
    cases hx : strrchrSplit c xs with
    | none =>
      rw [hx] at h
      simp only at h
      split_ifs at h
      simp only [Option.some.injEq, Prod.mk.injEq] at h
      obtain ⟨rfl, rfl⟩ := h
      rfl
    | some pq =>
      obtain ⟨p1, q1⟩ := pq
      rw [hx] at h
      simp only [Option.some.injEq, Prod.mk.injEq] at h
      obtain ⟨rfl, rfl⟩ := h
      rw [List.cons_append, ← ih p1 q1 hx]

theorem hasExt_data (P e : String) (h : hasExt P e = true) : ∃ p, P.data = p ++ e.data := by
  unfold hasExt strrchrDot at h
  cases hs : strrchrSplit '.' P.data with
  | none => rw [hs] at h; simp at h
  | some pq =>
    obtain ⟨p, q⟩ := pq
    rw [hs] at h
    simp only [Option.map_some', beq_iff_eq, Option.some.injEq] at h
    refine ⟨p, ?_⟩
    rw [← h]
    exact strrchrSplit_eq _ _ _ _ hs

theorem toDigitsCore_append (fuel n : Nat) (ds : List Char) :
    ∃ pre, Nat.toDigitsCore 10 fuel n ds = pre ++ ds := by
  induction fuel generalizing n ds with
  | zero => exact ⟨[], rfl⟩
  | succ fuel ih =>
    unfold Nat.toDigitsCore
    simp only
    split_ifs
    · exact ⟨[Nat.digitChar (n % 10)], rfl⟩
    · obtain ⟨pre, hpre⟩ := ih (n / 10) (Nat.digitChar (n % 10) :: ds)
      exact ⟨pre ++ [Nat.digitChar (n % 10)], by rw [hpre]; simp⟩

theorem digitChar_ne_a (k : Nat) (hk : k < 10) : Nat.digitChar k ≠ 'a' := by
  interval_cases k <;> decide

theorem toDigits_last (n : Nat) :
    ∃ pre d, Nat.toDigits 10 n = pre ++ [d] ∧ d ≠ 'a' := by
  unfold Nat.toDigits Nat.toDigitsCore
  simp only
  split_ifs
  · exact ⟨[], _, rfl, digitChar_ne_a _ (Nat.mod_lt _ (by decide))⟩
  · obtain ⟨pre, hpre⟩ := toDigitsCore_append n (n / 10) [Nat.digitChar (n % 10)]
    exact ⟨pre, _, hpre, digitChar_ne_a _ (Nat.mod_lt _ (by decide))⟩

theorem fmtInt_last (i : Int) : ∃ pre d, (fmtInt i).data = pre ++ [d] ∧ d ≠ 'a' := by
  cases i with
  | ofNat n =>
    obtain ⟨pre, d, h, hd⟩ := toDigits_last n
    exact ⟨pre, d, h, hd⟩
  | negSucc n =>
    obtain ⟨pre, d, h, hd⟩ := toDigits_last (n + 1)
    refine ⟨'-' :: pre, d, ?_, hd⟩
    show '-' :: Nat.toDigits 10 (n + 1) = '-' :: pre ++ [d]
    rw [h]; rfl

/-- A path with extension `.la` is not a path that ends with a number printed by `%d`. -/
theorem la_ne_number (P X : String) (i : Int) (h : hasExt P ".la" = true) :
    P ≠ X ++ fmtInt i := by
  intro heq
  obtain ⟨p, hp⟩ := hasExt_data P ".la" h
  obtain ⟨pre, d, hd, hda⟩ := fmtInt_last i
  have h1 : P.data.getLast? = some 'a' := by
    rw [hp]
    have : (".la" : String).data = ['.', 'l'] ++ ['a'] := rfl
    rw [this, ← List.append_assoc, List.getLast?_append]
    rfl
  rw [heq, String.data_append, hd, ← List.append_assoc, List.getLast?_append] at h1
  simp only [List.getLast?_singleton, Option.or, Option.some.injEq] at h1
  exact hda h1

/-- A path with extension `.la` is not a path that ends with `.so`. -/
theorem la_ne_so (P X : String) (h : hasExt P ".la" = true) : P ≠ X ++ ".so" := by
  intro heq
  obtain ⟨p, hp⟩ := hasExt_data P ".la" h
  have h1 : P.data.getLast? = some 'a' := by
    rw [hp]
    have : (".la" : String).data = ['.', 'l'] ++ ['a'] := rfl
    rw [this, ← List.append_assoc, List.getLast?_append]
    rfl
  have h2 : (".so" : String).data = ['.', 's'] ++ ['o'] := rfl
  rw [heq, String.data_append, h2, ← List.append_assoc, List.getLast?_append] at h1
  simp at h1

theorem set_slot_decompose (l e : List String) (i : Nat) (x y z : String)
    (hx : l[i]? = some x) (hy : l[i + 1]? = some y) :
    (l ++ e).set (i + 1) z = l.take i ++ [x, z] ++ l.drop (i + 2) ++ e := by
  induction l generalizing i with
  | nil => simp at hx
  | cons a l ih =>
    cases i with
    | zero =>
      cases l with
      | nil => simp at hy
      | cons b l =>
        simp only [List.getElem?_cons_zero, Option.some.injEq] at hx
        subst hx
        simp
    | succ i =>
      simp only [List.getElem?_cons_succ] at hx hy
      have := ih i hx hy
      simp only [List.cons_append, List.set_cons_succ, List.take_succ_cons, List.drop_succ_cons]
      rw [this]

theorem ltlinkArg_outAr (fs : FS) (bb : Bool) (st : LinkState) (a : String)
    (n : Option String) :
    ∃ extra, (ltlinkArg fs bb st a n).1.outAr = st.outAr ++ extra := by
  unfold ltlinkArg
  split_ifs
  · unfold ltlinkFlag
    split_ifs <;>
      first
      | exact ⟨[], (List.append_nil _).symm⟩
      | (unfold ltlinkFlagRest
         split_ifs <;> exact ⟨[], (List.append_nil _).symm⟩)
  · unfold ltlinkFile
    split_ifs
    · exact ⟨_, rfl⟩
    · exact ⟨[], (List.append_nil _).symm⟩
    · exact ⟨_, rfl⟩

/-- The archiver vector always starts with `ar rc` and the slot of the archive path. -/
theorem ltlinkParse_outAr (fs : FS) (cmd : List String) :
    ∃ members, (ltlinkParse fs cmd).outAr = ["ar", "rc", "a.a"] ++ members := by
  unfold ltlinkParse
  rw [ltlinkLoop_eq_foldl]
  apply foldl_inv (fun (s : LinkState) (p : String × Option String) =>
      (ltlinkArg fs (buildBinaryOf cmd) s p.1 p.2).1)
    (fun s => ∃ members, s.outAr = ["ar", "rc", "a.a"] ++ members)
  · intro s p ⟨ms, hms⟩
    obtain ⟨extra, he⟩ := ltlinkArg_outAr fs (buildBinaryOf cmd) s p.1 p.2
    exact ⟨ms ++ extra, by rw [he, hms, List.append_assoc]⟩
  · exact ⟨[], rfl⟩

theorem cstrv_ranlibArgv (members : List String) (afile : String) :
    cstrv (ranlibArgv ((["ar", "rc", "a.a"] ++ members).set 2 afile)) = ["ranlib", afile] := by
  cases members <;> simp [ranlibArgv, nullTerminated, cstrv]

theorem changesOf_append (s t : List Effect) :
    changesOf (s ++ t) = changesOf s ++ changesOf t := by
  simp [changesOf]

theorem changesOf_spawnTrace (opt : Options) (v : List (Option String)) (r : Bool)
    (hdry : opt.dryRun = false) : changesOf (spawnTrace opt v r) = [.exec (cstrv v)] := by
  unfold spawnTrace
  by_cases hq : opt.quiet = true <;> simp [hq, hdry, changesOf]

theorem writeFile_ok_inv (path content : String) (w w2 : World)
    (h : writeFile path content w = some w2) :
    w2 = { fs := w.fs.set path (some (.file content)),
           trace := w.trace ++ [.write path content] } := by
  unfold writeFile at h
  split at h
  · simp at h
  · simp only [Option.some.injEq] at h
    exact h.symm

theorem lastOut_of_single (L : List (String × Option String)) (P : String)
    (h : L.filter (fun p => decide (p.1 = "-o")) = [("-o", some P)]) :
    L.foldl lastOutStep none = some P := by
  rw [foldl_filter_of_id lastOutStep (fun p => decide (p.1 = "-o")), h]
  · rfl
  · intro o p hp
    simp only [decide_eq_false_iff_not] at hp
    simp only [lastOutStep, hp, if_false]

theorem writeLa_ok_inv (outName outBase : String) (st : LinkState) (w w2 : World)
    (h : writeLa outName outBase st true true w = .ok w2) :
    w2 = { fs := w.fs.set outName (some (.file (laContent
             (some (sonameOf outBase st, longnameOf outBase st, linknameOf outBase))))),
           trace := w.trace ++ [.write outName (laContent
             (some (sonameOf outBase st, longnameOf outBase st, linknameOf outBase)))] } := by
  unfold writeLa at h
  simp only [if_true] at h
  cases hwf : writeFile outName (laContent
      (some (sonameOf outBase st, longnameOf outBase st, linknameOf outBase))) w with
  | none => rw [hwf] at h; simp [throw, throwThe, MonadExceptOf.throw] at h
  | some w4 =>
    rw [hwf] at h
    simp only [pure, Except.pure, Except.ok.injEq] at h
    subst h
    exact writeFile_ok_inv _ _ _ _ hwf

/-- C9: a successful link of a library target `P = DIR/BASE.la` given with `-o` (the only
`-o` the loop reads), with `-rpath`, not dry, over the flat file system in which the linker,
when it exits with status 0, leaves a regular file at its `-o` path.  The calls are, in
order: make `DIR/.libs`, run `ar` and `ranlib`, unlink the soname, long-name and link-name
paths, run the link command (which has `-o DIR/.libs/BASE.so.<major>` and ends in
`-shared`), rename the soname file to the long name, make the two symbolic links, write the
descriptor.  Afterwards the long-name path is the regular file the linker made and the
soname and link-name paths are symbolic links to the long name. -/
theorem C9_shared_object (env : Env) (opt : Options) (w : World)
    (P DIR BASE content : String) (M m r : Int) (linkCmd : List String)
    (hdry : opt.dryRun = false)
    (hfound : findOutName opt.cmd.tail = some P)
    (hone : (visited linkOptionsWithArg opt.cmd.tail).filter (fun p => decide (p.1 = "-o")) =
      [("-o", some P)])
    (hla : hasExt P ".la" = true)
    (hrpath : rpathGiven opt.cmd = true)
    (hDIR : DIR = dirname P) (hBASE : BASE = cutAtLastDot (basename P))
    (hM : M = (ltlinkParse w.fs opt.cmd).major)
    (hm : m = (ltlinkParse w.fs opt.cmd).minor)
    (hr : r = (ltlinkParse w.fs opt.cmd).revision)
    (hcmd : linkCmd = ((ltlinkParse w.fs opt.cmd).outCmd ++ ["-shared"]).set
      (ltlinkParse w.fs opt.cmd).outNamePos (DIR ++ "/.libs/" ++ (BASE ++ ".so." ++ fmtInt M)))
    (hlinker : ∀ fs0 fs1, env.run linkCmd fs0 = .exited 0 fs1 →
      fs1 (DIR ++ "/.libs/" ++ (BASE ++ ".so." ++ fmtInt M)) = some (.file content))
    (hret : (ltlink env opt w).outcome = .returned) :
    changesOf (ltlink env opt w).world.trace =
      changesOf w.trace ++
        [.mkdir (DIR ++ "/.libs"),
         .exec ((ltlinkParse w.fs opt.cmd).outAr.set 2 (DIR ++ "/.libs/" ++ BASE ++ ".a")),
         .exec ["ranlib", DIR ++ "/.libs/" ++ BASE ++ ".a"],
         .unlink (DIR ++ "/.libs/" ++ (BASE ++ ".so." ++ fmtInt M)),
         .unlink (DIR ++ "/.libs/" ++
           (BASE ++ ".so." ++ fmtInt M ++ "." ++ fmtInt m ++ "." ++ fmtInt r)),
         .unlink (DIR ++ "/.libs/" ++ (BASE ++ ".so")),
         .exec linkCmd,
         .rename (DIR ++ "/.libs/" ++ (BASE ++ ".so." ++ fmtInt M))
           (DIR ++ "/.libs/" ++
             (BASE ++ ".so." ++ fmtInt M ++ "." ++ fmtInt m ++ "." ++ fmtInt r)),
         .symlink (BASE ++ ".so." ++ fmtInt M ++ "." ++ fmtInt m ++ "." ++ fmtInt r)
           (DIR ++ "/.libs/" ++ (BASE ++ ".so." ++ fmtInt M)),
         .symlink (BASE ++ ".so." ++ fmtInt M ++ "." ++ fmtInt m ++ "." ++ fmtInt r)
           (DIR ++ "/.libs/" ++ (BASE ++ ".so")),
         .write P (laContent (some (BASE ++ ".so." ++ fmtInt M,
           BASE ++ ".so." ++ fmtInt M ++ "." ++ fmtInt m ++ "." ++ fmtInt r,
           BASE ++ ".so")))] ∧
    (∃ a b, linkCmd =
      a ++ ["-o", DIR ++ "/.libs/" ++ (BASE ++ ".so." ++ fmtInt M)] ++ b ++ ["-shared"]) ∧
    (ltlink env opt w).world.fs
      (DIR ++ "/.libs/" ++ (BASE ++ ".so." ++ fmtInt M ++ "." ++ fmtInt m ++ "." ++ fmtInt r)) =
        some (.file content) ∧
    (ltlink env opt w).world.fs (DIR ++ "/.libs/" ++ (BASE ++ ".so." ++ fmtInt M)) =
      some (.symlink (BASE ++ ".so." ++ fmtInt M ++ "." ++ fmtInt m ++ "." ++ fmtInt r)) ∧
    (ltlink env opt w).world.fs (DIR ++ "/.libs/" ++ (BASE ++ ".so")) =
      some (.symlink (BASE ++ ".so." ++ fmtInt M ++ "." ++ fmtInt m ++ "." ++ fmtInt r)) := by
  -- the parsed state and what the pre-scan found
  have hba : buildAOf opt.cmd = true := by simp [buildAOf, hfound, hla]
  have hbb : buildBinaryOf opt.cmd = false := by simp [buildBinaryOf, hfound, hla]
  have hrp : (ltlinkParse w.fs opt.cmd).rpath.isSome = true := by
    rw [ltlinkParse_rpath]; exact hrpath
  obtain ⟨members, hmem⟩ := ltlinkParse_outAr w.fs opt.cmd
  have hslot := ltlinkParse_slot w.fs opt.cmd P (lastOut_of_single _ P hone)
  obtain ⟨hs1, hs2, hs3⟩ := hslot
  -- the names
  have hso : fullPath (dirname P) (sonameOf (cutAtLastDot (basename P))
      (ltlinkParse w.fs opt.cmd)) = DIR ++ "/.libs/" ++ (BASE ++ ".so." ++ fmtInt M) := by
    rw [hDIR, hBASE, hM]; rfl
  have hlongn : longnameOf (cutAtLastDot (basename P)) (ltlinkParse w.fs opt.cmd) =
      BASE ++ ".so." ++ fmtInt M ++ "." ++ fmtInt m ++ "." ++ fmtInt r := by
    rw [hBASE, hM, hm, hr]; rfl
  have hlinkn : linknameOf (cutAtLastDot (basename P)) = BASE ++ ".so" := by
    rw [hBASE]; rfl
  have hlong : fullPath (dirname P) (longnameOf (cutAtLastDot (basename P))
      (ltlinkParse w.fs opt.cmd)) = DIR ++ "/.libs/" ++
        (BASE ++ ".so." ++ fmtInt M ++ "." ++ fmtInt m ++ "." ++ fmtInt r) := by
    rw [hlongn, hDIR]; rfl
  have hlink : fullPath (dirname P) (linknameOf (cutAtLastDot (basename P))) =
      DIR ++ "/.libs/" ++ (BASE ++ ".so") := by
    rw [hlinkn, hDIR]; rfl
  have hsoname : sonameOf (cutAtLastDot (basename P)) (ltlinkParse w.fs opt.cmd) =
      BASE ++ ".so." ++ fmtInt M := by
    rw [hBASE, hM]; rfl
  have hargv : cstrv (soArgv (ltlinkParse w.fs opt.cmd)
      (DIR ++ "/.libs/" ++ (BASE ++ ".so." ++ fmtInt M))) = linkCmd := by
    rw [hcmd, soArgv, cstrv_nullTerminated]
  -- the run
  have hins : (ltlinkParse w.fs opt.cmd).insane = false := by
    by_contra hi
    simp only [Bool.not_eq_false] at hi
    unfold ltlink at hret
    simp [hi, execLibtool] at hret
  have hlt : ltlink env opt w = finish (ltlinkBuild env opt (ltlinkParse w.fs opt.cmd)
      (some P) true false w) := by
    unfold ltlink
    simp only [hins, Bool.false_eq_true, if_false, hfound, hba, hbb]
  rw [hlt] at hret ⊢
  have hspec := writesSpec_ltlinkBuild env opt (ltlinkParse w.fs opt.cmd) (some P) true false w
  cases hR : ltlinkBuild env opt (ltlinkParse w.fs opt.cmd) (some P) true false w with
  | error e =>
    rw [hR] at hspec hret
    exact absurd hret hspec.2
  | ok wf =>
    simp only [finish]
    unfold ltlinkBuild at hR
    simp only [Option.getD_some, withDefaultOutput, hdry, Bool.false_eq_true, if_false,
      Bool.true_and, hrp] at hR
    obtain ⟨w1, h1, hR1⟩ := bind_ok_inv _ _ _ hR
    obtain ⟨w2, h2, hR2⟩ := bind_ok_inv _ _ _ hR1
    obtain ⟨w3, h3, hR3⟩ := bind_ok_inv _ _ _ hR2
    clear hR hR1 hR2
    -- the binary step is skipped
    simp only [linkBinary, Bool.false_eq_true, if_false, pure, Except.pure,
      Except.ok.injEq] at h1
    subst h1
    -- the archive
    simp only [linkArchive, if_true] at h2
    obtain ⟨wa, ha, h2r⟩ := bind_ok_inv _ _ _ h2
    obtain ⟨fsa, _, hwa⟩ := spawn_ok_inv env opt _ _ _ _ hdry ha
    obtain ⟨fsr, _, hw2⟩ := spawn_ok_inv env opt _ _ _ _ hdry h2r
    -- the shared object
    simp only [linkShared, if_true] at h3
    obtain ⟨fs0, fs1, n, hrun, hn, hfs3, htr3⟩ :=
      ltlinkSo_ok_inv env opt _ _ _ _ _ hdry h3
    rw [hso, hargv] at hrun
    rw [hso] at hn
    have hfile := hlinker fs0 fs1 hrun
    rw [hfile, Option.some.injEq] at hn
    subst hn
    rw [hso, hlong, hlink, hlongn] at hfs3 htr3
    -- the descriptor
    have hw4 := writeLa_ok_inv _ _ _ _ _ hR3
    rw [hsoname, hlongn, hlinkn] at hw4
    subst hw4
    -- the paths are pairwise different
    have hPso : P ≠ DIR ++ "/.libs/" ++ (BASE ++ ".so." ++ fmtInt M) := by
      rw [← String.append_assoc]; exact la_ne_number P _ M hla
    have hPlong : P ≠ DIR ++ "/.libs/" ++
        (BASE ++ ".so." ++ fmtInt M ++ "." ++ fmtInt m ++ "." ++ fmtInt r) := by
      rw [← String.append_assoc]; exact la_ne_number P _ r hla
    have hPlink : P ≠ DIR ++ "/.libs/" ++ (BASE ++ ".so") := by
      rw [← String.append_assoc]; exact la_ne_so P _ hla
    have hlen : ∀ a b : String, (a ++ b).length = a.length + b.length :=
      String.length_append
    have hsolong : DIR ++ "/.libs/" ++ (BASE ++ ".so." ++ fmtInt M) ≠ DIR ++ "/.libs/" ++
        (BASE ++ ".so." ++ fmtInt M ++ "." ++ fmtInt m ++ "." ++ fmtInt r) := by
      intro h
      have := congrArg String.length h
      simp only [hlen] at this
      have h1 : (".".length) = 1 := rfl
      omega
    have hlinkso : DIR ++ "/.libs/" ++ (BASE ++ ".so") ≠
        DIR ++ "/.libs/" ++ (BASE ++ ".so." ++ fmtInt M) := by
      intro h
      have := congrArg String.length h
      simp only [hlen] at this
      have h1 : (".so".length) = 3 := rfl
      have h2 : (".so.".length) = 4 := rfl
      omega
    have hlinklong : DIR ++ "/.libs/" ++ (BASE ++ ".so") ≠ DIR ++ "/.libs/" ++
        (BASE ++ ".so." ++ fmtInt M ++ "." ++ fmtInt m ++ "." ++ fmtInt r) := by
      intro h
      have := congrArg String.length h
      simp only [hlen] at this
      have h1 : (".so".length) = 3 := rfl
      have h2 : (".so.".length) = 4 := rfl
      omega
    refine ⟨?_, ?_, ?_, ?_, ?_⟩
    · rw [htr3, hw2, hwa]
      simp only [changesOf_append, changesOf_spawnTrace _ _ _ hdry, sysMkdir_trace, hargv]
      rw [hmem, cstrv_ranlibArgv, cstrv_nullTerminated]
      simp [changesOf, hDIR, hBASE, String.append_assoc]
    · have hlt2 : (ltlinkParse w.fs opt.cmd).outNamePos <
          (ltlinkParse w.fs opt.cmd).outCmd.length := by
        by_contra hge
        rw [List.getElem?_eq_none (by omega)] at hs3
        exact absurd hs3 (by simp)
      obtain ⟨i, hi⟩ : ∃ i, (ltlinkParse w.fs opt.cmd).outNamePos = i + 1 :=
        ⟨(ltlinkParse w.fs opt.cmd).outNamePos - 1, by omega⟩
      rw [hi] at hs2 hs3
      simp only [Nat.add_sub_cancel] at hs2
      rw [hcmd, hi, set_slot_decompose _ _ i "-o" P _ hs2 hs3]
      exact ⟨_, _, rfl⟩
    · simp only [FS.set, hfs3]
      simp [Ne.symm hPlong, Ne.symm hlinklong, Ne.symm hsolong]
    · simp only [FS.set, hfs3]
      simp [Ne.symm hPso, Ne.symm hlinkso]
    · simp only [FS.set, hfs3]
      simp [Ne.symm hPlink]

/-- C9 at `cc -o d/libfoo.la foo.lo -rpath /usr/lib -version-info 3:2:1`: the long name
`d/.libs/libfoo.so.2.1.2` is the linker's file and the two short names link to it. -/
theorem C9_shared_object_witness :
    (findOutName (mkOptions false "link" ["cc", "-o", "d/libfoo.la", "foo.lo", "-rpath",
        "/usr/lib", "-version-info", "3:2:1"]).cmd.tail = some "d/libfoo.la" ∧
      hasExt "d/libfoo.la" ".la" = true ∧
      rpathGiven (mkOptions false "link" ["cc", "-o", "d/libfoo.la", "foo.lo", "-rpath",
        "/usr/lib", "-version-info", "3:2:1"]).cmd = true ∧
      (ltlink idealTools (mkOptions false "link" ["cc", "-o", "d/libfoo.la", "foo.lo", "-rpath",
        "/usr/lib", "-version-info", "3:2:1"]) emptyWorld).outcome = .returned) ∧
    (ltlink idealTools (mkOptions false "link" ["cc", "-o", "d/libfoo.la", "foo.lo", "-rpath",
        "/usr/lib", "-version-info", "3:2:1"]) emptyWorld).world.fs "d/.libs/libfoo.so.2.1.2" =
      some (.file "output") ∧
    (ltlink idealTools (mkOptions false "link" ["cc", "-o", "d/libfoo.la", "foo.lo", "-rpath",
        "/usr/lib", "-version-info", "3:2:1"]) emptyWorld).world.fs "d/.libs/libfoo.so.2" =
      some (.symlink "libfoo.so.2.1.2") ∧
    (ltlink idealTools (mkOptions false "link" ["cc", "-o", "d/libfoo.la", "foo.lo", "-rpath",
        "/usr/lib", "-version-info", "3:2:1"]) emptyWorld).world.fs "d/.libs/libfoo.so" =
      some (.symlink "libfoo.so.2.1.2") := by
  have hlinker : ∀ fs0 fs1 : FS,
      idealTools.run
        ["cc", "-L.libs", "-o", "d/.libs/libfoo.so.2", "./.libs/foo.sh.o", "-shared"] fs0 =
        .exited 0 fs1 →
      fs1 ("d" ++ "/.libs/" ++ ("libfoo" ++ ".so." ++ fmtInt 2)) = some (.file "output") := by
    intro fs0 fs1 h
    have hout : outputOf
        ["cc", "-L.libs", "-o", "d/.libs/libfoo.so.2", "./.libs/foo.sh.o", "-shared"] =
        some "d/.libs/libfoo.so.2" := by decide
    simp only [idealTools, hout, ChildResult.exited.injEq, true_and] at h
    rw [← h]
    have hp : ("d" ++ "/.libs/" ++ ("libfoo" ++ ".so." ++ fmtInt 2) : String) =
        "d/.libs/libfoo.so.2" := by decide
    rw [hp]
    simp [FS.set]
  have h := C9_shared_object idealTools
    (mkOptions false "link" ["cc", "-o", "d/libfoo.la", "foo.lo", "-rpath", "/usr/lib",
      "-version-info", "3:2:1"]) emptyWorld
    "d/libfoo.la" "d" "libfoo" "output" 2 1 2
    ["cc", "-L.libs", "-o", "d/.libs/libfoo.so.2", "./.libs/foo.sh.o", "-shared"]
    rfl (by decide) (by decide) (by decide) (by decide) (by decide) (by decide)
    (by decide) (by decide) (by decide) (by decide) hlinker (by decide)
  exact ⟨⟨by decide, by decide, by decide, by decide⟩, h.2.2.1, h.2.2.2.1, h.2.2.2.2⟩

/-! ## Traces only grow -/

theorem grows_pure (Q : Effect → Prop) (w : World) : Grows Q w.trace (pure w) :=
  ⟨[], by simp [endWorld, pure, Except.pure], by simp⟩

theorem grows_bind (Q : Effect → Prop) (base : List Effect) (a : Except Result World)
    (f : World → Except Result World) (ha : Grows Q base a)
    (hf : ∀ w1, Grows Q w1.trace (f w1)) : Grows Q base (a >>= f) := by
  cases a with
  | error e => exact ha
  | ok w1 =>
    obtain ⟨x1, h1, q1⟩ := ha
    obtain ⟨x2, h2, q2⟩ := hf w1
    refine ⟨x1 ++ x2, ?_, ?_⟩
    · show (endWorld (f w1)).trace = base ++ (x1 ++ x2)
      rw [h2, ← List.append_assoc]
      congr 1
    · intro e he
      rcases List.mem_append.mp he with h | h
      · exact q1 e h
      · exact q2 e h

theorem grows_after (Q : Effect → Prop) (w w1 : World) (pre : List Effect)
    (r : Except Result World) (hw : w1.trace = w.trace ++ pre) (hpre : ∀ e ∈ pre, Q e)
    (h : Grows Q w1.trace r) : Grows Q w.trace r := by
  obtain ⟨x, h1, q⟩ := h
  refine ⟨pre ++ x, by rw [h1, hw, List.append_assoc], ?_⟩
  intro e he
  rcases List.mem_append.mp he with h | h
  · exact hpre e h
  · exact q e h

theorem grows_spawn (Q : Effect → Prop) (env : Env) (opt : Options) (v : List (Option String))
    (r : Bool) (w : World) (hc : Q (.spawnCall v r)) (he : ∀ c, Q (.echo c))
    (hx : ∀ c, Q (.exec c)) (hp : ∀ s, Q (.perror s)) :
    Grows Q w.trace (spawn env opt v r w) := by
  unfold spawn
  by_cases hq : opt.quiet = true <;> by_cases hd : opt.dryRun = true <;>
    simp only [hq, hd, if_true, if_false, World.log, Bool.false_eq_true]
  · exact ⟨[.spawnCall v r], rfl, by simpa using hc⟩
  · cases env.run (cstrv v) w.fs with
    | forkFailed =>
      exact ⟨[.spawnCall v r, .perror "fork"], by simp [endWorld], by simp [hc, hp]⟩
    | waitFailed fs =>
      refine ⟨[.spawnCall v r, .exec (cstrv v), .perror ((cstrv v).headD "")], ?_,
        by simp [hc, hp, hx]⟩
      cases r <;> simp [endWorld, execLibtool]
    | exited status fs =>
      refine ⟨[.spawnCall v r, .exec (cstrv v)], ?_, by simp [hc, hx]⟩
      by_cases hs : status = 0 <;> cases r <;> simp [endWorld, execLibtool, hs]
  · exact ⟨[.spawnCall v r, .echo (cstrv v)], by simp [endWorld], by simp [hc, he]⟩
  · cases env.run (cstrv v) w.fs with
    | forkFailed =>
      exact ⟨[.spawnCall v r, .echo (cstrv v), .perror "fork"], by simp [endWorld],
        by simp [hc, hp, he]⟩
    | waitFailed fs =>
      refine ⟨[.spawnCall v r, .echo (cstrv v), .exec (cstrv v),
        .perror ((cstrv v).headD "")], ?_, by simp [hc, hp, hx, he]⟩
      cases r <;> simp [endWorld, execLibtool]
    | exited status fs =>
      refine ⟨[.spawnCall v r, .echo (cstrv v), .exec (cstrv v)], ?_, by simp [hc, hx, he]⟩
      by_cases hs : status = 0 <;> cases r <;> simp [endWorld, execLibtool, hs]

theorem finish_world (r : Except Result World) : (finish r).world = endWorld r := by
  cases r <;> rfl

theorem grows_compileNonPic (Q : Effect → Prop) (env : Env) (opt : Options)
    (oc : List String) (pos : Nat) (out : String) (bp bnp : Bool) (w : World)
    (hc : Q (.spawnCall (nullTerminated (oc.set pos (nonPicFileOf out))) false))
    (he : ∀ c, Q (.echo c)) (hx : ∀ c, Q (.exec c)) (hp : ∀ s, Q (.perror s))
    (hl : ∀ a b, Q (.link a b)) :
    Grows Q w.trace (compileNonPic env opt oc pos out bp bnp w) := by
  unfold compileNonPic
  cases bnp
  · exact grows_pure Q w
  · simp only [if_true]
    apply grows_bind Q _ _ _ (grows_spawn Q env opt _ false w hc he hx hp)
    intro w1
    by_cases hlk : (!bp && !opt.dryRun) = true
    · simp only [hlk, if_true]
      exact ⟨[.link (nonPicFileOf out) (picFileOf out)],
        by simp [endWorld, pure, Except.pure], by simpa using hl _ _⟩
    · simp only [hlk, if_false]
      exact grows_pure Q w1

theorem grows_compilePic (Q : Effect → Prop) (env : Env) (opt : Options)
    (oc : List String) (pos : Nat) (out : String) (bp bnp : Bool) (w : World)
    (hc : Q (.spawnCall
      (nullTerminated ((oc ++ ["-fPIC", "-DPIC"]).set pos (picFileOf out))) false))
    (he : ∀ c, Q (.echo c)) (hx : ∀ c, Q (.exec c)) (hp : ∀ s, Q (.perror s))
    (hl : ∀ a b, Q (.link a b)) :
    Grows Q w.trace (compilePic env opt oc pos out bp bnp w) := by
  unfold compilePic
  cases bp
  · exact grows_pure Q w
  · simp only [if_true]
    apply grows_bind Q _ _ _ (grows_spawn Q env opt _ false w hc he hx hp)
    intro w1
    by_cases hlk : (!bnp && !opt.dryRun) = true
    · simp only [hlk, if_true]
      exact ⟨[.link (picFileOf out) (nonPicFileOf out)],
        by simp [endWorld, pure, Except.pure], by simpa using hl _ _⟩
    · simp only [hlk, if_false]
      exact grows_pure Q w1

theorem grows_writeLo (Q : Effect → Prop) (out : String) (w : World)
    (hw : Q (.write out (loContent (cutAtLastDot (basename out)))))
    (hp : ∀ s, Q (.perror s)) : Grows Q w.trace (writeLo out w) := by
  unfold writeLo
  rcases writeFile_cases out (loContent (cutAtLastDot (basename out))) w with h | ⟨fs1, h⟩
  · rw [h]
    exact ⟨[.perror out], by simp [endWorld, World.log, throw, throwThe, MonadExceptOf.throw],
      by simpa using hp _⟩
  · rw [h]
    exact ⟨[.write out (loContent (cutAtLastDot (basename out)))],
      by simp [endWorld, pure, Except.pure], by simpa using hw⟩

/-- Every event the build steps of `ltcompile` add satisfies `Q` when the two `spawn` calls,
the descriptor and the auxiliary calls do. -/
theorem grows_ltcompileBuild (Q : Effect → Prop) (env : Env) (opt : Options)
    (oc : List String) (pos : Nat) (out : String) (bp bnp : Bool) (w : World)
    (hn : Q (.spawnCall (nullTerminated (oc.set pos (nonPicFileOf out))) false))
    (hpic : Q (.spawnCall
      (nullTerminated ((oc ++ ["-fPIC", "-DPIC"]).set pos (picFileOf out))) false))
    (hw : Q (.write out (loContent (cutAtLastDot (basename out)))))
    (he : ∀ c, Q (.echo c)) (hx : ∀ c, Q (.exec c)) (hp : ∀ s, Q (.perror s))
    (hl : ∀ a b, Q (.link a b)) (hm : ∀ p, Q (.mkdir p)) :
    Grows Q w.trace (ltcompileBuild env opt oc pos out bp bnp w) := by
  unfold ltcompileBuild
  have h0 : ∃ pre, (if opt.dryRun = true then w else sysMkdir (dirname out ++ "/.libs") w).trace =
      w.trace ++ pre ∧ ∀ e ∈ pre, Q e := by
    by_cases hd : opt.dryRun = true
    · exact ⟨[], by simp [hd], by simp⟩
    · exact ⟨[.mkdir (dirname out ++ "/.libs")], by simp [hd], by simpa using hm _⟩
  obtain ⟨pre, hpre, hQ⟩ := h0
  refine grows_after Q w _ pre _ hpre hQ ?_
  apply grows_bind Q _ _ _ (grows_compileNonPic Q env opt oc pos out bp bnp _ hn he hx hp hl)
  intro w1
  apply grows_bind Q _ _ _ (grows_compilePic Q env opt oc pos out bp bnp _ hpic he hx hp hl)
  intro w2
  exact grows_writeLo Q out w2 hw hp

/-- A compile command that is not accepted ends `ltcompile` at once: it exits with status 1
having printed diagnostics only. -/
theorem ltcompile_rejects (env : Env) (opt : Options) (w : World)
    (hacc : compileAccepts opt.cmd = false) :
    ∃ ds, ltcompile env opt w =
        { world := { fs := w.fs, trace := w.trace ++ ds }, outcome := .exited 1 } ∧
      ∀ e ∈ ds, ∃ t, e = Effect.diag t := by
  unfold compileAccepts at hacc
  unfold ltcompile
  cases hin : (ltcompileParse opt.cmd).inName with
  | none =>
    simp only [hin]
    exact ⟨[_], rfl, by simp⟩
  | some inName =>
    simp only [hin, Option.isSome_some, Bool.true_and] at hacc
    cases hon : (ltcompileParse opt.cmd).outName with
    | none => simp [hon] at hacc
    | some outName =>
      simp only [hon] at hacc
      have hext : strrchrDot outName ≠ some ".lo" := by simpa using hacc
      simp only [hin, hon]
      cases hs : strrchrDot outName with
      | none =>
        simp only
        exact ⟨[.diag (outName ++ "\n"),
          .diag "error: --mode=compile used to compile an executable\n"],
          by simp [World.log], by simp⟩
      | some ext =>
        have hne : ext ≠ ".lo" := by
          intro h; rw [hs, h] at hext; exact hext rfl
        simp only [hne, ne_eq, not_false_eq_true, if_true]
        exact ⟨[.diag (outName ++ "\n"),
          .diag "error: --mode=compile used to compile something other than a .lo file\n"],
          by simp [World.log], by simp⟩

/-- Every event a run of `ltcompile` adds to the trace is a `CompileEvent`. -/
theorem ltcompile_events (env : Env) (opt : Options) (w : World) :
    ∃ extra, (ltcompile env opt w).world.trace = w.trace ++ extra ∧
      ∀ e ∈ extra, CompileEvent opt.cmd e := by
  by_cases hacc : compileAccepts opt.cmd = true
  · rw [ltcompile_eq_build env opt w hacc, finish_world]
    have hdiag : ∀ e ∈ compileDiag opt.cmd, CompileEvent opt.cmd e := by
      intro e he
      unfold compileDiag at he
      split at he
      · simp at he
      · simp only [List.mem_singleton] at he
        subst he
        trivial
    have hg := grows_ltcompileBuild (CompileEvent opt.cmd) env opt (compileBuffer opt.cmd)
      (compileSlot opt.cmd) (compileOutput opt.cmd)
      (!(prefersNonPic opt.cmd && !prefersPic opt.cmd))
      (!(prefersPic opt.cmd && !prefersNonPic opt.cmd))
      { fs := w.fs, trace := w.trace ++ compileDiag opt.cmd }
      ⟨rfl, Or.inl rfl⟩ ⟨rfl, Or.inr rfl⟩ ⟨rfl, rfl⟩
      (fun _ => trivial) (fun _ => trivial) (fun _ => trivial) (fun _ _ => trivial)
      (fun _ => trivial)
    obtain ⟨x, hx, hq⟩ := hg
    refine ⟨compileDiag opt.cmd ++ x, by rw [hx, List.append_assoc], ?_⟩
    intro e he
    rcases List.mem_append.mp he with h | h
    · exact hdiag e h
    · exact hq e h
  · simp only [Bool.not_eq_true] at hacc
    obtain ⟨ds, hds, hq⟩ := ltcompile_rejects env opt w hacc
    refine ⟨ds, by rw [hds], ?_⟩
    intro e he
    obtain ⟨t, rfl⟩ := hq e he
    trivial

theorem grows_linkBinary (Q : Effect → Prop) (env : Env) (opt : Options) (st : LinkState)
    (bb : Bool) (w : World)
    (hc : Q (.spawnCall (nullTerminated st.outCmd) st.retryIfFail))
    (he : ∀ c, Q (.echo c)) (hx : ∀ c, Q (.exec c)) (hp : ∀ s, Q (.perror s)) :
    Grows Q w.trace (linkBinary env opt st bb w) := by
  unfold linkBinary
  cases bb
  · exact grows_pure Q w
  · exact grows_spawn Q env opt _ _ w hc he hx hp

theorem grows_linkArchive (Q : Effect → Prop) (env : Env) (opt : Options) (st : LinkState)
    (outDir outBase : String) (ba : Bool) (w : World)
    (hc1 : Q (.spawnCall
      (nullTerminated (st.outAr.set 2 (outDir ++ "/.libs/" ++ outBase ++ ".a")))
      st.retryIfFail))
    (hc2 : Q (.spawnCall (ranlibArgv (st.outAr.set 2 (outDir ++ "/.libs/" ++ outBase ++ ".a")))
      st.retryIfFail))
    (he : ∀ c, Q (.echo c)) (hx : ∀ c, Q (.exec c)) (hp : ∀ s, Q (.perror s)) :
    Grows Q w.trace (linkArchive env opt st outDir outBase ba w) := by
  unfold linkArchive
  cases ba
  · exact grows_pure Q w
  · simp only [if_true]
    apply grows_bind Q _ _ _ (grows_spawn Q env opt _ _ w hc1 he hx hp)
    intro w1
    exact grows_spawn Q env opt _ _ w1 hc2 he hx hp

theorem grows_ltlinkSo (Q : Effect → Prop) (env : Env) (opt : Options) (st : LinkState)
    (outDir outBase : String) (w : World)
    (hc : Q (.spawnCall (soArgv st (fullPath outDir (sonameOf outBase st))) st.retryIfFail))
    (he : ∀ c, Q (.echo c)) (hx : ∀ c, Q (.exec c)) (hp : ∀ s, Q (.perror s))
    (hu : ∀ p, Q (.unlink p)) (hr : ∀ a b, Q (.rename a b)) (hs : ∀ a b, Q (.symlink a b)) :
    Grows Q w.trace (ltlinkSo env opt st outDir outBase w) := by
  unfold ltlinkSo
  dsimp only
  refine grows_after Q w
    (sysUnlink (fullPath outDir (linknameOf outBase))
      (sysUnlink (fullPath outDir (longnameOf outBase st))
        (sysUnlink (fullPath outDir (sonameOf outBase st)) w)))
    [.unlink (fullPath outDir (sonameOf outBase st)),
     .unlink (fullPath outDir (longnameOf outBase st)),
     .unlink (fullPath outDir (linknameOf outBase))] _ (by simp) (by simp [hu]) ?_
  apply grows_bind Q _ _ _ (grows_spawn Q env opt _ _ _ hc he hx hp)
  intro w1
  simp only [bind, Except.bind, pure, Except.pure, throw, throwThe, MonadExceptOf.throw]
  split_ifs
  · exact ⟨[.rename (fullPath outDir (sonameOf outBase st))
        (fullPath outDir (longnameOf outBase st)),
      .perror (fullPath outDir (longnameOf outBase st))],
      by simp [endWorld, World.log, sysRename_trace], by simp [hr, hp]⟩
  · exact ⟨[.rename (fullPath outDir (sonameOf outBase st))
        (fullPath outDir (longnameOf outBase st)),
      .symlink (longnameOf outBase st) (fullPath outDir (sonameOf outBase st)),
      .perror (fullPath outDir (sonameOf outBase st))],
      by simp [endWorld, World.log, sysRename_trace, sysSymlink_trace],
      by simp [hr, hp, hs]⟩
  · exact ⟨[.rename (fullPath outDir (sonameOf outBase st))
        (fullPath outDir (longnameOf outBase st)),
      .symlink (longnameOf outBase st) (fullPath outDir (sonameOf outBase st)),
      .symlink (longnameOf outBase st) (fullPath outDir (linknameOf outBase)),
      .perror (fullPath outDir (linknameOf outBase))],
      by simp [endWorld, World.log, sysRename_trace, sysSymlink_trace],
      by simp [hr, hp, hs]⟩
  · exact ⟨[.rename (fullPath outDir (sonameOf outBase st))
        (fullPath outDir (longnameOf outBase st)),
      .symlink (longnameOf outBase st) (fullPath outDir (sonameOf outBase st)),
      .symlink (longnameOf outBase st) (fullPath outDir (linknameOf outBase))],
      by simp [endWorld, sysRename_trace, sysSymlink_trace],
      by simp [hr, hs]⟩

theorem grows_writeLa (Q : Effect → Prop) (outName outBase : String) (st : LinkState)
    (ba bso : Bool) (w : World)
    (hw : ∀ names, Q (.write outName (laContent names)))
    (hp : ∀ s, Q (.perror s)) : Grows Q w.trace (writeLa outName outBase st ba bso w) := by
  unfold writeLa
  cases ba
  · exact grows_pure Q w
  · simp only [if_true]
    rcases writeFile_cases outName (laContent (if bso = true then
        some (sonameOf outBase st, longnameOf outBase st, linknameOf outBase) else none)) w
      with h | ⟨fs1, h⟩
    · rw [h]
      exact ⟨[.perror outName],
        by simp [endWorld, World.log, throw, throwThe, MonadExceptOf.throw],
        by simpa using hp _⟩
    · rw [h]
      exact ⟨[.write outName (laContent (if bso = true then
          some (sonameOf outBase st, longnameOf outBase st, linknameOf outBase) else none))],
        by simp [endWorld, pure, Except.pure], by simpa using hw _⟩

theorem grows_linkShared (Q : Effect → Prop) (env : Env) (opt : Options) (st : LinkState)
    (outDir outBase : String) (bso : Bool) (w : World)
    (hc : Q (.spawnCall (soArgv st (fullPath outDir (sonameOf outBase st))) st.retryIfFail))
    (he : ∀ c, Q (.echo c)) (hx : ∀ c, Q (.exec c)) (hp : ∀ s, Q (.perror s))
    (hu : ∀ p, Q (.unlink p)) (hr : ∀ a b, Q (.rename a b)) (hs : ∀ a b, Q (.symlink a b)) :
    Grows Q w.trace (linkShared env opt st outDir outBase bso w) := by
  unfold linkShared
  cases bso
  · exact grows_pure Q w
  · exact grows_ltlinkSo Q env opt st outDir outBase w hc he hx hp hu hr hs

/-- Every event a run of `ltlink` adds to the trace is a `LinkEvent`. -/
theorem ltlink_events (env : Env) (opt : Options) (w : World) :
    ∃ extra, (ltlink env opt w).world.trace = w.trace ++ extra ∧
      ∀ e ∈ extra, LinkEvent w.fs opt.cmd e := by
  unfold ltlink
  by_cases hins : (ltlinkParse w.fs opt.cmd).insane = true
  · simp only [hins, if_true, execLibtool]
    exact ⟨[], by simp, by simp⟩
  · simp only [hins, Bool.false_eq_true, if_false]
    rw [finish_world]
    obtain ⟨_, _, _, _, hAr, hretry⟩ :=
      withDefaultOutput_fields (ltlinkParse w.fs opt.cmd) (findOutName opt.cmd.tail)
    have hretry2 : (linkBuildState w.fs opt.cmd).retryIfFail =
        (ltlinkParse w.fs opt.cmd).retryIfFail := hretry
    unfold ltlinkBuild
    dsimp only
    have h0 : ∃ pre, (if opt.dryRun = true then w
        else sysMkdir (dirname ((findOutName opt.cmd.tail).getD "a.out") ++ "/.libs") w).trace =
        w.trace ++ pre ∧ ∀ e ∈ pre, LinkEvent w.fs opt.cmd e := by
      by_cases hd : opt.dryRun = true
      · exact ⟨[], by simp [hd], by simp⟩
      · exact ⟨[.mkdir (dirname ((findOutName opt.cmd.tail).getD "a.out") ++ "/.libs")],
          by simp [hd], by simp [LinkEvent]⟩
    obtain ⟨pre, hpre, hQ⟩ := h0
    refine grows_after _ w _ pre _ hpre hQ ?_
    apply grows_bind _ _ _ _ (grows_linkBinary _ env opt _ _ _
      ⟨hretry2, by simp [linkVectors, linkBuildState]⟩
      (fun _ => trivial) (fun _ => trivial) (fun _ => trivial))
    intro w1
    apply grows_bind _ _ _ _ (grows_linkArchive _ env opt _ _ _ _ _
      ⟨hretry2, by simp [linkVectors, linkBuildState, arBuffer, linkOutput]⟩
      ⟨hretry2, by simp [linkVectors, linkBuildState, arBuffer, linkOutput]⟩
      (fun _ => trivial) (fun _ => trivial) (fun _ => trivial))
    intro w2
    apply grows_bind _ _ _ _ (grows_linkShared _ env opt _ _ _ _ _
      ⟨hretry2, by simp [linkVectors, linkBuildState, linkOutput]⟩
      (fun _ => trivial) (fun _ => trivial) (fun _ => trivial) (fun _ => trivial)
      (fun _ _ => trivial) (fun _ _ => trivial))
    intro w3
    exact grows_writeLa _ _ _ _ _ _ w3 (fun names => ⟨rfl, names, rfl⟩) (fun _ => trivial)

/-! ## Library dependencies and the retry flag -/

theorem hasExt_la_not_lo (a : String) (h : hasExt a ".la" = true) : hasExt a ".lo" = false := by
  unfold hasExt at h ⊢
  simp only [beq_iff_eq] at h
  rw [h]
  decide

theorem laName_spec (base : String) :
    (startsWith "lib" base = true → base = "lib" ++ laName base) ∧
    (startsWith "lib" base = false → laName base = base) := by
  constructor
  · intro h
    unfold laName
    rw [if_pos h]
    unfold startsWith at h
    rw [List.isPrefixOf_iff_prefix] at h
    obtain ⟨t, ht⟩ := h
    apply String.ext
    rw [String.data_append, strFrom, ← ht]
    simp
  · intro h
    unfold laName
    simp [h]

theorem ltlinkArg_la (fs : FS) (bb : Bool) (st : LinkState) (arg : String)
    (narg : Option String) (hflag : isFlag arg = false) (hext : hasExt arg ".la" = true) :
    ltlinkArg fs bb st arg narg =
      ({ st with
          outCmd := st.outCmd ++ ["-L" ++ dirname arg ++ "/.libs"] ++
            (if (!accessOk fs (dirname arg ++ "/.libs/" ++ cutAtLastDot (basename arg) ++ ".so"))
              then ["-Wl,--whole-archive"] else []) ++
            ["-l" ++ laName (cutAtLastDot (basename arg))] ++
            (if (!accessOk fs (dirname arg ++ "/.libs/" ++ cutAtLastDot (basename arg) ++ ".so"))
              then ["-Wl,--no-whole-archive"] else []),
          retryIfFail := st.retryIfFail ||
            !accessOk fs (dirname arg ++ "/.libs/" ++ cutAtLastDot (basename arg) ++ ".so") },
        false) := by
  unfold ltlinkArg ltlinkFile
  simp only [hflag, hext, hasExt_la_not_lo arg hext, Bool.false_eq_true, if_false, if_true]

theorem ltlinkFlag_retry (st : LinkState) (a : String) (n : Option String) :
    (ltlinkFlag st a n).1.retryIfFail = st.retryIfFail := by
  unfold ltlinkFlag
  split_ifs
  any_goals rfl
  unfold ltlinkFlagRest
  split_ifs <;> rfl

theorem ltlinkArg_retry (fs : FS) (bb : Bool) (st : LinkState) (a : String)
    (n : Option String) :
    (ltlinkArg fs bb st a n).1.retryIfFail = (st.retryIfFail || laWithoutSo fs (a, n)) := by
  by_cases hf : isFlag a = true
  · unfold ltlinkArg
    simp only [hf, if_true, laWithoutSo, Bool.not_true, Bool.false_and, Bool.or_false]
    exact ltlinkFlag_retry st a n
  · simp only [Bool.not_eq_true] at hf
    by_cases hla : hasExt a ".la" = true
    · rw [ltlinkArg_la fs bb st a n hf hla]
      simp [laWithoutSo, hf, hla]
    · simp only [Bool.not_eq_true] at hla
      unfold ltlinkArg ltlinkFile
      simp only [hf, hla, laWithoutSo, Bool.false_eq_true, if_false, Bool.and_false,
        Bool.false_and, Bool.or_false]
      split_ifs <;> rfl

/-- The retry flag after the argument loop: some visited argument is a `.la` dependency
without a shared object. -/
theorem ltlinkParse_retry (fs : FS) (cmd : List String) :
    (ltlinkParse fs cmd).retryIfFail =
      (visited linkOptionsWithArg cmd.tail).any (laWithoutSo fs) := by
  unfold ltlinkParse
  rw [ltlinkLoop_eq_foldl,
    foldl_proj (fun (s : LinkState) => s.retryIfFail)
      (fun (s : LinkState) (p : String × Option String) =>
        (ltlinkArg fs (buildBinaryOf cmd) s p.1 p.2).1)
      (fun (b : Bool) (p : String × Option String) => b || laWithoutSo fs p)
      (fun s p => ltlinkArg_retry fs _ s p.1 p.2),
    foldl_or_eq_any]
  rfl

theorem spawnCallsOf_append (s t : List Effect) :
    spawnCallsOf (s ++ t) = spawnCallsOf s ++ spawnCallsOf t := by
  simp [spawnCallsOf, List.filterMap_append]

theorem mem_spawnCallsOf (t : List Effect) (c : List (Option String) × Bool) :
    c ∈ spawnCallsOf t ↔ Effect.spawnCall c.1 c.2 ∈ t := by
  unfold spawnCallsOf
  rw [List.mem_filterMap]
  constructor
  · rintro ⟨e, he, h⟩
    cases e <;> simp at h
    subst h
    exact he
  · intro h
    exact ⟨_, h, rfl⟩

/-- C11: a link argument that is not a flag and has the extension `.la`, `DIR/BASE.la` with
`DIR = dirname` and `BASE` the base name without its extension, adds `-LDIR/.libs` and then
`-lNAME` to the link command, `NAME` being `BASE` without a leading `lib`, and nothing to the
archive members; the `-l` is wrapped in `-Wl,--whole-archive` and `-Wl,--no-whole-archive`
exactly when `DIR/.libs/BASE.so` does not exist.  The retry flag after the argument loop is
set exactly when some `.la` argument the loop read had no `DIR/.libs/BASE.so`, and every
call of `spawn` in the run of `ltlink` is made with this flag. -/
theorem C11_la_dependency (env : Env) (opt : Options) (w : World) (fs : FS) (bb : Bool)
    (st : LinkState) (arg : String) (narg : Option String)
    (hflag : isFlag arg = false) (hext : hasExt arg ".la" = true) :
    (ltlinkArg fs bb st arg narg).1.outCmd =
      st.outCmd ++ ["-L" ++ dirname arg ++ "/.libs"] ++
        (if accessOk fs (dirname arg ++ "/.libs/" ++ cutAtLastDot (basename arg) ++ ".so") then
          ["-l" ++ laName (cutAtLastDot (basename arg))]
         else ["-Wl,--whole-archive", "-l" ++ laName (cutAtLastDot (basename arg)),
           "-Wl,--no-whole-archive"]) ∧
    (ltlinkArg fs bb st arg narg).1.outAr = st.outAr ∧
    (ltlinkArg fs bb st arg narg).2 = false ∧
    (startsWith "lib" (cutAtLastDot (basename arg)) = true →
      cutAtLastDot (basename arg) = "lib" ++ laName (cutAtLastDot (basename arg))) ∧
    (startsWith "lib" (cutAtLastDot (basename arg)) = false →
      laName (cutAtLastDot (basename arg)) = cutAtLastDot (basename arg)) ∧
    (ltlinkParse w.fs opt.cmd).retryIfFail =
      (visited linkOptionsWithArg opt.cmd.tail).any (fun p =>
        !isFlag p.1 && hasExt p.1 ".la" &&
          !accessOk w.fs (dirname p.1 ++ "/.libs/" ++ cutAtLastDot (basename p.1) ++ ".so")) ∧
    (∃ calls, spawnCallsOf (ltlink env opt w).world.trace = spawnCallsOf w.trace ++ calls ∧
      ∀ c ∈ calls, c.2 = (ltlinkParse w.fs opt.cmd).retryIfFail) := by
  have hla := ltlinkArg_la fs bb st arg narg hflag hext
  refine ⟨?_, ?_, ?_, (laName_spec _).1, (laName_spec _).2, ?_, ?_⟩
  · rw [hla]
    by_cases ha : accessOk fs (dirname arg ++ "/.libs/" ++ cutAtLastDot (basename arg) ++ ".so")
        = true
    · simp [ha]
    · simp [ha]
  · rw [hla]
  · rw [hla]
  · exact ltlinkParse_retry w.fs opt.cmd
  · obtain ⟨extra, hx, hq⟩ := ltlink_events env opt w
    refine ⟨spawnCallsOf extra, by rw [hx, spawnCallsOf_append], ?_⟩
    intro c hc
    rw [mem_spawnCallsOf] at hc
    exact (hq _ hc).1

/-- C11 at `sub/libbar.la` with no `sub/.libs/libbar.so`. -/
theorem C11_la_dependency_witness :
    (isFlag "sub/libbar.la" = false ∧ hasExt "sub/libbar.la" ".la" = true) ∧
    (ltlinkArg emptyWorld.fs true (ltlinkParse emptyWorld.fs ["cc"]) "sub/libbar.la" none).1.outCmd
      = ["cc", "-L.libs", "-Lsub/.libs", "-Wl,--whole-archive", "-lbar",
         "-Wl,--no-whole-archive"] ∧
    (ltlinkParse emptyWorld.fs
      (mkOptions false "link" ["cc", "-o", "prog", "main.o", "sub/libbar.la"]).cmd).retryIfFail
      = true :=
  ⟨⟨by decide, by decide⟩,
   (C11_la_dependency idealTools
      (mkOptions false "link" ["cc", "-o", "prog", "main.o", "sub/libbar.la"]) emptyWorld
      emptyWorld.fs true (ltlinkParse emptyWorld.fs ["cc"]) "sub/libbar.la" none
      (by decide) (by decide)).1,
   (C11_la_dependency idealTools
      (mkOptions false "link" ["cc", "-o", "prog", "main.o", "sub/libbar.la"]) emptyWorld
      emptyWorld.fs true (ltlinkParse emptyWorld.fs ["cc"]) "sub/libbar.la" none
      (by decide) (by decide)).2.2.2.2.2.1.trans (by decide)⟩

/-! ## The rewriting table of link mode -/

theorem foldl_append_flatMap {σ α β : Type} (f : σ → α → σ) (proj : σ → List β)
    (g : α → List β) (l : List α) (h : ∀ s a, a ∈ l → proj (f s a) = proj s ++ g a) (s : σ) :
    proj (l.foldl f s) = proj s ++ l.flatMap g := by
  induction l generalizing s with
  | nil => simp
  | cons a l ih =>
    rw [List.foldl_cons, ih (fun s b hb => h s b (List.mem_cons_of_mem _ hb)),
      h s a (List.mem_cons_self _ _), List.flatMap_cons, List.append_assoc]

theorem startsWith_L_ne (a : String) (h : startsWith "-L" a = false) : a ≠ "-L" := by
  rintro rfl; revert h; decide

theorem ltlinkArg_outCmd_flag (st : LinkState) (a : String) (n : Option String)
    (hsup : a ∉ unsupportedFlags) (fs : FS) (bb : Bool) (hf : isFlag a = true) :
    (ltlinkFlag st a n).1.outCmd = st.outCmd ++ linkRewrite fs bb (a, n) := by
  by_cases hm : a ∈ ["-all-static", "-export-dynamic", "-o", "-rpath", "-version-info",
      "-Xcompiler", "-XCClinker", "-bindir", "-export-symbols", "-export-symbols-regex",
      "-no-fast-install", "-no-install", "-no-undefined"]
  · simp only [List.mem_cons, List.mem_singleton, List.mem_nil_iff, or_false] at hm
    rcases hm with h | h | h | h | h | h | h | h | h | h | h | h | h <;> subst h <;>
      cases n <;> simp [ltlinkFlag, ltlinkFlagRest, linkRewrite, isFlag, startsWith,
        unsupportedFlags]
  · simp only [List.mem_cons, List.mem_singleton, List.mem_nil_iff, or_false, not_or] at hm
    obtain ⟨h1, h2, h3, h4, h5, h6, h7, h8, h9, h10, h11, h12, h13⟩ := hm
    unfold ltlinkFlag ltlinkFlagRest linkRewrite
    simp only [h1, h2, h3, h4, h5, h6, h7, h8, h9, h10, h11, h12, h13, hf, hsup, false_and,
      and_false, or_self, if_false, Bool.true_eq_false]
    by_cases hL : startsWith "-L" a = true
    · simp only [hL, if_true]
    · simp only [hL, Bool.false_eq_true, if_false]
      by_cases hW : startsWith "-Wc," a = true
      · simp only [hW, if_true]
      · simp only [hW, Bool.false_eq_true, if_false]
        cases n <;> rfl

theorem ltlinkArg_outCmd (fs : FS) (bb : Bool) (st : LinkState) (a : String)
    (n : Option String) (hsup : a ∉ unsupportedFlags) :
    (ltlinkArg fs bb st a n).1.outCmd = st.outCmd ++ linkRewrite fs bb (a, n) := by
  by_cases hf : isFlag a = true
  · unfold ltlinkArg
    rw [if_pos hf]
    exact ltlinkArg_outCmd_flag st a n hsup fs bb hf
  · simp only [Bool.not_eq_true] at hf
    unfold ltlinkArg ltlinkFile linkRewrite fileRewrite
    simp only [hf, Bool.false_eq_true, if_false, if_true]
    by_cases hlo : hasExt a ".lo" = true
    · simp only [hlo, if_true]
    · simp only [hlo, Bool.false_eq_true, if_false]
      by_cases hla : hasExt a ".la" = true
      · simp only [hla, if_true]
        by_cases hacc : accessOk fs (dirname a ++ "/.libs/" ++ cutAtLastDot (basename a) ++ ".so")
            = true
        · simp [hacc]
        · simp [hacc]
      · simp only [hla, Bool.false_eq_true, if_false]

theorem foldl_inv_mem {σ α : Type} (f : σ → α → σ) (P : σ → Prop) (l : List α)
    (hstep : ∀ s a, a ∈ l → P s → P (f s a)) (s : σ) (hs : P s) : P (l.foldl f s) := by
  induction l generalizing s with
  | nil => exact hs
  | cons a l ih =>
    exact ih (fun s b hb => hstep s b (List.mem_cons_of_mem _ hb)) _
      (hstep s a (List.mem_cons_self _ _) hs)

theorem ltlinkArg_insane (fs : FS) (bb : Bool) (st : LinkState) (a : String)
    (n : Option String) (hsup : a ∉ unsupportedFlags) :
    (ltlinkArg fs bb st a n).1.insane = st.insane := by
  unfold ltlinkArg
  split_ifs
  · unfold ltlinkFlag
    split_ifs
    any_goals rfl
    unfold ltlinkFlagRest
    simp only [hsup, if_false]
    split_ifs <;> rfl
  · unfold ltlinkFile
    split_ifs <;> rfl

/-- C12: for a link command whose argument loop reads no unsupported flag, the link command
after the loop is the driver name, `-L.libs`, and then, in input order, what each argument
read contributes by the table `linkRewrite`: `-all-static` gives `-static`,
`-export-dynamic` gives `-rdynamic`, `-L<path>` gives itself and `-L<path>/.libs`,
`-Wc,<rest>` gives `<rest>`, `-Xcompiler` and `-XCClinker` give their argument, `-o <name>`
gives `-o <name>`, `-rpath`, `-version-info`, `-bindir`, `-export-symbols` and
`-export-symbols-regex` give nothing and take their argument along, `-no-fast-install`,
`-no-install` and `-no-undefined` give nothing, and any other flag gives itself.  Such a
command is not handed to the reference libtool by the loop. -/
theorem C12_link_rewrite (fs : FS) (cc : String) (args : List String)
    (hsup : ∀ p ∈ visited linkOptionsWithArg args, p.1 ∉ unsupportedFlags) :
    (ltlinkParse fs (cc :: args)).outCmd =
      cc :: "-L.libs" ::
        (visited linkOptionsWithArg args).flatMap
          (linkRewrite fs (buildBinaryOf (cc :: args))) ∧
    (ltlinkParse fs (cc :: args)).insane = false := by
  unfold ltlinkParse
  simp only [List.headD_cons, List.tail_cons]
  rw [ltlinkLoop_eq_foldl]
  constructor
  · rw [foldl_append_flatMap
      (fun (s : LinkState) (p : String × Option String) =>
        (ltlinkArg fs (buildBinaryOf (cc :: args)) s p.1 p.2).1)
      LinkState.outCmd (linkRewrite fs (buildBinaryOf (cc :: args))) _
      (fun s p hp => ltlinkArg_outCmd fs _ s p.1 p.2 (hsup p hp))]
    rfl
  · exact foldl_inv_mem
      (fun (s : LinkState) (p : String × Option String) =>
        (ltlinkArg fs (buildBinaryOf (cc :: args)) s p.1 p.2).1)
      (fun s => s.insane = false) _
      (fun s p hp hs => (ltlinkArg_insane fs _ s p.1 p.2 (hsup p hp)).trans hs) _ rfl

/-- C12 at a command that uses most rows of the table. -/
theorem C12_link_rewrite_witness :
    (∀ p ∈ visited linkOptionsWithArg
        ["-all-static", "-export-dynamic", "-Lsub", "-Wc,-O2", "-Xcompiler", "-g", "-rpath",
         "/usr/lib", "-no-undefined", "-o", "prog", "-pthread", "main.o"],
      p.1 ∉ unsupportedFlags) ∧
    (ltlinkParse emptyWorld.fs
      ["cc", "-all-static", "-export-dynamic", "-Lsub", "-Wc,-O2", "-Xcompiler", "-g", "-rpath",
       "/usr/lib", "-no-undefined", "-o", "prog", "-pthread", "main.o"]).outCmd =
      ["cc", "-L.libs", "-static", "-rdynamic", "-Lsub", "-Lsub/.libs", "-O2", "-g", "-o",
       "prog", "-pthread", "main.o"] :=
  ⟨by decide,
   (C12_link_rewrite emptyWorld.fs "cc"
      ["-all-static", "-export-dynamic", "-Lsub", "-Wc,-O2", "-Xcompiler", "-g", "-rpath",
       "/usr/lib", "-no-undefined", "-o", "prog", "-pthread", "main.o"] (by decide)).1.trans
     (by decide)⟩

/-! ## The compiler commands -/

theorem ltcompileArg_out (st : CompileState) (x : String) :
    (ltcompileArg st "-o" (some x)).1 =
      { st with outCmd := st.outCmd ++ ["-o", x], outName := some x,
                outNamePos := st.outCmd.length + 1 } := rfl

theorem ltcompileArg_other (st : CompileState) (a : String) (n : Option String) (out : String)
    (h : outOption (a, n) = false) :
    (ltcompileArg st a n).1.outCmd = st.outCmd ++ compileRewrite out (a, n) ∧
    (ltcompileArg st a n).1.outNamePos = st.outNamePos ∧
    (ltcompileArg st a n).1.outName = st.outName := by
  have ho : ¬ (a = "-o" ∧ n.isSome = true) := by
    intro hc
    simp [outOption, hc.1, hc.2] at h
  by_cases hf : isFlag a = true
  · unfold ltcompileArg ltcompileFlag compileRewrite
    simp only [hf, ho, if_true, if_false]
    by_cases h1 : a = "-prefer-pic" ∨ a = "-shared"
    · rcases h1 with h1 | h1 <;> subst h1 <;> simp
    · by_cases h2 : a = "-prefer-non-pic" ∨ a = "-static"
      · rcases h2 with h2 | h2 <;> subst h2 <;> simp
      · simp only [not_or] at h1 h2
        simp only [h1.1, h1.2, h2.1, h2.2, false_or, if_false, or_self]
        by_cases hW : startsWith "-Wc," a = true
        · have hns : a ≠ "-no-suppress" := by rintro rfl; revert hW; decide
          simp [hW, hns]
        · simp only [hW, Bool.false_eq_true, if_false]
          by_cases hns : a = "-no-suppress"
          · simp [hns]
          · simp [hns]
  · have hne : ∀ s : String, isFlag s = true → a ≠ s := by
      rintro s hs rfl; exact hf hs
    unfold ltcompileArg compileRewrite
    have hW : startsWith "-Wc," a = false := by
      cases hW : startsWith "-Wc," a with
      | false => rfl
      | true =>
        exfalso
        apply hf
        unfold startsWith at hW
        rw [List.isPrefixOf_iff_prefix] at hW
        obtain ⟨t, ht⟩ := hW
        unfold isFlag
        rw [← ht]
        rfl
    simp only [hf, Bool.false_eq_true, if_false, ho, hW,
      hne "-prefer-pic" (by decide), hne "-shared" (by decide),
      hne "-prefer-non-pic" (by decide), hne "-static" (by decide),
      hne "-no-suppress" (by decide), or_self]
    exact ⟨trivial, trivial, trivial⟩

theorem compileFold_none (out : String) (L : List (String × Option String))
    (h : ∀ p ∈ L, outOption p = false) (st : CompileState) :
    (L.foldl (fun s p => (ltcompileArg s p.1 p.2).1) st).outCmd =
      st.outCmd ++ L.flatMap (compileRewrite out) ∧
    (L.foldl (fun s p => (ltcompileArg s p.1 p.2).1) st).outNamePos = st.outNamePos ∧
    (L.foldl (fun s p => (ltcompileArg s p.1 p.2).1) st).outName = st.outName := by
  induction L generalizing st with
  | nil => simp
  | cons p L ih =>
    obtain ⟨h1, h2, h3⟩ := ltcompileArg_other st p.1 p.2 out (h p (List.mem_cons_self _ _))
    obtain ⟨i1, i2, i3⟩ := ih (fun q hq => h q (List.mem_cons_of_mem _ hq))
      (ltcompileArg st p.1 p.2).1
    simp only [List.foldl_cons, List.flatMap_cons]
    exact ⟨by rw [i1, h1, List.append_assoc], by rw [i2, h2], by rw [i3, h3]⟩

theorem compileFold_one (out : String) (L : List (String × Option String))
    (h : (L.filter outOption).length = 1) (st : CompileState) :
    (L.foldl (fun s p => (ltcompileArg s p.1 p.2).1) st).outCmd.set
        (L.foldl (fun s p => (ltcompileArg s p.1 p.2).1) st).outNamePos out =
      st.outCmd ++ L.flatMap (compileRewrite out) ∧
    (L.foldl (fun s p => (ltcompileArg s p.1 p.2).1) st).outNamePos <
      (L.foldl (fun s p => (ltcompileArg s p.1 p.2).1) st).outCmd.length ∧
    (L.foldl (fun s p => (ltcompileArg s p.1 p.2).1) st).outName.isSome = true := by
  induction L generalizing st with
  | nil => simp at h
  | cons p L ih =>
    by_cases hp : outOption p = true
    · have hL : ∀ q ∈ L, outOption q = false := by
        have : (L.filter outOption) = [] := by
          simp only [List.filter_cons, hp, if_true, List.length_cons] at h
          exact List.length_eq_zero.mp (by omega)
        intro q hq
        have := List.filter_eq_nil_iff.mp this q hq
        simpa using this
      obtain ⟨a, n⟩ := p
      simp only [outOption, Bool.and_eq_true, decide_eq_true_eq] at hp
      obtain ⟨rfl, hn⟩ := hp
      obtain ⟨x, rfl⟩ := Option.isSome_iff_exists.mp hn
      obtain ⟨i1, i2, i3⟩ := compileFold_none out L hL (ltcompileArg st "-o" (some x)).1
      simp only [List.foldl_cons, List.flatMap_cons]
      rw [i1, i2, i3, ltcompileArg_out]
      refine ⟨?_, ?_, rfl⟩
      · simp only [compileRewrite, Option.isSome_some, and_self, if_true]
        rw [List.set_append_left _ _ (by simp), List.set_append_right _ _ (by simp)]
        simp
      · simp
    · simp only [Bool.not_eq_true] at hp
      have hL : (L.filter outOption).length = 1 := by
        simpa [List.filter_cons, hp] using h
      obtain ⟨h1, h2, h3⟩ := ltcompileArg_other st p.1 p.2 out hp
      obtain ⟨i1, i2, i3⟩ := ih hL (ltcompileArg st p.1 p.2).1
      simp only [List.foldl_cons, List.flatMap_cons]
      exact ⟨by rw [i1, h1, List.append_assoc], i2, i3⟩

theorem visited_mem (W : List String) (l : List String) (p : String × Option String)
    (h : p ∈ visited W l) : p.1 ∈ l := by
  induction l using visited.induct W with
  | case1 => simp [visited] at h
  | case2 a => simp [visited] at h; simp [h]
  | case3 a n rest hm ih =>
    simp only [visited, hm, if_true, List.mem_cons] at h
    rcases h with h | h
    · simp [h]
    · exact List.mem_cons_of_mem _ (List.mem_cons_of_mem _ (ih h))
  | case4 a n rest hm ih =>
    simp only [visited, hm, if_false, List.mem_cons] at h
    rcases h with h | h
    · simp [h]
    · exact List.mem_cons_of_mem _ (ih h)

theorem startsWith_split (p a : String) (h : startsWith p a = true) :
    a = p ++ strFrom a p.data.length := by
  unfold startsWith at h
  rw [List.isPrefixOf_iff_prefix] at h
  obtain ⟨t, ht⟩ := h
  apply String.ext
  rw [String.data_append, strFrom, ← ht]
  simp

theorem ltcompileParse_cons (cc : String) (args : List String) :
    ltcompileParse (cc :: args) =
      (visited compileOptionsWithArg args).foldl (fun s p => (ltcompileArg s p.1 p.2).1)
        { outCmd := [cc], outName := none, outNamePos := 0,
          preferPic := false, preferNonPic := false, inName := none } := by
  unfold ltcompileParse
  rw [ltcompileLoop_eq_foldl]
  rfl

/-- The shape of a compiler command of `ltcompile` with output `out`, for a command that has
at most one `-o` with an argument: the first word, the rewriting of every argument read, and
`-o out` at the end when there was no `-o`. -/
theorem compile_command_shape (cc : String) (args : List String) (out : String)
    (hone : ((visited compileOptionsWithArg args).filter outOption).length ≤ 1) :
    (compileBuffer (cc :: args)).set (compileSlot (cc :: args)) out =
      cc :: (visited compileOptionsWithArg args).flatMap (compileRewrite out) ++
        (if (visited compileOptionsWithArg args).any outOption then [] else ["-o", out]) ∧
    compileSlot (cc :: args) < (compileBuffer (cc :: args)).length := by
  unfold compileBuffer compileSlot
  rw [ltcompileParse_cons]
  by_cases h0 : ((visited compileOptionsWithArg args).filter outOption).length = 0
  · have hnone : ∀ p ∈ visited compileOptionsWithArg args, outOption p = false := by
      intro p hp
      have := List.filter_eq_nil_iff.mp (List.length_eq_zero.mp h0) p hp
      simpa using this
    have hany : (visited compileOptionsWithArg args).any outOption = false := by
      rw [Bool.eq_false_iff]
      intro h
      obtain ⟨p, hp, hq⟩ := List.any_eq_true.mp h
      rw [hnone p hp] at hq
      exact absurd hq (by decide)
    obtain ⟨i1, _, i3⟩ := compileFold_none out _ hnone
      { outCmd := [cc], outName := none, outNamePos := 0,
        preferPic := false, preferNonPic := false, inName := none }
    simp only [i3, hany, Bool.false_eq_true, if_false]
    rw [i1]
    constructor
    · rw [List.set_append_right _ _ (by omega)]
      simp
    · simp
  · have h1 : ((visited compileOptionsWithArg args).filter outOption).length = 1 := by omega
    have hany : (visited compileOptionsWithArg args).any outOption = true := by
      cases hf : (visited compileOptionsWithArg args).filter outOption with
      | nil => rw [hf] at h1; simp at h1
      | cons p t =>
        have hp : p ∈ (visited compileOptionsWithArg args).filter outOption := by
          rw [hf]; exact List.mem_cons_self _ _
        rw [List.mem_filter] at hp
        exact List.any_eq_true.mpr ⟨p, hp.1, hp.2⟩
    obtain ⟨i1, i2, i3⟩ := compileFold_one out _ h1
      { outCmd := [cc], outName := none, outNamePos := 0,
        preferPic := false, preferNonPic := false, inName := none }
    obtain ⟨o, ho⟩ := Option.isSome_iff_exists.mp i3
    simp only [ho, hany, if_true, List.append_nil]
    exact ⟨by rw [i1]; rfl, i2⟩

theorem length_nonPicFileOf (out : String) : 12 ≤ (nonPicFileOf out).length := by
  unfold nonPicFileOf
  simp only [String.length_append]
  have h1 : ("/.libs" : String).length = 6 := rfl
  have h2 : ("/" : String).length = 1 := rfl
  have h3 : (".st.o" : String).length = 5 := rfl
  omega

/-- C13: for a compile command with at most one `-o`, the non-PIC compiler command is
`cmd[0]` followed, in input order, by what each argument read contributes by the table
`compileRewrite` (`-o <name>` gives `-o` and the non-PIC object path, `-Wc,<rest>` gives
`<rest>`, the preference flags and `-no-suppress` give nothing, anything else gives
itself), with `-o` and the non-PIC object path appended when there was no `-o`; the PIC
command is the same list with the PIC object path in place of the non-PIC one and `-fPIC`,
`-DPIC` as its last two words.  These are the commands run for an accepted command (one
that has a source file).  `-fPIC` and `-DPIC` stand in the non-PIC command only when the
command line has them, as a word or wrapped in `-Wc,`. -/
theorem C13_compile_commands (env : Env) (opt : Options) (w : World)
    (cc : String) (args : List String) (hcmd : opt.cmd = cc :: args)
    (hone : ((visited compileOptionsWithArg args).filter
      (fun p => decide (p.1 = "-o") && p.2.isSome)).length ≤ 1) :
    nonPicCommand opt.cmd =
      cc :: (visited compileOptionsWithArg args).flatMap
          (compileRewrite (nonPicFileOf (compileOutput opt.cmd))) ++
        (if (visited compileOptionsWithArg args).any
            (fun p => decide (p.1 = "-o") && p.2.isSome) then []
         else ["-o", nonPicFileOf (compileOutput opt.cmd)]) ∧
    picCommand opt.cmd =
      cc :: (visited compileOptionsWithArg args).flatMap
          (compileRewrite (picFileOf (compileOutput opt.cmd))) ++
        (if (visited compileOptionsWithArg args).any
            (fun p => decide (p.1 = "-o") && p.2.isSome) then []
         else ["-o", picFileOf (compileOutput opt.cmd)]) ++ ["-fPIC", "-DPIC"] ∧
    (ChildrenSucceed env → opt.dryRun = false → compileAccepts opt.cmd = true →
      execsOf (ltcompile env opt w).world.trace =
        execsOf w.trace ++
          (if prefersPic opt.cmd && !prefersNonPic opt.cmd then [] else [nonPicCommand opt.cmd]) ++
          (if prefersNonPic opt.cmd && !prefersPic opt.cmd then [] else [picCommand opt.cmd])) ∧
    (∀ flag, flag = "-fPIC" ∨ flag = "-DPIC" → flag ∈ nonPicCommand opt.cmd →
      flag ∈ opt.cmd ∨ "-Wc," ++ flag ∈ opt.cmd) := by
  have hfun : (fun p : String × Option String => decide (p.1 = "-o") && p.2.isSome) =
      outOption := rfl
  rw [hfun] at hone ⊢
  have hshapeN := compile_command_shape cc args (nonPicFileOf (compileOutput opt.cmd)) hone
  have hshapeP := compile_command_shape cc args (picFileOf (compileOutput opt.cmd)) hone
  have hN : nonPicCommand opt.cmd =
      cc :: (visited compileOptionsWithArg args).flatMap
          (compileRewrite (nonPicFileOf (compileOutput opt.cmd))) ++
        (if (visited compileOptionsWithArg args).any outOption then []
         else ["-o", nonPicFileOf (compileOutput opt.cmd)]) := by
    unfold nonPicCommand
    rw [← hshapeN.1, hcmd]
  refine ⟨hN, ?_, ?_, ?_⟩
  · unfold picCommand
    rw [← hshapeP.1, hcmd, List.set_append_left _ _ hshapeP.2]
  · intro hrun hdry hacc
    obtain ⟨fs1, last, hw, hlast⟩ := ltcompile_trace env opt w hacc (Or.inr hrun)
    have hle : execsOf [last] = [] := by
      rcases hlast with ⟨h, _⟩ | ⟨h, _⟩ <;> subst h <;> rfl
    have hde : execsOf (compileDiag opt.cmd) = [] := by
      unfold compileDiag; split <;> rfl
    rw [hw]
    simp only [execsOf_append, execsOf_compileBuildTrace _ _ _ _ _ _ hdry, hle, hde,
      List.append_nil, nonPicCommand, picCommand]
    cases prefersPic opt.cmd <;> cases prefersNonPic opt.cmd <;> simp
  · intro flag hflag hmem
    have hlen : flag.length = 5 := by
      rcases hflag with h | h <;> subst h <;> rfl
    have hnp : flag ≠ nonPicFileOf (compileOutput opt.cmd) := by
      intro h
      have := length_nonPicFileOf (compileOutput opt.cmd)
      rw [← h] at this
      omega
    have ho : flag ≠ "-o" := by
      rcases hflag with h | h <;> subst h <;> decide
    rw [hN] at hmem
    simp only [List.cons_append, List.mem_cons, List.mem_append, List.mem_flatMap] at hmem
    rcases hmem with h | ⟨p, hp, hin⟩ | h
    · left; rw [hcmd, h]; exact List.mem_cons_self _ _
    · have hp1 : p.1 ∈ opt.cmd := by
        rw [hcmd]
        exact List.mem_cons_of_mem _ (visited_mem _ _ p hp)
      unfold compileRewrite at hin
      split_ifs at hin with h1 h2 h3
      · simp only [List.mem_cons, List.mem_singleton, List.mem_nil_iff, or_false] at hin
        rcases hin with h | h
        · exact absurd h ho
        · exact absurd h hnp
      · simp at hin
      · simp only [List.mem_singleton] at hin
        right
        have := startsWith_split "-Wc," p.1 h3
        rw [hin]
        have h4 : ("-Wc," : String).data.length = 4 := rfl
        rw [h4] at this
        rw [← this]
        exact hp1
      · simp only [List.mem_singleton] at hin
        left; rw [hin]; exact hp1
    · split_ifs at h
      · simp at h
      · simp only [List.mem_cons, List.mem_singleton, List.mem_nil_iff, or_false] at h
        rcases h with h | h
        · exact absurd h ho
        · exact absurd h hnp

/-- C13 at `cc -prefer-pic -Wc,-O2 -c foo.c -o foo.lo`. -/
theorem C13_compile_commands_witness :
    ((mkOptions false "compile" ["cc", "-prefer-pic", "-Wc,-O2", "-c", "foo.c", "-o", "foo.lo"]).cmd
        = "cc" :: ["-prefer-pic", "-Wc,-O2", "-c", "foo.c", "-o", "foo.lo"] ∧
      ((visited compileOptionsWithArg ["-prefer-pic", "-Wc,-O2", "-c", "foo.c", "-o", "foo.lo"]).filter
        (fun p => decide (p.1 = "-o") && p.2.isSome)).length ≤ 1) ∧
    nonPicCommand ["cc", "-prefer-pic", "-Wc,-O2", "-c", "foo.c", "-o", "foo.lo"] =
      ["cc", "-O2", "-c", "foo.c", "-o", "./.libs/foo.st.o"] ∧
    picCommand ["cc", "-prefer-pic", "-Wc,-O2", "-c", "foo.c", "-o", "foo.lo"] =
      ["cc", "-O2", "-c", "foo.c", "-o", "./.libs/foo.sh.o", "-fPIC", "-DPIC"] :=
  ⟨⟨rfl, by decide⟩,
   (C13_compile_commands idealTools
      (mkOptions false "compile" ["cc", "-prefer-pic", "-Wc,-O2", "-c", "foo.c", "-o", "foo.lo"])
      emptyWorld "cc" ["-prefer-pic", "-Wc,-O2", "-c", "foo.c", "-o", "foo.lo"] rfl
      (by decide)).1.trans (by decide),
   (C13_compile_commands idealTools
      (mkOptions false "compile" ["cc", "-prefer-pic", "-Wc,-O2", "-c", "foo.c", "-o", "foo.lo"])
      emptyWorld "cc" ["-prefer-pic", "-Wc,-O2", "-c", "foo.c", "-o", "foo.lo"] rfl
      (by decide)).2.1.trans (by decide)⟩

/-! ## Usage errors of compile mode -/

theorem ltcompileArg_inName (st : CompileState) (a : String) (n : Option String) :
    (ltcompileArg st a n).1.inName.isSome = (st.inName.isSome || !isFlag a) := by
  unfold ltcompileArg
  by_cases hf : isFlag a = true
  · simp only [hf, if_true, Bool.not_true, Bool.or_false]
    unfold ltcompileFlag
    split_ifs <;> rfl
  · simp [hf]

theorem ltcompileParse_inName (cmd : List String) :
    (ltcompileParse cmd).inName.isSome =
      (visited compileOptionsWithArg cmd.tail).any (fun p => !isFlag p.1) := by
  unfold ltcompileParse
  rw [ltcompileLoop_eq_foldl,
    foldl_proj (fun (s : CompileState) => s.inName.isSome)
      (fun (s : CompileState) (p : String × Option String) => (ltcompileArg s p.1 p.2).1)
      (fun (b : Bool) (p : String × Option String) => b || !isFlag p.1)
      (fun s p => ltcompileArg_inName s p.1 p.2),
    foldl_or_eq_any]
  rfl

theorem ltcompileArg_outName (st : CompileState) (a : String) (n : Option String) :
    (ltcompileArg st a n).1.outName = lastOutStep st.outName (a, n) := by
  by_cases ho : a = "-o"
  · subst ho
    cases n <;> rfl
  · unfold ltcompileArg ltcompileFlag lastOutStep
    simp only [ho, false_and, if_false]
    split_ifs <;> rfl

theorem ltcompileParse_outName (cmd : List String) :
    (ltcompileParse cmd).outName =
      (visited compileOptionsWithArg cmd.tail).foldl lastOutStep none := by
  unfold ltcompileParse
  rw [ltcompileLoop_eq_foldl,
    foldl_proj CompileState.outName
      (fun (s : CompileState) (p : String × Option String) => (ltcompileArg s p.1 p.2).1)
      lastOutStep (fun s p => ltcompileArg_outName s p.1 p.2)]

/-- A compile command is rejected exactly when the loop reads no argument that is not a
flag, or the name of the last `-o` it reads does not have the extension `.lo`. -/
theorem compileAccepts_false_iff (cmd : List String) :
    compileAccepts cmd = false ↔
      ((∀ p ∈ visited compileOptionsWithArg cmd.tail, isFlag p.1 = true) ∨
       ∃ name, (visited compileOptionsWithArg cmd.tail).foldl lastOutStep none = some name ∧
         strrchrDot name ≠ some ".lo") := by
  unfold compileAccepts
  rw [ltcompileParse_inName, ltcompileParse_outName]
  have hall : (visited compileOptionsWithArg cmd.tail).any (fun p => !isFlag p.1) = false ↔
      ∀ p ∈ visited compileOptionsWithArg cmd.tail, isFlag p.1 = true := by
    rw [Bool.eq_false_iff, ne_eq, List.any_eq_true]
    constructor
    · intro h p hp
      by_contra hc
      exact h ⟨p, hp, by simpa using hc⟩
    · rintro h ⟨p, hp, hq⟩
      rw [h p hp] at hq
      exact absurd hq (by decide)
  rw [← hall]
  cases (visited compileOptionsWithArg cmd.tail).any (fun p => !isFlag p.1)
  · simp
  · cases (visited compileOptionsWithArg cmd.tail).foldl lastOutStep none with
    | none => simp
    | some name => simp

theorem grows_spawn_call (env : Env) (opt : Options) (v : List (Option String)) (r : Bool)
    (w : World) :
    Grows (fun _ => True) (w.trace ++ [.spawnCall v r]) (spawn env opt v r w) := by
  unfold spawn
  by_cases hq : opt.quiet = true <;> by_cases hd : opt.dryRun = true <;>
    simp only [hq, hd, if_true, if_false, World.log, Bool.false_eq_true]
  · exact ⟨[], by simp [endWorld], by simp⟩
  · cases env.run (cstrv v) w.fs with
    | forkFailed => exact ⟨[.perror "fork"], by simp [endWorld], by simp⟩
    | waitFailed fs =>
      exact ⟨[.exec (cstrv v), .perror ((cstrv v).headD "")],
        by cases r <;> simp [endWorld, execLibtool], by simp⟩
    | exited status fs =>
      exact ⟨[.exec (cstrv v)],
        by by_cases hs : status = 0 <;> cases r <;> simp [endWorld, execLibtool, hs], by simp⟩
  · exact ⟨[.echo (cstrv v)], by simp [endWorld], by simp⟩
  · cases env.run (cstrv v) w.fs with
    | forkFailed => exact ⟨[.echo (cstrv v), .perror "fork"], by simp [endWorld], by simp⟩
    | waitFailed fs =>
      exact ⟨[.echo (cstrv v), .exec (cstrv v), .perror ((cstrv v).headD "")],
        by cases r <;> simp [endWorld, execLibtool], by simp⟩
    | exited status fs =>
      exact ⟨[.echo (cstrv v), .exec (cstrv v)],
        by by_cases hs : status = 0 <;> cases r <;> simp [endWorld, execLibtool, hs], by simp⟩

theorem grows_pure_if (Q : Effect → Prop) (c : Bool) (w1 w2 : World) (e : Effect)
    (h1 : w1.trace = w2.trace ++ [e]) (hq : Q e) :
    Grows Q w2.trace (pure (if c = true then w1 else w2)) := by
  cases c
  · exact ⟨[], by simp [endWorld, pure, Except.pure], by simp⟩
  · exact ⟨[e], by simp [endWorld, pure, Except.pure, h1], by simpa using hq⟩

/-- The build steps of `ltcompile` begin with `mkdir`, or in a dry run with a call of
`spawn`. -/
theorem ltcompileBuild_starts (env : Env) (opt : Options) (oc : List String) (pos : Nat)
    (out : String) (bp bnp : Bool) (w : World) (hb : (bp || bnp) = true) :
    ∃ e rest, (endWorld (ltcompileBuild env opt oc pos out bp bnp w)).trace =
        w.trace ++ e :: rest ∧
      ((∃ p, e = .mkdir p) ∨ ∃ v r, e = .spawnCall v r) := by
  have gN := fun w1 => grows_compileNonPic (fun _ => True) env opt oc pos out bp bnp w1
    trivial (fun _ => trivial) (fun _ => trivial) (fun _ => trivial) (fun _ _ => trivial)
  have gP := fun w1 => grows_compilePic (fun _ => True) env opt oc pos out bp bnp w1
    trivial (fun _ => trivial) (fun _ => trivial) (fun _ => trivial) (fun _ _ => trivial)
  have gW := fun w1 => grows_writeLo (fun _ => True) out w1 trivial (fun _ => trivial)
  have gPW : ∀ w1, Grows (fun _ => True) w1.trace
      (compilePic env opt oc pos out bp bnp w1 >>= fun w2 => writeLo out w2) :=
    fun w1 => grows_bind _ _ _ _ (gP w1) gW
  have hfrom : ∀ (e : Effect) (r : Except Result World),
      Grows (fun _ => True) (w.trace ++ [e]) r → ∃ rest, (endWorld r).trace = w.trace ++ e :: rest := by
    rintro e r ⟨x, hx, _⟩
    exact ⟨x, by rw [hx]; simp⟩
  unfold ltcompileBuild
  by_cases hd : opt.dryRun = true
  · simp only [hd, if_true]
    cases bnp
    · have hbp : bp = true := by simpa using hb
      subst hbp
      have hN : compileNonPic env opt oc pos out true false w = pure w := by
        simp [compileNonPic]
      rw [hN]
      have hP : Grows (fun _ => True)
          (w.trace ++ [.spawnCall
            (nullTerminated ((oc ++ ["-fPIC", "-DPIC"]).set pos (picFileOf out))) false])
          (compilePic env opt oc pos out true false w) := by
        unfold compilePic
        simp only [if_true]
        apply grows_bind _ _ _ _ (grows_spawn_call env opt _ false w)
        intro w1
        exact grows_pure_if _ _ _ w1 (.link (picFileOf out) (nonPicFileOf out))
          (sysLink_trace _ _ _) trivial
      obtain ⟨rest, hr⟩ := hfrom _ _ (grows_bind _ _ _ _ hP gW)
      exact ⟨_, rest, hr, Or.inr ⟨_, _, rfl⟩⟩
    · have hNP : Grows (fun _ => True)
          (w.trace ++ [.spawnCall (nullTerminated (oc.set pos (nonPicFileOf out))) false])
          (compileNonPic env opt oc pos out bp true w) := by
        unfold compileNonPic
        simp only [if_true]
        apply grows_bind _ _ _ _ (grows_spawn_call env opt _ false w)
        intro w1
        exact grows_pure_if _ _ _ w1 (.link (nonPicFileOf out) (picFileOf out))
          (sysLink_trace _ _ _) trivial
      obtain ⟨rest, hr⟩ := hfrom _ _ (grows_bind _ _ _ _ hNP gPW)
      exact ⟨_, rest, hr, Or.inr ⟨_, _, rfl⟩⟩
  · simp only [hd, if_false]
    have hg := grows_bind (fun _ => True) _ _ _
      (gN (sysMkdir (dirname out ++ "/.libs") w)) gPW
    rw [sysMkdir_trace] at hg
    obtain ⟨rest, hr⟩ := hfrom _ _ hg
    exact ⟨_, rest, hr, Or.inl ⟨_, rfl⟩⟩

theorem changesOf_diags (ds : List Effect) (h : ∀ e ∈ ds, ∃ t, e = Effect.diag t) :
    changesOf ds = [] ∧ spawnCallsOf ds = [] := by
  induction ds with
  | nil => exact ⟨rfl, rfl⟩
  | cons d ds ih =>
    obtain ⟨t, rfl⟩ := h d (List.mem_cons_self _ _)
    obtain ⟨i1, i2⟩ := ih (fun e he => h e (List.mem_cons_of_mem _ he))
    constructor
    · show changesOf ([Effect.diag t] ++ ds) = []
      rw [changesOf_append, i1]; rfl
    · show spawnCallsOf ([Effect.diag t] ++ ds) = []
      rw [spawnCallsOf_append, i2]; rfl

theorem exitsOnly_bind (a : Except Result World) (f : World → Except Result World)
    (ha : ExitsOnly a) (hf : ∀ w1, ExitsOnly (f w1)) : ExitsOnly (a >>= f) := by
  cases a with
  | error e => exact ha
  | ok w1 => exact hf w1

theorem exitsOnly_spawn (env : Env) (opt : Options) (v : List (Option String)) (w : World) :
    ExitsOnly (spawn env opt v false w) := by
  unfold spawn
  by_cases hd : opt.dryRun = true
  · simp [hd, ExitsOnly]
  · simp only [hd, Bool.false_eq_true, if_false]
    split
    · rfl
    · rfl
    · split_ifs <;> trivial

theorem exitsOnly_ltcompileBuild (env : Env) (opt : Options) (oc : List String) (pos : Nat)
    (out : String) (bp bnp : Bool) (w : World) :
    ExitsOnly (ltcompileBuild env opt oc pos out bp bnp w) := by
  unfold ltcompileBuild
  apply exitsOnly_bind
  · unfold compileNonPic
    cases bnp
    · trivial
    · exact exitsOnly_bind _ _ (exitsOnly_spawn env opt _ _) (fun _ => trivial)
  · intro w1
    apply exitsOnly_bind
    · unfold compilePic
      cases bp
      · trivial
      · exact exitsOnly_bind _ _ (exitsOnly_spawn env opt _ _) (fun _ => trivial)
    · intro w2
      unfold writeLo
      split
      · rfl
      · trivial

theorem ltcompile_outcome (env : Env) (opt : Options) (w : World) :
    (ltcompile env opt w).outcome = .returned ∨ (ltcompile env opt w).outcome = .exited 1 := by
  by_cases hacc : compileAccepts opt.cmd = true
  · rw [ltcompile_eq_build env opt w hacc]
    have h := exitsOnly_ltcompileBuild env opt (compileBuffer opt.cmd) (compileSlot opt.cmd)
      (compileOutput opt.cmd) (!(prefersNonPic opt.cmd && !prefersPic opt.cmd))
      (!(prefersPic opt.cmd && !prefersNonPic opt.cmd))
      { fs := w.fs, trace := w.trace ++ compileDiag opt.cmd }
    revert h
    cases ltcompileBuild env opt (compileBuffer opt.cmd) (compileSlot opt.cmd)
      (compileOutput opt.cmd) (!(prefersNonPic opt.cmd && !prefersPic opt.cmd))
      (!(prefersPic opt.cmd && !prefersNonPic opt.cmd))
      { fs := w.fs, trace := w.trace ++ compileDiag opt.cmd } with
    | ok w1 => intro _; exact Or.inl rfl
    | error e => intro h; exact Or.inr h
  · simp only [Bool.not_eq_true] at hacc
    obtain ⟨ds, hds, _⟩ := ltcompile_rejects env opt w hacc
    rw [hds]
    exact Or.inr rfl

/-- A build of `ltcompile` that goes on to the end, not dry, has run a child that exited
with status 0. -/
theorem ltcompileBuild_ok_child (env : Env) (opt : Options) (oc : List String) (pos : Nat)
    (out : String) (bp bnp : Bool) (w wf : World) (hb : (bp || bnp) = true)
    (hdry : opt.dryRun = false)
    (h : ltcompileBuild env opt oc pos out bp bnp w = .ok wf) :
    ∃ c fs fs1, env.run c fs = .exited 0 fs1 := by
  unfold ltcompileBuild at h
  obtain ⟨w1, h1, h⟩ := bind_ok_inv _ _ _ h
  obtain ⟨w2, h2, _⟩ := bind_ok_inv _ _ _ h
  cases bnp
  · have hbp : bp = true := by simpa using hb
    subst hbp
    unfold compilePic at h2
    simp only [if_true] at h2
    obtain ⟨w3, h3, _⟩ := bind_ok_inv _ _ _ h2
    obtain ⟨fs1, hrun, _⟩ := spawn_ok_inv env opt _ _ _ _ hdry h3
    exact ⟨_, _, fs1, hrun⟩
  · unfold compileNonPic at h1
    simp only [if_true] at h1
    obtain ⟨w3, h3, _⟩ := bind_ok_inv _ _ _ h1
    obtain ⟨fs1, hrun, _⟩ := spawn_ok_inv env opt _ _ _ _ hdry h3
    exact ⟨_, _, fs1, hrun⟩

/-- C15 (amended): the outcome of `spawn`.  In a dry run it goes on without creating a child.
Otherwise, when `fork` fails the program exits with status 1 whatever the retry flag; when
the wait fails or the status of the child is not 0, the reference libtool is executed with
the original `argv[1..]` if the retry flag is set and the program exits with status 1 if it
is not; when the child exits with status 0 it goes on.  Every call of `spawn` in compile
mode has the retry flag unset, so that `ltcompile` returns or exits with status 1 and never
hands over to the reference libtool, and an accepted compile command whose children all
fail ends in exit status 1. -/
theorem C15_spawn_outcome (env : Env) (opt : Options) (v : List (Option String)) (r : Bool)
    (w : World) :
    (opt.dryRun = true →
      ∃ w2, spawn env opt v r w = .ok w2 ∧ w2.fs = w.fs ∧ execsOf w2.trace = execsOf w.trace) ∧
    (opt.dryRun = false → env.run (cstrv v) w.fs = .forkFailed →
      ∃ w2, spawn env opt v r w = .error { world := w2, outcome := .exited 1 } ∧
        execsOf w2.trace = execsOf w.trace) ∧
    (opt.dryRun = false →
      ((∃ fs1, env.run (cstrv v) w.fs = .waitFailed fs1) ∨
        ∃ s fs1, s ≠ 0 ∧ env.run (cstrv v) w.fs = .exited s fs1) →
      ∃ w2, spawn env opt v r w =
        .error { world := w2,
                 outcome := if r then .execLibtool (opt.argv.get? 1) (opt.argv.drop 1)
                            else .exited 1 }) ∧
    (opt.dryRun = false → ∀ fs1, env.run (cstrv v) w.fs = .exited 0 fs1 →
      ∃ w2, spawn env opt v r w = .ok w2 ∧ w2.fs = fs1) ∧
    (∃ calls, spawnCallsOf (ltcompile env opt w).world.trace = spawnCallsOf w.trace ++ calls ∧
      ∀ c ∈ calls, c.2 = false) ∧
    ((ltcompile env opt w).outcome = .returned ∨ (ltcompile env opt w).outcome = .exited 1) ∧
    (opt.dryRun = false → compileAccepts opt.cmd = true →
      (∀ c fs fs1, env.run c fs ≠ .exited 0 fs1) →
      (ltcompile env opt w).outcome = .exited 1) := by
  have hfs : (if opt.quiet = true then w.log (.spawnCall v r)
      else (w.log (.spawnCall v r)).log (.echo (cstrv v))).fs = w.fs := by
    by_cases hq : opt.quiet = true <;> simp [hq, World.log]
  have hex : execsOf (if opt.quiet = true then w.log (.spawnCall v r)
      else (w.log (.spawnCall v r)).log (.echo (cstrv v))).trace = execsOf w.trace := by
    by_cases hq : opt.quiet = true <;> simp [hq, World.log, execsOf, List.filterMap_append]
  refine ⟨?_, ?_, ?_, ?_, ?_, ltcompile_outcome env opt w, ?_⟩
  · intro hd
    unfold spawn
    simp only [hd, if_true]
    exact ⟨_, rfl, hfs, hex⟩
  · intro hd hrun
    unfold spawn
    simp only [hd, Bool.false_eq_true, if_false, hfs, hrun]
    refine ⟨_, rfl, ?_⟩
    show execsOf (_ ++ [Effect.perror "fork"]) = _
    rw [execsOf_append, hex]
    exact List.append_nil _
  · intro hd hrun
    unfold spawn
    simp only [hd, Bool.false_eq_true, if_false, hfs]
    rcases hrun with ⟨fs1, hrun⟩ | ⟨s, fs1, hs, hrun⟩
    · rw [hrun]
      cases r <;> exact ⟨_, rfl⟩
    · rw [hrun]
      cases r <;> simp [hs, execLibtool]
  · intro hd fs1 hrun
    unfold spawn
    simp only [hd, Bool.false_eq_true, if_false, hfs, hrun, ne_eq, not_true_eq_false]
    exact ⟨_, rfl, rfl⟩
  · obtain ⟨extra, hx, hq⟩ := ltcompile_events env opt w
    refine ⟨spawnCallsOf extra, by rw [hx, spawnCallsOf_append], ?_⟩
    intro c hc
    rw [mem_spawnCallsOf] at hc
    exact (hq _ hc).1
  · intro hd hacc hfail
    rcases ltcompile_outcome env opt w with h | h
    · exfalso
      rw [ltcompile_eq_build env opt w hacc] at h
      cases hb : ltcompileBuild env opt (compileBuffer opt.cmd) (compileSlot opt.cmd)
        (compileOutput opt.cmd) (!(prefersNonPic opt.cmd && !prefersPic opt.cmd))
        (!(prefersPic opt.cmd && !prefersNonPic opt.cmd))
        { fs := w.fs, trace := w.trace ++ compileDiag opt.cmd } with
      | ok wf =>
        obtain ⟨c, fs, fs1, hrun⟩ := ltcompileBuild_ok_child env opt _ _ _ _ _ _ wf
          (by cases prefersNonPic opt.cmd <;> cases prefersPic opt.cmd <;> rfl) hd hb
        exact hfail c fs fs1 hrun
      | error e =>
        rw [hb] at h
        have he := exitsOnly_ltcompileBuild env opt (compileBuffer opt.cmd)
          (compileSlot opt.cmd) (compileOutput opt.cmd)
          (!(prefersNonPic opt.cmd && !prefersPic opt.cmd))
          (!(prefersPic opt.cmd && !prefersNonPic opt.cmd))
          { fs := w.fs, trace := w.trace ++ compileDiag opt.cmd }
        rw [hb] at he
        simp only [finish] at h
        rw [he] at h
        exact absurd h (by decide)
    · exact h

/-- C15, as stated, fails when `fork` fails: with the retry flag set and no dry run, `spawn`
neither goes on nor hands over to the reference libtool, the program exits with status 1
and no child has run; so does a link of a program against `libbar.la` without a shared
object, a run whose retry flag is set. -/
theorem C15_fork_failure_counterexample :
    (finish (spawn forkFails (mkOptions false "link" ["cc", "-o", "prog", "main.o"])
      (nullTerminated ["cc", "-L.libs", "-o", "prog", "main.o"]) true emptyWorld)).outcome =
      .exited 1 ∧
    execsOf (finish (spawn forkFails (mkOptions false "link" ["cc", "-o", "prog", "main.o"])
      (nullTerminated ["cc", "-L.libs", "-o", "prog", "main.o"]) true emptyWorld)).world.trace
      = [] ∧
    (ltlinkParse emptyWorld.fs ["cc", "-o", "prog", "main.o", "libbar.la"]).retryIfFail = true ∧
    (ltlink forkFails (mkOptions false "link" ["cc", "-o", "prog", "main.o", "libbar.la"])
      emptyWorld).outcome = .exited 1 ∧
    (ltlink failingTools (mkOptions false "link" ["cc", "-o", "prog", "main.o", "libbar.la"])
      emptyWorld).outcome =
      .execLibtool (some "libtool")
        ["libtool", "--mode=link", "cc", "-o", "prog", "main.o", "libbar.la"] := by
  decide

/-! ## The read loop of the probe terminates -/

theorem lineLength_le (buf : List Char) (n : Nat) : lineLength buf n ≤ n := by
  induction buf generalizing n with
  | nil => cases n <;> simp [lineLength]
  | cons c cs ih =>
    cases n with
    | zero => simp [lineLength]
    | succ n =>
      unfold lineLength
      split_ifs
      · omega
      · have := ih n; omega

theorem scanStep_bufused (st : ScanState) (got : List Char)
    (h : st.bufused + got.length ≠ 0) :
    (scanStep st got).bufused < st.bufused + got.length := by
  unfold scanStep
  simp only
  have hle := lineLength_le
    (st.buf.take st.bufused ++ got ++ st.buf.drop (st.bufused + got.length))
    (st.bufused + got.length)
  split_ifs <;> omega

theorem readChunk_measure (count : Nat) (reads : List (List Char)) :
    ((readChunk count reads).2.map List.length).sum + (readChunk count reads).2.length +
      (readChunk count reads).1.length ≤ (reads.map List.length).sum + reads.length := by
  cases reads with
  | nil => simp [readChunk]
  | cons c rest =>
    by_cases h1 : count = 0
    · simp [readChunk, h1]
    · by_cases h2 : c.length ≤ count
      · simp only [readChunk, h1, h2, if_true, if_false, List.map_cons, List.sum_cons,
          List.length_cons]
        omega
      · simp only [readChunk, h1, h2, if_false, List.map_cons, List.sum_cons,
          List.length_cons, List.length_drop, List.length_take]
        omega

/-- With fuel above the measure, the read loop comes to its end. -/
theorem scanLoop_isSome (fuel : Nat) (st : ScanState) (reads : List (List Char))
    (h : scanMeasure st reads < fuel) : (scanLoop fuel st reads).isSome = true := by
  induction fuel generalizing st reads with
  | zero => omega
  | succ fuel ih =>
    unfold scanLoop
    split_ifs with hc
    · apply ih
      have hm := readChunk_measure (BUFSZ - st.bufused) reads
      have hne : st.bufused + (readChunk (BUFSZ - st.bufused) reads).1.length ≠ 0 := by
        rcases hc with hc | hc
        · have : (readChunk (BUFSZ - st.bufused) reads).1.length ≠ 0 := by
            intro h0; exact hc (List.length_eq_zero.mp h0)
          omega
        · omega
      have hb := scanStep_bufused st (readChunk (BUFSZ - st.bufused) reads).1 hne
      unfold scanMeasure at h ⊢
      omega
    · rfl

/-- The read loop of `systemIsSane` terminates: `scan` is its final state. -/
theorem scan_terminates (buf : List Char) (reads : List (List Char)) :
    scanLoop (scanFuel reads) { buf := buf, bufused := 0, sane := false } reads =
      some (scan buf reads) := by
  have h := scanLoop_isSome (scanFuel reads) { buf := buf, bufused := 0, sane := false } reads
    (by unfold scanMeasure scanFuel; simp)
  obtain ⟨st, hst⟩ := Option.isSome_iff_exists.mp h
  unfold scan
  rw [hst]
  rfl

/-! ## The dispatcher -/

theorem scanArgs_mode (st : MainState) (modeArg : String) (cmd : List String)
    (hmode : startsWith "--mode=" modeArg = true) (hcmd : cmd ≠ []) :
    scanArgs st (modeArg :: cmd) = .mode st (strFrom modeArg 7) cmd := by
  have hne : ∀ s : String, startsWith "--mode=" s = false → modeArg ≠ s := by
    rintro s hs rfl; rw [hmode] at hs; exact absurd hs (by decide)
  unfold scanArgs
  simp only [hne "-n" (by decide), hne "--dry-run" (by decide), hne "--quiet" (by decide),
    hne "--silent" (by decide), hne "--no-quiet" (by decide), hne "--no-silent" (by decide),
    hne "--version" (by decide), hne "-h" (by decide), hne "--help" (by decide), or_self,
    if_false, hmode, hcmd, ne_eq, not_false_eq_true, and_self, if_true]

/-- The option loop of `main` on options that do not end it, followed by `--mode=` and a
tool command: the loop ends at the mode, with `insane` set when one of the options was not
recognised. -/
theorem scanArgs_options (pre : List String) (modeArg : String) (cmd : List String)
    (hpre : ∀ a ∈ pre, a ≠ "--version" ∧ a ≠ "-h" ∧ a ≠ "--help" ∧
      startsWith "--mode=" a = false)
    (hmode : startsWith "--mode=" modeArg = true) (hcmd : cmd ≠ []) (st : MainState) :
    ∃ st1, scanArgs st (pre ++ modeArg :: cmd) = .mode st1 (strFrom modeArg 7) cmd ∧
      st1.insane = (st.insane || pre.any (fun a => !recognizedOption a)) := by
  induction pre generalizing st with
  | nil => exact ⟨st, scanArgs_mode st modeArg cmd hmode hcmd, by simp⟩
  | cons a pre ih =>
    obtain ⟨h1, h2, h3, h4⟩ := hpre a (List.mem_cons_self _ _)
    have hrest := fun b hb => hpre b (List.mem_cons_of_mem _ hb)
    simp only [List.cons_append, List.any_cons]
    unfold scanArgs
    simp only [h1, h2, h3, h4, or_self, if_false, Bool.false_eq_true, false_and]
    by_cases c1 : a = "-n" ∨ a = "--dry-run"
    · obtain ⟨st1, e1, e2⟩ := ih hrest { st with dryRun := true }
      have hr : recognizedOption a = true := by
        rcases c1 with h | h <;> subst h <;> decide
      exact ⟨st1, by simp only [c1, if_true]; exact e1, by rw [e2, hr]; simp⟩
    · simp only [c1, if_false]
      by_cases c2 : a = "--quiet" ∨ a = "--silent"
      · obtain ⟨st1, e1, e2⟩ := ih hrest { st with quiet := true }
        have hr : recognizedOption a = true := by
          rcases c2 with h | h <;> subst h <;> decide
        exact ⟨st1, by simp only [c2, if_true]; exact e1, by rw [e2, hr]; simp⟩
      · simp only [c2, if_false]
        by_cases c3 : a = "--no-quiet" ∨ a = "--no-silent"
        · obtain ⟨st1, e1, e2⟩ := ih hrest { st with quiet := false }
          have hr : recognizedOption a = true := by
            rcases c3 with h | h <;> subst h <;> decide
          exact ⟨st1, by simp only [c3, if_true]; exact e1, by rw [e2, hr]; simp⟩
        · simp only [c3, if_false]
          by_cases c4 : startsWith "--tag=" a = true ∨ a = "-v" ∨ a = "--verbose" ∨
              a = "--no-verbose"
          · obtain ⟨st1, e1, e2⟩ := ih hrest st
            have hr : recognizedOption a = true := by
              rcases c4 with h | h | h | h
              · simp [recognizedOption, h]
              · subst h; decide
              · subst h; decide
              · subst h; decide
            exact ⟨st1, by simp only [c4, if_true]; exact e1, by rw [e2, hr]; simp⟩
          · obtain ⟨st1, e1, e2⟩ := ih hrest { st with insane := true }
            have hr : recognizedOption a = false := by
              simp only [not_or] at c1 c2 c3 c4
              simp [recognizedOption, c1, c2, c3, c4, h1, h2, h3, h4]
            exact ⟨st1, by simp only [c4, if_false]; exact e1, by rw [e2, hr]; simp⟩

/-- C16: a command line with an option `main` does not recognise before `--mode=<m>`, no
`--version`, `-h` or `--help` before it, and at least one argument after it.  Whatever the
mode, the probe and the tools would do, `main` leaves the world as it is (no probe, no
descriptor check and no translator has run) and executes `argv[1]` with the vector
`argv[1..argc)`. -/
theorem C16_unrecognized_option_fallback (env : Env) (penv : ProbeEnv) (w : World)
    (prog libtool modeArg : String) (pre cmd : List String)
    (hpre : ∀ a ∈ pre, a ≠ "--version" ∧ a ≠ "-h" ∧ a ≠ "--help" ∧
      startsWith "--mode=" a = false)
    (hbad : ∃ a ∈ pre, recognizedOption a = false)
    (hmode : startsWith "--mode=" modeArg = true) (hcmd : cmd ≠ []) :
    main env penv (prog :: libtool :: (pre ++ modeArg :: cmd)) w =
      { world := w,
        outcome := .execLibtool (some libtool) (libtool :: (pre ++ modeArg :: cmd)) } := by
  obtain ⟨st1, e1, e2⟩ := scanArgs_options pre modeArg cmd hpre hmode hcmd
    { dryRun := false, quiet := false, insane := false }
  have hins : st1.insane = true := by
    rw [e2]
    obtain ⟨a, ha, hr⟩ := hbad
    simp only [Bool.false_or, List.any_eq_true]
    exact ⟨a, ha, by simp [hr]⟩
  unfold main
  simp only [List.drop_succ_cons, List.drop_zero, e1, checkSane, hins, if_true, pure,
    Except.pure, dispatch, Bool.not_false, execLibtool]
  rfl

/-- C16 at `mlibtool libtool --frobnicate -n --mode=compile cc -c foo.c`, with a probe that
would find the system sane. -/
theorem C16_unrecognized_option_fallback_witness :
    ((∀ a ∈ ["--frobnicate", "-n"], a ≠ "--version" ∧ a ≠ "-h" ∧ a ≠ "--help" ∧
        startsWith "--mode=" a = false) ∧
      (∃ a ∈ ["--frobnicate", "-n"], recognizedOption a = false) ∧
      startsWith "--mode=" "--mode=compile" = true ∧ ["cc", "-c", "foo.c"] ≠ []) ∧
    main idealTools (probeAnswering ["SYSTEM_IS_SANE\n".data])
        ["mlibtool", "libtool", "--frobnicate", "-n", "--mode=compile", "cc", "-c", "foo.c"]
        emptyWorld =
      { world := emptyWorld,
        outcome := .execLibtool (some "libtool")
          ["libtool", "--frobnicate", "-n", "--mode=compile", "cc", "-c", "foo.c"] } :=
  ⟨⟨by decide, ⟨"--frobnicate", by decide, by decide⟩, by decide, by decide⟩,
   C16_unrecognized_option_fallback idealTools (probeAnswering ["SYSTEM_IS_SANE\n".data])
     emptyWorld "mlibtool" "libtool" "--mode=compile" ["--frobnicate", "-n"]
     ["cc", "-c", "foo.c"] (by decide) ⟨"--frobnicate", by decide, by decide⟩ (by decide)
     (by decide)⟩

/-! ## The descriptor check -/

theorem fgetsLine_eq_iff (l : List Char) (hl : '\n' ∉ l) (n : Nat) (hn : l.length + 1 ≤ n)
    (content : List Char) :
    fgetsLine n content = l ++ ['\n'] ↔ (l ++ ['\n']).isPrefixOf content = true := by
  induction l generalizing n content with
  | nil =>
    obtain ⟨k, rfl⟩ : ∃ k, n = k + 1 := ⟨n - 1, by simp at hn; omega⟩
    cases content with
    | nil => simp [fgetsLine]
    | cons c cs =>
      by_cases hc : c = '\n'
      · simp [fgetsLine, hc]
      · have hc2 : ¬ '\n' = c := fun h => hc h.symm
        simp [fgetsLine, hc, hc2]
  | cons a l ih =>
    obtain ⟨k, rfl⟩ : ∃ k, n = k + 1 := ⟨n - 1, by simp at hn; omega⟩
    have ha : a ≠ '\n' := by
      intro h; apply hl; rw [h]; exact List.mem_cons_self _ _
    have hl2 : '\n' ∉ l := fun h => hl (List.mem_cons_of_mem _ h)
    cases content with
    | nil => simp [fgetsLine]
    | cons c cs =>
      by_cases hc : c = '\n'
      · subst hc
        simp [fgetsLine, ha]
      · have := ih hl2 k (by simp at hn ⊢; omega) cs
        simp only [fgetsLine, hc, if_false, List.cons_append, List.cons.injEq,
          List.isPrefixOf, Bool.and_eq_true, beq_iff_eq]
        rw [this]
        constructor
        · rintro ⟨h1, h2⟩; exact ⟨h1.symm, h2⟩
        · rintro ⟨h1, h2⟩; exact ⟨h1.symm, h2⟩

/-- The test of `checkLoSanity` on an open file finds the file sane exactly when the file
begins with the line `# SYSTEM_IS_SANE`, newline included; for an empty file this holds
when the uninitialised array does not hold that line. -/
theorem headerTest_eq (old content : List Char)
    (h : content ≠ [] ∨ old ≠ SANE_HEADER.data) :
    headerTest old content = SANE_HEADER.data.isPrefixOf content := by
  have hhead : SANE_HEADER.data = "# SYSTEM_IS_SANE".data ++ ['\n'] := by decide
  have hlen : SANE_HEADER.length + 1 - 1 = 17 := by decide
  cases content with
  | nil =>
    have hold : old ≠ SANE_HEADER.data := by
      rcases h with h | h
      · exact absurd rfl h
      · exact h
    simp only [headerTest, fgets, hold, decide_False]
    rw [hhead]
    rfl
  | cons c cs =>
    have hiff := fgetsLine_eq_iff "# SYSTEM_IS_SANE".data (by decide) 17 (by decide) (c :: cs)
    simp only [headerTest, fgets, hlen]
    rw [hhead]
    by_cases hp : ("# SYSTEM_IS_SANE".data ++ ['\n']).isPrefixOf (c :: cs) = true
    · rw [hp]
      exact decide_eq_true (hiff.mpr hp)
    · simp only [Bool.not_eq_true] at hp
      rw [hp]
      exact decide_eq_false (fun h => by rw [hiff.mp h] at hp; exact absurd hp (by decide))

theorem checkLoLoop_eq (fs : FS) (old : List Char) (args : List String) :
    checkLoLoop fs old args =
      match (args.filter fun arg => !isFlag arg && (hasExt arg ".lo" || hasExt arg ".la")).findSome?
          (openRead fs) with
      | some content => (true, headerTest old content)
      | none =>
        (!(args.filter fun arg =>
            !isFlag arg && (hasExt arg ".lo" || hasExt arg ".la")).isEmpty, false) := by
  induction args with
  | nil => rfl
  | cons a rest ih =>
    unfold checkLoLoop
    by_cases hc : (!isFlag a && (hasExt a ".lo" || hasExt a ".la")) = true
    · simp only [hc, if_true, List.filter_cons, List.findSome?_cons]
      cases ho : openRead fs a with
      | some content => rfl
      | none =>
        simp only [ih]
        cases (rest.filter fun arg =>
          !isFlag arg && (hasExt arg ".lo" || hasExt arg ".la")).findSome? (openRead fs) with
        | some content => rfl
        | none => rfl
    · simp only [hc, Bool.false_eq_true, if_false, List.filter_cons]
      exact ih

/-- C17 (amended): `checkLoSanity` with a compiler given.  Among the arguments from index 1
that do not start with `-` and have the last extension `.lo` or `.la`, the first one that can
be opened decides: the value returned is its verdict, the world is untouched and the probe
does not run.  When there is no such argument at all, `checkLoSanity` is `systemIsSane` on
the compiler; when there are such arguments and none can be opened, it returns false
without running the probe.  The verdict of an open file is true exactly when the file
begins with the line `# SYSTEM_IS_SANE` (for an empty file: when the uninitialised array
does not hold it). -/
theorem C17_descriptor_check (penv : ProbeEnv) (opt : Options) (cc : String) (w : World) :
    checkLoSanity penv opt (some cc) w = checkLoSpec penv opt cc w ∧
    (∀ content, content ≠ [] ∨ penv.loBuf ≠ SANE_HEADER.data →
      headerTest penv.loBuf content = SANE_HEADER.data.isPrefixOf content) := by
  refine ⟨?_, fun content h => headerTest_eq _ _ h⟩
  unfold checkLoSanity checkLoSpec descriptorArgs
  simp only [checkLoLoop_eq]
  cases (opt.cmd.tail.filter fun arg =>
      !isFlag arg && (hasExt arg ".lo" || hasExt arg ".la")).findSome? (openRead w.fs) with
  | some content => rfl
  | none =>
    simp only
    cases hf : opt.cmd.tail.filter fun arg =>
        !isFlag arg && (hasExt arg ".lo" || hasExt arg ".la") with
    | nil => simp
    | cons a t => simp

/-- C17, as stated, fails at `cc -o prog foo.lo` when `foo.lo` cannot be opened: the claim
has `checkLoSanity` return what the probe returns, here true, but it returns false and the
probe does not run.  With `foo.lo` missing and `bar.lo` written by `ltcompile`, it returns
the verdict of `bar.lo`. -/
theorem C17_unopenable_descriptor_counterexample :
    descriptorArgs ["cc", "-o", "prog", "foo.lo"] = ["foo.lo"] ∧
    openRead emptyWorld.fs "foo.lo" = none ∧
    verdict (systemIsSane (probeAnswering ["SYSTEM_IS_SANE\n".data]) "cc" emptyWorld) =
      some true ∧
    verdict (checkLoSanity (probeAnswering ["SYSTEM_IS_SANE\n".data])
      (mkOptions false "link" ["cc", "-o", "prog", "foo.lo"]) (some "cc") emptyWorld) =
      some false ∧
    (checkedWorld (checkLoSanity (probeAnswering ["SYSTEM_IS_SANE\n".data])
      (mkOptions false "link" ["cc", "-o", "prog", "foo.lo"]) (some "cc") emptyWorld)).trace =
      [] ∧
    verdict (checkLoSanity (probeAnswering [])
      (mkOptions false "link" ["cc", "-o", "prog", "foo.lo", "bar.lo"]) (some "cc")
      { fs := emptyWorld.fs.set "bar.lo" (some (.file (loContent "bar"))), trace := [] }) =
      some true := by
  decide

/-! ## Descriptors pass the descriptor check -/

theorem headerTest_of_prefix (old : List Char) (rest : String) :
    headerTest old (SANE_HEADER ++ rest).data = true := by
  have hne : (SANE_HEADER ++ rest).data ≠ [] := by
    rw [String.data_append]
    intro h
    have := congrArg List.length h
    simp [SANE_HEADER] at this
  rw [headerTest_eq old _ (Or.inl hne), String.data_append, List.isPrefixOf_iff_prefix]
  exact List.prefix_append _ _

theorem headerTest_loContent (old : List Char) (outBase : String) :
    headerTest old (loContent outBase).data = true := by
  unfold loContent
  simp only [String.append_assoc]
  exact headerTest_of_prefix old _

theorem headerTest_laContent (old : List Char) (names : Option (String × String × String)) :
    headerTest old (laContent names).data = true := by
  unfold laContent
  split
  · simp only [String.append_assoc]
    exact headerTest_of_prefix old _
  · exact headerTest_of_prefix old _

theorem finish_returned (r : Except Result World) (h : (finish r).outcome = .returned)
    (hx : ∀ e, r = .error e → e.outcome ≠ .returned) : ∃ wf, r = .ok wf := by
  cases r with
  | ok wf => exact ⟨wf, rfl⟩
  | error e => exact absurd h (hx e rfl)

theorem writeFile_fs (path content : String) (w w2 : World)
    (h : writeFile path content w = some w2) : w2.fs path = some (.file content) := by
  rw [writeFile_ok_inv path content w w2 h]
  simp [FS.set]

/-- A compile run that returns has left the object descriptor at the output name. -/
theorem ltcompile_returned_fs (env : Env) (opt : Options) (w : World)
    (h : (ltcompile env opt w).outcome = .returned) :
    (ltcompile env opt w).world.fs (compileOutput opt.cmd) =
      some (.file (loContent (cutAtLastDot (basename (compileOutput opt.cmd))))) := by
  by_cases hacc : compileAccepts opt.cmd = true
  · rw [ltcompile_eq_build env opt w hacc] at h ⊢
    cases hb : ltcompileBuild env opt (compileBuffer opt.cmd) (compileSlot opt.cmd)
      (compileOutput opt.cmd) (!(prefersNonPic opt.cmd && !prefersPic opt.cmd))
      (!(prefersPic opt.cmd && !prefersNonPic opt.cmd))
      { fs := w.fs, trace := w.trace ++ compileDiag opt.cmd } with
    | error e =>
      have he := exitsOnly_ltcompileBuild env opt (compileBuffer opt.cmd)
        (compileSlot opt.cmd) (compileOutput opt.cmd)
        (!(prefersNonPic opt.cmd && !prefersPic opt.cmd))
        (!(prefersPic opt.cmd && !prefersNonPic opt.cmd))
        { fs := w.fs, trace := w.trace ++ compileDiag opt.cmd }
      rw [hb] at he h
      simp only [finish] at h
      rw [he] at h
      exact absurd h (by decide)
    | ok wf =>
      simp only [finish]
      unfold ltcompileBuild at hb
      obtain ⟨w1, _, hb1⟩ := bind_ok_inv _ _ _ hb
      obtain ⟨w2, _, hb2⟩ := bind_ok_inv _ _ _ hb1
      unfold writeLo at hb2
      cases hwf : writeFile (compileOutput opt.cmd)
          (loContent (cutAtLastDot (basename (compileOutput opt.cmd)))) w2 with
      | none => rw [hwf] at hb2; simp [throw, throwThe, MonadExceptOf.throw] at hb2
      | some w3 =>
        rw [hwf] at hb2
        simp only [pure, Except.pure, Except.ok.injEq] at hb2
        subst hb2
        exact writeFile_fs _ _ _ _ hwf
  · simp only [Bool.not_eq_true] at hacc
    obtain ⟨ds, hds, _⟩ := ltcompile_rejects env opt w hacc
    rw [hds] at h
    simp at h

/-- A link run of a library target that returns has left a library descriptor at the
output name. -/
theorem ltlink_returned_fs (env : Env) (opt : Options) (w : World)
    (hba : buildAOf opt.cmd = true) (h : (ltlink env opt w).outcome = .returned) :
    ∃ names, (ltlink env opt w).world.fs (linkOutput opt.cmd) =
      some (.file (laContent names)) := by
  unfold ltlink at h ⊢
  by_cases hins : (ltlinkParse w.fs opt.cmd).insane = true
  · simp [hins, execLibtool] at h
  · simp only [hins, Bool.false_eq_true, if_false] at h ⊢
    have hspec := writesSpec_ltlinkBuild env opt (ltlinkParse w.fs opt.cmd)
      (findOutName opt.cmd.tail) (buildAOf opt.cmd) (buildBinaryOf opt.cmd) w
    cases hb : ltlinkBuild env opt (ltlinkParse w.fs opt.cmd) (findOutName opt.cmd.tail)
      (buildAOf opt.cmd) (buildBinaryOf opt.cmd) w with
    | error e =>
      rw [hb] at hspec h
      exact absurd h hspec.2
    | ok wf =>
      simp only [finish]
      unfold ltlinkBuild at hb
      obtain ⟨w1, _, hb1⟩ := bind_ok_inv _ _ _ hb
      obtain ⟨w2, _, hb2⟩ := bind_ok_inv _ _ _ hb1
      obtain ⟨w3, _, hb3⟩ := bind_ok_inv _ _ _ hb2
      unfold writeLa at hb3
      simp only [hba, if_true] at hb3
      split at hb3
      · simp [throw, throwThe, MonadExceptOf.throw] at hb3
      · rename_i w4 hwf
        simp only [pure, Except.pure, Except.ok.injEq] at hb3
        subst hb3
        exact ⟨_, writeFile_fs _ _ _ _ hwf⟩

/-- C18: the descriptors this program writes pass the test `checkLoSanity` makes on an open
file (`fgets` of at most `sizeof(SANE_HEADER) - 1` characters and `strcmp` with
`SANE_HEADER`), whatever the array held before: the content of every object descriptor and
of every library descriptor, with or without the names of a shared object; hence every file
written in a run of `ltcompile` or `ltlink`, and the file a run that returns leaves at the
output name. -/
theorem C18_descriptor_round_trip (env : Env) (opt : Options) (w : World) (old : List Char) :
    (∀ outBase, headerTest old (loContent outBase).data = true) ∧
    (∀ names, headerTest old (laContent names).data = true) ∧
    (∃ extra, (ltcompile env opt w).world.trace = w.trace ++ extra ∧
      ∀ p c, Effect.write p c ∈ extra → headerTest old c.data = true) ∧
    (∃ extra, (ltlink env opt w).world.trace = w.trace ++ extra ∧
      ∀ p c, Effect.write p c ∈ extra → headerTest old c.data = true) ∧
    ((ltcompile env opt w).outcome = .returned →
      ∃ c, openRead (ltcompile env opt w).world.fs (compileOutput opt.cmd) = some c ∧
        headerTest old c = true) ∧
    (buildAOf opt.cmd = true → (ltlink env opt w).outcome = .returned →
      ∃ c, openRead (ltlink env opt w).world.fs (linkOutput opt.cmd) = some c ∧
        headerTest old c = true) := by
  refine ⟨headerTest_loContent old, headerTest_laContent old, ?_, ?_, ?_, ?_⟩
  · obtain ⟨extra, hx, hq⟩ := ltcompile_events env opt w
    refine ⟨extra, hx, ?_⟩
    intro p c hmem
    obtain ⟨_, hc⟩ := hq _ hmem
    rw [hc]
    exact headerTest_loContent old _
  · obtain ⟨extra, hx, hq⟩ := ltlink_events env opt w
    refine ⟨extra, hx, ?_⟩
    intro p c hmem
    obtain ⟨_, names, hc⟩ := hq _ hmem
    rw [hc]
    exact headerTest_laContent old _
  · intro hret
    refine ⟨_, ?_, headerTest_loContent old (cutAtLastDot (basename (compileOutput opt.cmd)))⟩
    unfold openRead
    rw [ltcompile_returned_fs env opt w hret]
  · intro hba hret
    obtain ⟨names, hfs⟩ := ltlink_returned_fs env opt w hba hret
    refine ⟨_, ?_, headerTest_laContent old names⟩
    unfold openRead
    rw [hfs]

theorem scanStep_sane (st : ScanState) (got : List Char) (h : st.sane = true) :
    (scanStep st got).sane = true := by
  unfold scanStep
  simp [h]

theorem scanLoop_sane (fuel : Nat) (st st1 : ScanState) (reads : List (List Char))
    (h : st.sane = true) (hl : scanLoop fuel st reads = some st1) : st1.sane = true := by
  induction fuel generalizing st reads with
  | zero => simp [scanLoop] at hl
  | succ fuel ih =>
    unfold scanLoop at hl
    split_ifs at hl
    · exact ih _ _ (scanStep_sane st _ h) hl
    · simp only [Option.some.injEq] at hl
      rw [← hl]; exact h

/-- The read loop finds the output `0123456IS_SANE`, newline, `SYSTEM_` sane, whatever the
array held at the start. -/
theorem scan_stale_bytes (buf : List Char) :
    (scan buf ["0123456IS_SANE\nSYSTEM_".data]).sane = true := by
  have hterm := scan_terminates buf ["0123456IS_SANE\nSYSTEM_".data]
  have hfuel : scanFuel ["0123456IS_SANE\nSYSTEM_".data] = 22 + 1 + 1 := by decide
  rw [hfuel] at hterm
  unfold scanLoop at hterm
  have hr : readChunk (BUFSZ - 0) ["0123456IS_SANE\nSYSTEM_".data] =
      ("0123456IS_SANE\nSYSTEM_".data, []) := by decide
  simp only [hr] at hterm
  rw [if_pos (Or.inl (by decide))] at hterm
  unfold scanLoop at hterm
  have h1 : scanStep { buf := buf, bufused := 0, sane := false } "0123456IS_SANE\nSYSTEM_".data =
      { buf := "SYSTEM_".data ++ ("IS_SANE\nSYSTEM_".data ++ buf.drop 22),
        bufused := 7, sane := false } := by
    simp [scanStep, lineLength]
  rw [h1] at hterm
  simp only at hterm
  have hr2 : readChunk (BUFSZ - 7) [] = ([], []) := rfl
  simp only [hr2] at hterm
  rw [if_pos (Or.inr (by decide))] at hterm
  have h2 : (scanStep
      { buf := "SYSTEM_".data ++ ("IS_SANE\nSYSTEM_".data ++ buf.drop 22),
        bufused := 7, sane := false } []).sane = true := by
    simp [scanStep]
  exact scanLoop_sane _ _ _ _ h2 hterm

/-! ## The verdict of the probe -/

theorem systemIsSane_ok (penv : ProbeEnv) (cc : String) (w : World)
    (h1 : (penv.probe cc w.fs).pipeIn = true) (h2 : (penv.probe cc w.fs).pipeOut = true)
    (h3 : (penv.probe cc w.fs).forkOk = true) (h4 : (penv.probe cc w.fs).sigpipe = false) :
    systemIsSane penv cc w =
      .ok (w.log (.exec [cc, "-E", "-"]),
        if (decide ((penv.probe cc w.fs).written ≠ sanityCheck.length) ||
            !(penv.probe cc w.fs).waitOk || decide ((penv.probe cc w.fs).status ≠ 0)) = true
        then false
        else (scan (penv.probe cc w.fs).buf (penv.probe cc w.fs).reads).sane) := by
  unfold systemIsSane
  simp only [h1, h2, h3, h4, Bool.not_true, Bool.false_eq_true, if_false]
  rfl

/-- C19, at the preprocessor output `0123456IS_SANE`, newline, `SYSTEM_`, delivered by one
`read`, with exit status 0: the output does not contain the sentinel text, yet the read loop
ends with `sane = 1` whatever the array held at the start, and `systemIsSane` returns true.
(After the first line is dropped the array holds `SYSTEM_` in use, followed by the stale
bytes `IS_SANE` of the first line, and `strncmp` compares 14 bytes.)  The other two cases
of the claim hold: without any output the loop ends with `sane = 0`, and a wait status other
than 0 makes `systemIsSane` return false, in every run that gets to `waitpid`: every run in
which the pipes and the child are created, but the one that the `write` of the probe text
ends with `SIGPIPE`, where `systemIsSane` does not return. -/
theorem C19_stale_bytes_false_positive (buf : List Char) (penv : ProbeEnv) (cc : String)
    (w : World) :
    containsSentinel "0123456IS_SANE\nSYSTEM_".data = false ∧
    (scan buf ["0123456IS_SANE\nSYSTEM_".data]).sane = true ∧
    verdict (systemIsSane (probeAnswering ["0123456IS_SANE\nSYSTEM_".data]) "cc" emptyWorld) =
      some true ∧
    (scan buf []).sane = false ∧
    ((penv.probe cc w.fs).pipeIn = true → (penv.probe cc w.fs).pipeOut = true →
      (penv.probe cc w.fs).forkOk = true → (penv.probe cc w.fs).status ≠ 0 →
      verdict (systemIsSane penv cc w) =
        if (penv.probe cc w.fs).sigpipe = true then none else some false) := by
  refine ⟨by decide, scan_stale_bytes buf, by decide, rfl, ?_⟩
  intro h1 h2 h3 hs
  by_cases h4 : (penv.probe cc w.fs).sigpipe = true
  · unfold systemIsSane
    simp only [h1, h2, h3, h4, Bool.not_true, Bool.false_eq_true, if_false, if_true]
    rfl
  · rw [systemIsSane_ok penv cc w h1 h2 h3 (by simpa using h4)]
    simp [verdict, hs, h4]

/-- C20 (amended): the failures of the probe.  A `write` of the probe text that returns
another value than its length (a short write, or a failed write that returns -1) and a failed
`waitpid` make `systemIsSane` return false to its caller.  The other failures end the
program in `systemIsSane`: a failed `pipe` (either one) or a failed `fork` by a diagnostic
and `exit(1)`, and a `write` that raises `SIGPIPE`, the child having closed its end of the
pipe, by the signal. -/
theorem C20_probe_failures (penv : ProbeEnv) (cc : String) (w : World) :
    ((penv.probe cc w.fs).pipeIn = true → (penv.probe cc w.fs).pipeOut = true →
      (penv.probe cc w.fs).forkOk = true → (penv.probe cc w.fs).sigpipe = false →
      ((penv.probe cc w.fs).written ≠ sanityCheck.length ∨
        (penv.probe cc w.fs).waitOk = false) →
      systemIsSane penv cc w = .ok (w.log (.exec [cc, "-E", "-"]), false)) ∧
    ((penv.probe cc w.fs).pipeIn = true → (penv.probe cc w.fs).pipeOut = true →
      (penv.probe cc w.fs).forkOk = true → (penv.probe cc w.fs).sigpipe = true →
      systemIsSane penv cc w =
        .error { world := w.log (.exec [cc, "-E", "-"]), outcome := .killed "SIGPIPE" }) ∧
    ((penv.probe cc w.fs).pipeIn = false ∨ (penv.probe cc w.fs).pipeOut = false →
      systemIsSane penv cc w =
        .error { world := w.log (.perror "pipe"), outcome := .exited 1 }) ∧
    ((penv.probe cc w.fs).pipeIn = true → (penv.probe cc w.fs).pipeOut = true →
      (penv.probe cc w.fs).forkOk = false →
      systemIsSane penv cc w =
        .error { world := w.log (.perror "fork"), outcome := .exited 1 }) := by
  refine ⟨?_, ?_, ?_, ?_⟩
  · intro h1 h2 h3 h4 hf
    rw [systemIsSane_ok penv cc w h1 h2 h3 h4]
    rcases hf with hf | hf
    · simp [hf]
    · simp [hf]
  · intro h1 h2 h3 h4
    unfold systemIsSane
    simp only [h1, h2, h3, h4, Bool.not_true, Bool.false_eq_true, if_false, if_true]
    rfl
  · intro hp
    unfold systemIsSane
    rcases hp with hp | hp
    · simp only [hp, Bool.not_false, if_true]
      rfl
    · by_cases h1 : (penv.probe cc w.fs).pipeIn = true
      · simp only [h1, hp, Bool.not_true, Bool.false_eq_true, if_false, Bool.not_false,
          if_true]
        rfl
      · simp only [h1, Bool.not_false, if_true]
        rfl
  · intro h1 h2 h3
    unfold systemIsSane
    simp only [h1, h2, h3, Bool.not_true, Bool.false_eq_true, if_false, Bool.not_false,
      if_true]
    rfl

/-- C20 (amended) at a compiler that has gone before the `write`: where `SIGPIPE` is
ignored the `write` returns -1 and `systemIsSane` returns false, and where the signal has its
default action the process is killed. -/
theorem C20_probe_failures_witness :
    ((probeWriteFails.probe "cc" emptyWorld.fs).written ≠ sanityCheck.length ∧
      systemIsSane probeWriteFails "cc" emptyWorld =
        .ok (emptyWorld.log (.exec ["cc", "-E", "-"]), false)) ∧
    ((probeChildGone.probe "cc" emptyWorld.fs).sigpipe = true ∧
      systemIsSane probeChildGone "cc" emptyWorld =
        .error { world := emptyWorld.log (.exec ["cc", "-E", "-"]),
                 outcome := .killed "SIGPIPE" }) :=
  ⟨⟨by decide,
    (C20_probe_failures probeWriteFails "cc" emptyWorld).1 rfl rfl rfl rfl
      (Or.inl (by decide))⟩,
   ⟨rfl, (C20_probe_failures probeChildGone "cc" emptyWorld).2.1 rfl rfl rfl rfl⟩⟩

/-- C20, as stated, fails when a `pipe` call or `fork` fails, and when the `write` raises
`SIGPIPE`: `systemIsSane` does not return to its caller, and
`mlibtool libtool --mode=compile cc -c foo.c` exits with status 1 after a diagnostic, or is
killed by the signal, instead of going to the reference libtool. -/
theorem C20_probe_aborts_counterexample :
    verdict (systemIsSane pipeFails "cc" emptyWorld) = none ∧
    (checkedWorld (systemIsSane pipeFails "cc" emptyWorld)).trace = [.perror "pipe"] ∧
    (main idealTools pipeFails
      ["mlibtool", "libtool", "--mode=compile", "cc", "-c", "foo.c"] emptyWorld).outcome =
      .exited 1 ∧
    verdict (systemIsSane probeForkFails "cc" emptyWorld) = none ∧
    (main idealTools probeForkFails
      ["mlibtool", "libtool", "--mode=compile", "cc", "-c", "foo.c"] emptyWorld).outcome =
      .exited 1 ∧
    (main idealTools probeForkFails
      ["mlibtool", "libtool", "--mode=link", "cc", "-o", "prog", "main.o"] emptyWorld).outcome =
      .exited 1 ∧
    verdict (systemIsSane probeChildGone "cc" emptyWorld) = none ∧
    (main idealTools probeChildGone
      ["mlibtool", "libtool", "--mode=compile", "cc", "-c", "foo.c"] emptyWorld).outcome =
      .killed "SIGPIPE" := by
  decide

/-! ## Buffering and the unknown mode -/

/-- C21, at the output `SYSTEM_IS_SANE` and a newline: the reference line scanner finds the
sentinel line, and so does the read loop when one `read` delivers the output, but when the
output arrives as `SYSTEM_` and then `IS_SANE` with the newline, the loop ends with
`sane = 0` and `systemIsSane` returns false: the bytes of the first read are compared and
then dropped, because the loop drops every byte in use when it finds no newline.  The
verdicts also differ the other way: 32 bytes without a newline followed by the sentinel are
found sane, though no line begins with the sentinel. -/
theorem C21_split_sentinel_missed :
    referenceLineScanner "SYSTEM_IS_SANE\n".data = true ∧
    (scan zeroBuf ["SYSTEM_IS_SANE\n".data]).sane = true ∧
    (scan zeroBuf ["SYSTEM_".data, "IS_SANE\n".data]).sane = false ∧
    verdict (systemIsSane (probeAnswering ["SYSTEM_".data, "IS_SANE\n".data]) "cc" emptyWorld) =
      some false ∧
    verdict (systemIsSane (probeAnswering ["SYSTEM_IS_SANE\n".data]) "cc" emptyWorld) =
      some true ∧
    referenceLineScanner "xxxxxxxxxxxxxxxxxxxxxxxxxxxxxxxxSYSTEM_IS_SANE\n".data = false ∧
    (scan zeroBuf ["xxxxxxxxxxxxxxxxxxxxxxxxxxxxxxxxSYSTEM_IS_SANE\n".data]).sane = true := by
  decide

/-- C23: a command line whose options before `--mode=<m>` do not end the option loop, with a
mode string `<m>` other than `compile` and `link` and at least one argument after it.  Whatever
the probe and the tools would do, `main` leaves the world as it is and executes `argv[1]`
with the vector `argv[1..argc)`.  For the mode `MODE_UNKNOWN` the check of `main` always
gives `sane = 0`, so that for no input the last block of `main` is entered with `sane` set
and the mode unknown: its `exit(1)` is never reached. -/
theorem C23_unknown_mode_fallback (env : Env) (penv : ProbeEnv) (w : World)
    (prog libtool modeArg : String) (pre cmd : List String)
    (hpre : ∀ a ∈ pre, a ≠ "--version" ∧ a ≠ "-h" ∧ a ≠ "--help" ∧
      startsWith "--mode=" a = false)
    (hmode : startsWith "--mode=" modeArg = true)
    (hunknown : strFrom modeArg 7 ≠ "compile" ∧ strFrom modeArg 7 ≠ "link")
    (hcmd : cmd ≠ []) :
    main env penv (prog :: libtool :: (pre ++ modeArg :: cmd)) w =
      { world := w,
        outcome := .execLibtool (some libtool) (libtool :: (pre ++ modeArg :: cmd)) } ∧
    (∀ (opt : Options) (insane : Bool) (mode : Mode) (w0 w1 : World) (sane : Bool),
      checkSane penv opt insane mode w0 = .ok (w1, sane) → sane = true →
      mode ≠ .MODE_UNKNOWN) := by
  constructor
  · obtain ⟨st1, e1, _⟩ := scanArgs_options pre modeArg cmd hpre hmode hcmd
      { dryRun := false, quiet := false, insane := false }
    have hm : modeOf (strFrom modeArg 7) = .MODE_UNKNOWN := by
      unfold modeOf
      simp only [hunknown.1, hunknown.2, if_false]
    unfold main
    simp only [List.drop_succ_cons, List.drop_zero, e1, hm, checkSane]
    cases st1.insane <;> rfl
  · intro opt insane mode w0 w1 sane h hs hmode2
    subst hmode2
    unfold checkSane at h
    cases insane <;> simp [pure, Except.pure] at h <;> rw [h.2] at hs <;>
      exact Bool.noConfusion hs

/-- C23 at `mlibtool libtool --quiet --mode=install cp prog /usr/bin`, with a probe that
would find the system sane. -/
theorem C23_unknown_mode_fallback_witness :
    ((∀ a ∈ ["--quiet"], a ≠ "--version" ∧ a ≠ "-h" ∧ a ≠ "--help" ∧
        startsWith "--mode=" a = false) ∧
      startsWith "--mode=" "--mode=install" = true ∧
      (strFrom "--mode=install" 7 ≠ "compile" ∧ strFrom "--mode=install" 7 ≠ "link") ∧
      ["cp", "prog", "/usr/bin"] ≠ []) ∧
    main idealTools (probeAnswering ["SYSTEM_IS_SANE\n".data])
        ["mlibtool", "libtool", "--quiet", "--mode=install", "cp", "prog", "/usr/bin"]
        emptyWorld =
      { world := emptyWorld,
        outcome := .execLibtool (some "libtool")
          ["libtool", "--quiet", "--mode=install", "cp", "prog", "/usr/bin"] } :=
  ⟨⟨by decide, by decide, by decide, by decide⟩,
   (C23_unknown_mode_fallback idealTools (probeAnswering ["SYSTEM_IS_SANE\n".data])
     emptyWorld "mlibtool" "libtool" "--mode=install" ["--quiet"] ["cp", "prog", "/usr/bin"]
     (by decide) (by decide) (by decide) (by decide)).1⟩

/-! ## Greedy reads find every sentinel line -/

theorem scanLines_true_eq (s : List Char) :
    scanLines true s = ("SYSTEM_IS_SANE".data.isPrefixOf s || scanLines false s) := by
  cases s with
  | nil => rfl
  | cons c cs => simp [scanLines]

theorem scanLines_false_newline (p t : List Char) (hp : '\n' ∉ p) :
    scanLines false (p ++ '\n' :: t) = scanLines true t := by
  induction p with
  | nil => simp [scanLines]
  | cons c p ih =>
    have hc : c ≠ '\n' := fun h => hp (by simp [h])
    have hp2 : '\n' ∉ p := fun h => hp (List.mem_cons_of_mem _ h)
    simp only [List.cons_append, scanLines, Bool.false_and, Bool.false_or]
    have : (c == '\n') = false := by simp [hc]
    rw [this]
    exact ih hp2

theorem scanLines_false_append (p t : List Char) (hp : '\n' ∉ p) :
    scanLines false (p ++ t) = true → scanLines true t = true := by
  induction p with
  | nil =>
    intro h
    rw [scanLines_true_eq, Bool.or_eq_true]
    exact Or.inr h
  | cons c p ih =>
    have hc : c ≠ '\n' := fun h => hp (by simp [h])
    have hp2 : '\n' ∉ p := fun h => hp (List.mem_cons_of_mem _ h)
    simp only [List.cons_append, scanLines, Bool.false_and, Bool.false_or]
    have : (c == '\n') = false := by simp [hc]
    rw [this]
    exact ih hp2

theorem lineLength_cons (c : Char) (cs junk : List Char) :
    lineLength (c :: cs ++ junk) (cs.length + 1) =
      if c = '\n' then 0 else lineLength (cs ++ junk) cs.length + 1 := rfl

/-- The index `lineLength` finds in the bytes in use: the position of their first newline,
or their number when they hold none. -/
theorem lineLength_spec (l junk : List Char) :
    (lineLength (l ++ junk) l.length = l.length ∧ '\n' ∉ l) ∨
    (lineLength (l ++ junk) l.length < l.length ∧
      ∃ p t, l = p ++ '\n' :: t ∧ p.length = lineLength (l ++ junk) l.length ∧ '\n' ∉ p) := by
  induction l with
  | nil => left; simp [lineLength]
  | cons c cs ih =>
    rw [List.length_cons, lineLength_cons]
    by_cases hc : c = '\n'
    · right
      subst hc
      refine ⟨by simp, [], cs, rfl, by simp, by simp⟩
    · simp only [hc, if_false]
      rcases ih with ⟨h1, h2⟩ | ⟨h1, p, t, e, hl, hp⟩
      · left
        refine ⟨by omega, ?_⟩
        intro hm
        rcases List.mem_cons.mp hm with h | h
        · exact hc h.symm
        · exact h2 h
      · right
        refine ⟨by omega, c :: p, t, by rw [e]; rfl, by simp [hl], ?_⟩
        intro hm
        rcases List.mem_cons.mp hm with h | h
        · exact hc h.symm
        · exact hp h

/-- A greedy read on a stream that is one chunk at most: it delivers the first `count`
bytes of what remains. -/
theorem readChunk_greedy (count : Nat) (reads : List (List Char)) (h : reads.length ≤ 1) :
    (readChunk count reads).1 = reads.flatten.take count ∧
    (readChunk count reads).2.flatten = reads.flatten.drop count ∧
    (readChunk count reads).2.length ≤ 1 := by
  match reads, h with
  | [], _ => simp [readChunk]
  | [c], _ =>
    by_cases h1 : count = 0
    · simp [readChunk, h1]
    · by_cases h2 : c.length ≤ count
      · simp [readChunk, h1, h2, List.take_of_length_le h2, List.drop_of_length_le h2]
      · simp [readChunk, h1, h2]

/-- The bytes in use after one pass of the loop body, and the fields that bound them. -/
theorem scanStep_live (st : ScanState) (got : List Char)
    (hb : st.bufused ≤ st.buf.length) :
    ∃ i1, i1 ≤ st.bufused + got.length ∧
      (scanStep st got).bufused = st.bufused + got.length - i1 ∧
      (scanStep st got).bufused ≤ (scanStep st got).buf.length ∧
      (scanStep st got).buf.take (scanStep st got).bufused =
        (st.buf.take st.bufused ++ got).drop i1 ∧
      ((i1 = st.bufused + got.length ∧ '\n' ∉ st.buf.take st.bufused ++ got) ∨
       (∃ p, st.buf.take st.bufused ++ got = p ++ '\n' :: (st.buf.take st.bufused ++ got).drop i1 ∧
          '\n' ∉ p)) := by
  have hL : (st.buf.take st.bufused ++ got).length = st.bufused + got.length := by
    simp [List.length_take, Nat.min_eq_left hb]
  have hspec := lineLength_spec (st.buf.take st.bufused ++ got)
    (st.buf.drop (st.bufused + got.length))
  rw [hL] at hspec
  have hle := lineLength_le
    (st.buf.take st.bufused ++ got ++ st.buf.drop (st.bufused + got.length))
    (st.bufused + got.length)
  have hkey : ∀ i1, i1 ≤ st.bufused + got.length →
      (((st.buf.take st.bufused ++ got ++ st.buf.drop (st.bufused + got.length)).drop i1).take
          (st.bufused + got.length - i1) ++
        (st.buf.take st.bufused ++ got ++ st.buf.drop (st.bufused + got.length)).drop
          (st.bufused + got.length - i1)).take (st.bufused + got.length - i1) =
        (st.buf.take st.bufused ++ got).drop i1 ∧
      st.bufused + got.length - i1 ≤
        (((st.buf.take st.bufused ++ got ++ st.buf.drop (st.bufused + got.length)).drop i1).take
          (st.bufused + got.length - i1) ++
        (st.buf.take st.bufused ++ got ++ st.buf.drop (st.bufused + got.length)).drop
          (st.bufused + got.length - i1)).length := by
    intro i1 hi
    have hd : ((st.buf.take st.bufused ++ got ++ st.buf.drop (st.bufused + got.length)).drop i1).take
          (st.bufused + got.length - i1) = (st.buf.take st.bufused ++ got).drop i1 := by
      rw [List.drop_append_of_le_length (by omega)]
      rw [List.take_append_of_le_length (by simp only [List.length_drop]; omega)]
      exact List.take_of_length_le (by simp only [List.length_drop]; omega)
    rw [hd]
    have hlen : ((st.buf.take st.bufused ++ got).drop i1).length =
        st.bufused + got.length - i1 := by
      simp only [List.length_drop, hL]
    constructor
    · rw [List.take_append_of_le_length (by omega)]
      exact List.take_of_length_le (by omega)
    · simp only [List.length_append, hlen]
      omega
  unfold scanStep
  simp only
  rcases hspec with ⟨h1, h2⟩ | ⟨h1, p, t, e, hl, hp⟩
  · simp only [h1, lt_irrefl, if_false]
    exact ⟨st.bufused + got.length, le_refl _, rfl, (hkey _ (le_refl _)).2,
      (hkey _ (le_refl _)).1, Or.inl ⟨rfl, h2⟩⟩
  · simp only [h1, if_true]
    refine ⟨lineLength (st.buf.take st.bufused ++ got ++
        st.buf.drop (st.bufused + got.length)) (st.bufused + got.length) + 1, by omega,
      rfl, (hkey _ (by omega)).2, (hkey _ (by omega)).1, Or.inr ⟨p, ?_, hp⟩⟩
    rw [← hl]
    conv_lhs => rw [e]
    congr 2
    rw [e]
    simp

/-- The comparison of the loop body succeeds when the sentinel stands at the start of the
bytes in use followed by what a greedy read has not delivered yet. -/
theorem scanStep_finds (st : ScanState) (rest : List Char)
    (hb : st.bufused ≤ st.buf.length) (h32 : st.bufused ≤ BUFSZ)
    (h : "SYSTEM_IS_SANE".data.isPrefixOf (st.buf.take st.bufused ++ rest) = true) :
    (scanStep st (rest.take (BUFSZ - st.bufused))).sane = true := by
  have hL : (st.buf.take st.bufused).length = st.bufused := by
    simp [List.length_take, Nat.min_eq_left hb]
  obtain ⟨t, ht⟩ := List.isPrefixOf_iff_prefix.mp h
  have h14 : (st.buf.take st.bufused ++ rest).take 14 = "SYSTEM_IS_SANE".data := by
    rw [← ht]
    exact List.take_left' rfl
  have h32a : (st.buf.take st.bufused ++ rest).take BUFSZ =
      st.buf.take st.bufused ++ rest.take (BUFSZ - st.bufused) := by
    rw [List.take_append_eq_append_take, hL, List.take_of_length_le (by omega)]
  have h14b : (st.buf.take st.bufused ++ rest.take (BUFSZ - st.bufused)).take 14 =
      "SYSTEM_IS_SANE".data := by
    rw [← h32a, List.take_take]
    exact h14
  have hlen : 14 ≤ (st.buf.take st.bufused ++ rest.take (BUFSZ - st.bufused)).length := by
    have := congrArg List.length h14b
    simp only [List.length_take] at this ⊢
    have e14 : "SYSTEM_IS_SANE".data.length = 14 := rfl
    rw [e14] at this
    simp only [List.length_append, List.length_take] at this ⊢
    omega
  unfold scanStep
  simp only
  rw [List.take_append_of_le_length hlen, h14b]
  simp

/-- The invariant of the read loop under greedy reads: while some line of the bytes in use
followed by the bytes not yet read begins with the sentinel, the loop ends with `sane`
set. -/
theorem scanLoop_finds (fuel : Nat) (st stF : ScanState) (reads : List (List Char))
    (hr : reads.length ≤ 1) (hb : st.bufused ≤ st.buf.length) (h32 : st.bufused ≤ BUFSZ)
    (h : scanLines true (st.buf.take st.bufused ++ reads.flatten) = true)
    (hl : scanLoop fuel st reads = some stF) : stF.sane = true := by
  induction fuel generalizing st reads with
  | zero => simp [scanLoop] at hl
  | succ fuel ih =>
    obtain ⟨hg1, hg2, hg3⟩ := readChunk_greedy (BUFSZ - st.bufused) reads hr
    have hL : (st.buf.take st.bufused).length = st.bufused := by
      simp [List.length_take, Nat.min_eq_left hb]
    unfold scanLoop at hl
    split_ifs at hl with hc
    · rw [hg1] at hl
      by_cases hpre : "SYSTEM_IS_SANE".data.isPrefixOf
          (st.buf.take st.bufused ++ reads.flatten) = true
      · exact scanLoop_sane _ _ _ _ (scanStep_finds st _ hb h32 hpre) hl
      · have hfalse : scanLines false (st.buf.take st.bufused ++ reads.flatten) = true := by
          rw [scanLines_true_eq, Bool.or_eq_true] at h
          rcases h with h | h
          · exact absurd h hpre
          · exact h
        obtain ⟨i1, hi1, hbu, hbl, hlive, hcase⟩ :=
          scanStep_live st (reads.flatten.take (BUFSZ - st.bufused)) hb
        have hsplit : st.buf.take st.bufused ++ reads.flatten =
            (st.buf.take st.bufused ++ reads.flatten.take (BUFSZ - st.bufused)) ++
              reads.flatten.drop (BUFSZ - st.bufused) := by
          rw [List.append_assoc, List.take_append_drop]
        have hlen : (reads.flatten.take (BUFSZ - st.bufused)).length ≤ BUFSZ - st.bufused := by
          simp only [List.length_take]
          exact Nat.min_le_left _ _
        apply ih (scanStep st (reads.flatten.take (BUFSZ - st.bufused)))
          (readChunk (BUFSZ - st.bufused) reads).2 hg3 hbl (by omega) _ hl
        rw [hlive, hg2]
        rcases hcase with ⟨e1, hno⟩ | ⟨p, e, hp⟩
        · have hd : (st.buf.take st.bufused ++ reads.flatten.take (BUFSZ - st.bufused)).drop i1 =
              [] := by
            apply List.drop_of_length_le
            simp only [List.length_append, hL]
            omega
          rw [hd, List.nil_append]
          rw [hsplit] at hfalse
          exact scanLines_false_append _ _ hno hfalse
        · rw [hsplit] at hfalse
          rw [e, List.append_assoc, List.cons_append, scanLines_false_newline _ _ hp] at hfalse
          exact hfalse
    · exfalso
      have hc1 : (readChunk (BUFSZ - st.bufused) reads).1 = [] ∧ st.bufused = 0 := by
        constructor
        · by_contra hx; exact hc (Or.inl hx)
        · by_contra hx; exact hc (Or.inr hx)
      have h0 : st.bufused = 0 := hc1.2
      have hg : reads.flatten.take (BUFSZ - st.bufused) = [] := hg1 ▸ hc1.1
      rw [h0] at hg
      have hnil : reads.flatten = [] := by
        cases hfl : reads.flatten with
        | nil => rfl
        | cons a l => rw [hfl] at hg; simp [BUFSZ] at hg
      rw [h0, hnil] at h
      simp [scanLines] at h

/-- C24: a preprocessor output `out` that every `read` delivers greedily, the full number of
bytes requested while that many remain and all remaining bytes otherwise, which is the
stream of the single chunk `out`.  If some line of `out` begins with `SYSTEM_IS_SANE`, the
read loop of `systemIsSane` terminates, and it terminates with `sane = 1`, whatever the
length of the lines of `out` and whatever the array `buf` held at the start. -/
theorem C24_greedy_scan_finds_sentinel (buf out : List Char)
    (h : referenceLineScanner out = true) :
    scanLoop (scanFuel [out]) { buf := buf, bufused := 0, sane := false } [out] =
      some (scan buf [out]) ∧
    (scan buf [out]).sane = true := by
  have ht := scan_terminates buf [out]
  refine ⟨ht, ?_⟩
  refine scanLoop_finds _ _ _ [out] (le_refl _) (Nat.zero_le _) (Nat.zero_le _) ?_ ht
  simpa [referenceLineScanner] using h

/-- C24 at an output whose second line is longer than the array of 32 bytes and whose third
line is the sentinel. -/
theorem C24_greedy_scan_finds_sentinel_witness :
    referenceLineScanner
      "# 1 \"<stdin>\"\n# 1 \"/usr/include/stdc-predef.h\" 1 3 4\nSYSTEM_IS_SANE\n".data = true ∧
    (scanLoop
        (scanFuel ["# 1 \"<stdin>\"\n# 1 \"/usr/include/stdc-predef.h\" 1 3 4\nSYSTEM_IS_SANE\n".data])
        { buf := zeroBuf, bufused := 0, sane := false }
        ["# 1 \"<stdin>\"\n# 1 \"/usr/include/stdc-predef.h\" 1 3 4\nSYSTEM_IS_SANE\n".data] =
      some (scan zeroBuf
        ["# 1 \"<stdin>\"\n# 1 \"/usr/include/stdc-predef.h\" 1 3 4\nSYSTEM_IS_SANE\n".data]) ∧
     (scan zeroBuf
        ["# 1 \"<stdin>\"\n# 1 \"/usr/include/stdc-predef.h\" 1 3 4\nSYSTEM_IS_SANE\n".data]).sane =
      true) :=
  ⟨by decide,
   C24_greedy_scan_finds_sentinel zeroBuf
     "# 1 \"<stdin>\"\n# 1 \"/usr/include/stdc-predef.h\" 1 3 4\nSYSTEM_IS_SANE\n".data
     (by decide)⟩

/-! ## Element 0 of the vectors handed to `spawn` -/

theorem ltcompileArg_prefix (st : CompileState) (a : String) (n : Option String) :
    ∃ extra, (ltcompileArg st a n).1.outCmd = st.outCmd ++ extra := by
  by_cases h : outOption (a, n) = true
  · simp only [outOption, Bool.and_eq_true, decide_eq_true_eq] at h
    obtain ⟨rfl, hn⟩ := h
    obtain ⟨x, rfl⟩ := Option.isSome_iff_exists.mp hn
    exact ⟨["-o", x], by rw [ltcompileArg_out]⟩
  · exact ⟨_, (ltcompileArg_other st a n "" (by simpa using h)).1⟩

/-- The compiler command of `ltcompile` starts with the first word of the tool command. -/
theorem ltcompileParse_head (cmd : List String) :
    ∃ rest, (ltcompileParse cmd).outCmd = cmd.headD "" :: rest := by
  unfold ltcompileParse
  rw [ltcompileLoop_eq_foldl]
  apply foldl_inv (fun (s : CompileState) (p : String × Option String) =>
      (ltcompileArg s p.1 p.2).1)
    (fun s => ∃ rest, s.outCmd = cmd.headD "" :: rest)
  · intro s p ⟨rest, hr⟩
    obtain ⟨extra, he⟩ := ltcompileArg_prefix s p.1 p.2
    exact ⟨rest ++ extra, by rw [he, hr]; rfl⟩
  · exact ⟨[], rfl⟩

theorem compileBuffer_head (cmd : List String) :
    ∃ rest, compileBuffer cmd = cmd.headD "" :: rest := by
  obtain ⟨rest, hr⟩ := ltcompileParse_head cmd
  unfold compileBuffer
  cases (ltcompileParse cmd).outName with
  | none => exact ⟨rest ++ ["-o", compileOutput cmd], by simp only [hr]; rfl⟩
  | some o => exact ⟨rest, hr⟩

theorem compileSlot_pos (cmd : List String) : 1 ≤ compileSlot cmd := by
  have hs := ltcompileParse_slotOk cmd
  unfold compileSlot
  cases ho : (ltcompileParse cmd).outName with
  | none => simp
  | some o => exact (hs o ho).1

theorem set_head (a x : String) (rest : List String) (n : Nat) (h : 1 ≤ n) :
    ((a :: rest).set n x).head? = some a := by
  cases n with
  | zero => omega
  | succ n => rfl

theorem ltlinkArg_prefix (fs : FS) (bb : Bool) (st : LinkState) (a : String)
    (n : Option String) : ∃ extra, (ltlinkArg fs bb st a n).1.outCmd = st.outCmd ++ extra := by
  by_cases ho : a = "-o" ∧ n.isSome = true
  · obtain ⟨rfl, hn⟩ := ho
    obtain ⟨x, rfl⟩ := Option.isSome_iff_exists.mp hn
    exact ⟨["-o", x], rfl⟩
  · obtain ⟨extra, h1, _⟩ := ltlinkArg_appends fs bb st a n ho
    exact ⟨extra, h1⟩

/-- The link command of `ltlink` starts with the first word of the tool command. -/
theorem linkBuildState_head (fs : FS) (cmd : List String) :
    ∃ rest, (linkBuildState fs cmd).outCmd = cmd.headD "" :: rest := by
  have hp : ∃ rest, (ltlinkParse fs cmd).outCmd = cmd.headD "" :: rest := by
    unfold ltlinkParse
    rw [ltlinkLoop_eq_foldl]
    apply foldl_inv (fun (s : LinkState) (p : String × Option String) =>
        (ltlinkArg fs (buildBinaryOf cmd) s p.1 p.2).1)
      (fun s => ∃ rest, s.outCmd = cmd.headD "" :: rest)
    · intro s p ⟨rest, hr⟩
      obtain ⟨extra, he⟩ := ltlinkArg_prefix fs (buildBinaryOf cmd) s p.1 p.2
      exact ⟨rest ++ extra, by rw [he, hr]; rfl⟩
    · exact ⟨["-L.libs"], rfl⟩
  obtain ⟨rest, hr⟩ := hp
  unfold linkBuildState withDefaultOutput
  cases findOutName cmd.tail with
  | none => exact ⟨rest ++ ["-o", "a.out"], by simp only [hr]; rfl⟩
  | some o => exact ⟨rest, hr⟩

theorem linkBuildState_outAr (fs : FS) (cmd : List String) :
    ∃ members, (linkBuildState fs cmd).outAr = ["ar", "rc", "a.a"] ++ members := by
  obtain ⟨ms, hm⟩ := ltlinkParse_outAr fs cmd
  unfold linkBuildState withDefaultOutput
  cases findOutName cmd.tail with
  | none => exact ⟨ms, hm⟩
  | some o => exact ⟨ms, hm⟩

theorem none_mem_nullTerminated (l : List String) : none ∈ nullTerminated l := by
  simp [nullTerminated]

theorem none_mem_ranlibArgv (members : List String) (afile : String) :
    none ∈ ranlibArgv ((["ar", "rc", "a.a"] ++ members).set 2 afile) := by
  cases members <;> simp [ranlibArgv, nullTerminated]

/-- C22: in every run of `ltcompile`, every vector handed to `spawn` holds a `NULL` and its
element 0 is the first word `cmd[0]` of the tool command.  In every run of `ltlink`, every
vector handed to `spawn` holds a `NULL`, and it is the link command with `cmd[0]` as element
0, or the archiver vector with `ar` as element 0, or the vector that reads `ranlib` and the
archive path, or the shared-object link command; the element 0 of that last one is `cmd[0]`
when the output slot `outNamePos` is not 0, and the path of the shared object when it is 0.
That slot is 0 in the run of `cc -rpath -o libfoo.la x.lo`, where the pre-scan takes
`libfoo.la` for the output name and the argument loop takes `-o` for the argument of
`-rpath`: there the third vector handed to `spawn` has `./.libs/libfoo.so.0` as element 0
and not `cc`, and that file is what the child executes.  With the `-rpath` after the output
name, the third vector starts with `cc`. -/
theorem C22_spawn_vectors (env : Env) (opt : Options) (w : World) :
    (∃ calls, spawnCallsOf (ltcompile env opt w).world.trace = spawnCallsOf w.trace ++ calls ∧
      ∀ c ∈ calls, none ∈ c.1 ∧ (cstrv c.1).head? = some (opt.cmd.headD "")) ∧
    (∃ calls, spawnCallsOf (ltlink env opt w).world.trace = spawnCallsOf w.trace ++ calls ∧
      ∀ c ∈ calls, none ∈ c.1 ∧
        ((cstrv c.1).head? = some (opt.cmd.headD "") ∨
         (cstrv c.1).head? = some "ar" ∨
         cstrv c.1 = ["ranlib", dirname (linkOutput opt.cmd) ++ "/.libs/" ++
           cutAtLastDot (basename (linkOutput opt.cmd)) ++ ".a"] ∨
         ((linkBuildState w.fs opt.cmd).outNamePos = 0 ∧
          (cstrv c.1).head? = some (fullPath (dirname (linkOutput opt.cmd))
            (sonameOf (cutAtLastDot (basename (linkOutput opt.cmd)))
              (linkBuildState w.fs opt.cmd)))))) ∧
    spawnCallsOf (ltlink idealTools
        { argv := ["mlibtool", "libtool", "--mode=link", "cc", "-rpath", "-o", "libfoo.la",
            "x.lo"],
          cmd := ["cc", "-rpath", "-o", "libfoo.la", "x.lo"], dryRun := false, quiet := false }
        emptyWorld).world.trace =
      [([some "ar", some "rc", some "./.libs/libfoo.a", some "./.libs/x.sh.o", none], true),
       ([some "ranlib", some "./.libs/libfoo.a", none, none], true),
       ([some "./.libs/libfoo.so.0", some "-L.libs", some "-L./.libs",
         some "-Wl,--whole-archive", some "-lfoo", some "-Wl,--no-whole-archive",
         some "./.libs/x.sh.o", some "-shared", none], true)] ∧
    execsOf (ltlink idealTools
        { argv := ["mlibtool", "libtool", "--mode=link", "cc", "-rpath", "-o", "libfoo.la",
            "x.lo"],
          cmd := ["cc", "-rpath", "-o", "libfoo.la", "x.lo"], dryRun := false, quiet := false }
        emptyWorld).world.trace =
      [["ar", "rc", "./.libs/libfoo.a", "./.libs/x.sh.o"],
       ["ranlib", "./.libs/libfoo.a"],
       ["./.libs/libfoo.so.0", "-L.libs", "-L./.libs", "-Wl,--whole-archive", "-lfoo",
        "-Wl,--no-whole-archive", "./.libs/x.sh.o", "-shared"]] ∧
    spawnCallsOf (ltlink idealTools
        { argv := ["mlibtool", "libtool", "--mode=link", "cc", "-o", "libfoo.la", "x.lo",
            "-rpath", "/usr/lib"],
          cmd := ["cc", "-o", "libfoo.la", "x.lo", "-rpath", "/usr/lib"], dryRun := false,
          quiet := false }
        emptyWorld).world.trace =
      [([some "ar", some "rc", some "./.libs/libfoo.a", some "./.libs/x.sh.o", none], false),
       ([some "ranlib", some "./.libs/libfoo.a", none, none], false),
       ([some "cc", some "-L.libs", some "-o", some "./.libs/libfoo.so.0",
         some "./.libs/x.sh.o", some "-shared", none], false)] := by
  refine ⟨?_, ?_, by decide, by decide, by decide⟩
  · obtain ⟨extra, hx, hq⟩ := ltcompile_events env opt w
    refine ⟨spawnCallsOf extra, by rw [hx, spawnCallsOf_append], ?_⟩
    intro c hc
    rw [mem_spawnCallsOf] at hc
    obtain ⟨rest, hr⟩ := compileBuffer_head opt.cmd
    have hpos := compileSlot_pos opt.cmd
    rcases (hq _ hc).2 with hv | hv
    · rw [hv]
      refine ⟨none_mem_nullTerminated _, ?_⟩
      rw [cstrv_nullTerminated]
      unfold nonPicCommand
      rw [hr]
      exact set_head _ _ _ _ hpos
    · rw [hv]
      refine ⟨none_mem_nullTerminated _, ?_⟩
      rw [cstrv_nullTerminated]
      unfold picCommand
      rw [hr]
      exact set_head _ _ _ _ hpos
  · obtain ⟨extra, hx, hq⟩ := ltlink_events env opt w
    refine ⟨spawnCallsOf extra, by rw [hx, spawnCallsOf_append], ?_⟩
    intro c hc
    rw [mem_spawnCallsOf] at hc
    obtain ⟨rest, hr⟩ := linkBuildState_head w.fs opt.cmd
    obtain ⟨ms, hm⟩ := linkBuildState_outAr w.fs opt.cmd
    have hv := (hq _ hc).2
    simp only [linkVectors, List.mem_cons, List.mem_singleton, List.not_mem_nil,
      or_false] at hv
    rcases hv with hv | hv | hv | hv
    · rw [hv]
      refine ⟨none_mem_nullTerminated _, Or.inl ?_⟩
      rw [cstrv_nullTerminated, hr]
      rfl
    · rw [hv]
      refine ⟨none_mem_nullTerminated _, Or.inr (Or.inl ?_)⟩
      rw [cstrv_nullTerminated]
      unfold arBuffer
      rw [hm]
      rfl
    · rw [hv]
      unfold arBuffer
      rw [hm]
      exact ⟨none_mem_ranlibArgv _ _, Or.inr (Or.inr (Or.inl (cstrv_ranlibArgv _ _)))⟩
    · rw [hv]
      unfold soArgv
      refine ⟨none_mem_nullTerminated _, ?_⟩
      rw [cstrv_nullTerminated, hr]
      by_cases h0 : (linkBuildState w.fs opt.cmd).outNamePos = 0
      · refine Or.inr (Or.inr (Or.inr ⟨h0, ?_⟩))
        rw [h0]
        rfl
      · exact Or.inl (set_head _ _ _ _ (by omega))

end Mlibtool
